import Mathlib

/-!
The tool fossilize-prune: reachability pruning of a Fossilize database.

A shallow embedding of `cli/fossilize_prune.cpp`: the callback target
`PruneReplayer` (mark engine), `copy_accessed_types` (sweep), the body of
`main` from the point where both databases are open (scan pass, sweep pass,
per-tag counters), and the command line of `main` in front of it.

Conventions of the embedding.

* `Hash` is `uint64_t`; the Vulkan handles used here are 64-bit non-dispatchable
  handles, so `fake_handle` and the cast back are the identity on the value.
  No arithmetic is done on hashes, they are natural numbers.
* `unordered_set<Hash>` is a duplicate-free list; `insert` adds a hash that is not
  yet present, `count` is list membership, `size` is the length, and iteration
  walks the list (C++ leaves the iteration order unspecified).
* `unordered_map<Hash, const T *>` is a function to `Option T`; `none` stands for
  a key that is absent or mapped to a null pointer (`operator[]` default-inserts a
  null pointer, which every read in this program treats like an absent key).
* A C array `(count, pointer)` is a count and a function from the index to the
  element; the loops run over `List.range count` as in the source.
* `unsigned` counters are reduced modulo `2 ^ 32`.
* The database and the decoder are not part of this source file; they are
  parameters (`DatabaseInterface`, `OutputDatabase`, `StateReplayer`).
* Command-line arguments and paths are `String`s; `strtoull` reads the characters
  of its argument.
-/

namespace Fossilize

/-! ## Data model -/

abbrev Hash := Nat

abbrev Handle := Nat

def VK_NULL_HANDLE : Handle := 0

/-- The cast `(T)v` of `template <typename T> static inline T fake_handle(uint64_t v)`. -/
def fake_handle (v : Hash) : Handle := v

/-- The cast `(Hash) handle` used on every handle field. -/
def to_hash (h : Handle) : Hash := h

/-- The enumeration `ResourceTag`, in the numeric order that indexes `tag_names` in `main`. -/
inductive ResourceTag where
  | RESOURCE_APPLICATION_INFO
  | RESOURCE_SAMPLER
  | RESOURCE_DESCRIPTOR_SET_LAYOUT
  | RESOURCE_PIPELINE_LAYOUT
  | RESOURCE_SHADER_MODULE
  | RESOURCE_RENDER_PASS
  | RESOURCE_GRAPHICS_PIPELINE
  | RESOURCE_COMPUTE_PIPELINE
  deriving DecidableEq, Repr

open ResourceTag

structure VkDescriptorSetLayoutBinding where
  descriptorCount : Nat
  pImmutableSamplers : Option (Nat → Handle)

structure VkDescriptorSetLayoutCreateInfo where
  bindingCount : Nat
  pBindings : Nat → VkDescriptorSetLayoutBinding

structure VkPipelineLayoutCreateInfo where
  setLayoutCount : Nat
  pSetLayouts : Nat → Handle

structure VkPipelineShaderStageCreateInfo where
  module : Handle

structure VkComputePipelineCreateInfo where
  layout : Handle
  stage : VkPipelineShaderStageCreateInfo

structure VkGraphicsPipelineCreateInfo where
  layout : Handle
  renderPass : Handle
  stageCount : Nat
  pStages : Nat → VkPipelineShaderStageCreateInfo

/-- The operation `unordered_set<Hash>::insert`. -/
def set_insert (hash : Hash) (s : List Hash) : List Hash :=
  if hash ∈ s then s else hash :: s

/-- The fields of `struct PruneReplayer : StateCreatorInterface`. -/
structure PruneReplayer where
  accessed_samplers : List Hash
  accessed_descriptor_sets : List Hash
  accessed_pipeline_layouts : List Hash
  accessed_shader_modules : List Hash
  accessed_render_passes : List Hash
  accessed_graphics_pipelines : List Hash
  accessed_compute_pipelines : List Hash
  descriptor_sets : Hash → Option VkDescriptorSetLayoutCreateInfo
  pipeline_layouts : Hash → Option VkPipelineLayoutCreateInfo
  current_application : Hash
  filter_application_hash : Hash
  should_filter_application_hash : Bool
  allow_application_info : Bool

/-- A freshly constructed `PruneReplayer` (the member initialisers). -/
def PruneReplayer.init : PruneReplayer where
  accessed_samplers := []
  accessed_descriptor_sets := []
  accessed_pipeline_layouts := []
  accessed_shader_modules := []
  accessed_render_passes := []
  accessed_graphics_pipelines := []
  accessed_compute_pipelines := []
  descriptor_sets := fun _ => none
  pipeline_layouts := fun _ => none
  current_application := 0
  filter_application_hash := 0
  should_filter_application_hash := false
  allow_application_info := false

/-- What an `enqueue_create_*` callback hands back: its `bool` result, the handle
written through the out-pointer, and the replayer afterwards. -/
structure Enqueued where
  result : Bool
  handle : Handle
  self : PruneReplayer

/-! ## The callbacks of `PruneReplayer` -/

/-- The callback `set_application_info`: it only logs (when `allow_application_info`). -/
def set_application_info (s : PruneReplayer) : PruneReplayer := s

def set_current_application_info (s : PruneReplayer) (hash : Hash) : PruneReplayer :=
  { s with current_application := hash }

def enqueue_create_sampler (s : PruneReplayer) (hash : Hash) : Enqueued :=
  ⟨true, fake_handle hash, s⟩

def access_sampler (s : PruneReplayer) (hash : Hash) : PruneReplayer :=
  { s with accessed_samplers := set_insert hash s.accessed_samplers }

/-- The inner loop of `access_descriptor_set` over one binding. -/
def access_binding (s : PruneReplayer) (bind : VkDescriptorSetLayoutBinding) : PruneReplayer :=
  match bind.pImmutableSamplers with
  | none => s
  | some samplers =>
    if bind.descriptorCount ≠ 0 then
      (List.range bind.descriptorCount).foldl
        (fun acc i =>
          if samplers i ≠ VK_NULL_HANDLE then access_sampler acc (to_hash (samplers i)) else acc)
        s
    else s

def access_descriptor_set (s : PruneReplayer) (hash : Hash) : PruneReplayer :=
  if hash ∈ s.accessed_descriptor_sets then s
  else
    let s1 := { s with accessed_descriptor_sets := set_insert hash s.accessed_descriptor_sets }
    match s1.descriptor_sets hash with
    | none => s1
    | some create_info =>
      (List.range create_info.bindingCount).foldl
        (fun acc binding => access_binding acc (create_info.pBindings binding)) s1

def access_pipeline_layout (s : PruneReplayer) (hash : Hash) : PruneReplayer :=
  if hash ∈ s.accessed_pipeline_layouts then s
  else
    let s1 := { s with accessed_pipeline_layouts := set_insert hash s.accessed_pipeline_layouts }
    match s1.pipeline_layouts hash with
    | none => s1
    | some create_info =>
      (List.range create_info.setLayoutCount).foldl
        (fun acc layout => access_descriptor_set acc (to_hash (create_info.pSetLayouts layout))) s1

def enqueue_create_descriptor_set_layout (s : PruneReplayer) (hash : Hash)
    (create_info : VkDescriptorSetLayoutCreateInfo) : Enqueued :=
  ⟨true, fake_handle hash,
    { s with descriptor_sets := Function.update s.descriptor_sets hash (some create_info) }⟩

def enqueue_create_pipeline_layout (s : PruneReplayer) (hash : Hash)
    (create_info : VkPipelineLayoutCreateInfo) : Enqueued :=
  ⟨true, fake_handle hash,
    { s with pipeline_layouts := Function.update s.pipeline_layouts hash (some create_info) }⟩

def enqueue_create_shader_module (s : PruneReplayer) (hash : Hash) : Enqueued :=
  ⟨true, fake_handle hash, s⟩

def enqueue_create_render_pass (s : PruneReplayer) (hash : Hash) : Enqueued :=
  ⟨true, fake_handle hash, s⟩

/-- The statement `accessed_shader_modules.insert(hash)`. -/
def insert_shader_module (s : PruneReplayer) (hash : Hash) : PruneReplayer :=
  { s with accessed_shader_modules := set_insert hash s.accessed_shader_modules }

/-- The test `!should_filter_application_hash || current_application == filter_application_hash`. -/
def PruneReplayer.accepts (s : PruneReplayer) : Bool :=
  !s.should_filter_application_hash || s.current_application == s.filter_application_hash

def enqueue_create_compute_pipeline (s : PruneReplayer) (hash : Hash)
    (create_info : VkComputePipelineCreateInfo) : Enqueued :=
  if s.accepts then
    let s1 := access_pipeline_layout s (to_hash create_info.layout)
    let s2 := insert_shader_module s1 (to_hash create_info.stage.module)
    let s3 := { s2 with accessed_compute_pipelines := set_insert hash s2.accessed_compute_pipelines }
    ⟨true, fake_handle hash, s3⟩
  else ⟨true, fake_handle hash, s⟩

def enqueue_create_graphics_pipeline (s : PruneReplayer) (hash : Hash)
    (create_info : VkGraphicsPipelineCreateInfo) : Enqueued :=
  if s.accepts then
    let s1 := access_pipeline_layout s (to_hash create_info.layout)
    let render_pass := to_hash create_info.renderPass
    let s2 := { s1 with accessed_render_passes := set_insert render_pass s1.accessed_render_passes }
    let s3 := (List.range create_info.stageCount).foldl
      (fun acc stage => insert_shader_module acc (to_hash (create_info.pStages stage).module)) s2
    let s4 := { s3 with accessed_graphics_pipelines := set_insert hash s3.accessed_graphics_pipelines }
    ⟨true, fake_handle hash, s4⟩
  else ⟨true, fake_handle hash, s⟩

/-! ## The decoder and the databases (external collaborators) -/

/-- One callback of `StateCreatorInterface` as invoked by the decoder on the
`PruneReplayer`, with the arguments the replayer looks at. -/
inductive Event where
  | set_application_info
  | set_current_application_info (hash : Hash)
  | enqueue_create_sampler (hash : Hash)
  | enqueue_create_descriptor_set_layout (hash : Hash) (create_info : VkDescriptorSetLayoutCreateInfo)
  | enqueue_create_pipeline_layout (hash : Hash) (create_info : VkPipelineLayoutCreateInfo)
  | enqueue_create_shader_module (hash : Hash)
  | enqueue_create_render_pass (hash : Hash)
  | enqueue_create_compute_pipeline (hash : Hash) (create_info : VkComputePipelineCreateInfo)
  | enqueue_create_graphics_pipeline (hash : Hash) (create_info : VkGraphicsPipelineCreateInfo)

/-- The effect of one callback on the `PruneReplayer`. -/
def PruneReplayer.dispatch (s : PruneReplayer) : Event → PruneReplayer
  | .set_application_info => set_application_info s
  | .set_current_application_info hash => set_current_application_info s hash
  | .enqueue_create_sampler hash => (enqueue_create_sampler s hash).self
  | .enqueue_create_descriptor_set_layout hash ci => (enqueue_create_descriptor_set_layout s hash ci).self
  | .enqueue_create_pipeline_layout hash ci => (enqueue_create_pipeline_layout s hash ci).self
  | .enqueue_create_shader_module hash => (enqueue_create_shader_module s hash).self
  | .enqueue_create_render_pass hash => (enqueue_create_render_pass s hash).self
  | .enqueue_create_compute_pipeline hash ci => (enqueue_create_compute_pipeline s hash ci).self
  | .enqueue_create_graphics_pipeline hash ci => (enqueue_create_graphics_pipeline s hash ci).self

/-- The callbacks of one `parse` call, applied in order. -/
def PruneReplayer.replay (s : PruneReplayer) (events : List Event) : PruneReplayer :=
  events.foldl PruneReplayer.dispatch s

/-- What one call `replayer.parse(prune_replayer, db, data, size)` does: the
callbacks it invokes, in order, and whether it ended by throwing. The callbacks
made before a throw have already taken effect when `main` catches it. -/
structure ParseResult where
  events : List Event
  threw : Bool

/-- Modelled from the spec: the Decoder (`StateReplayer`, declared in a header that
is not part of this source file): `decode(bytes, callback_target)` either succeeds
or raises a decode error, and invokes zero or more creation-event callbacks on the
callback target while decoding. -/
structure StateReplayer where
  parse : List Nat → ParseResult

/-- Modelled from the spec: the source Record Store (`DatabaseInterface`, declared in
`fossilize_db.hpp`, not part of this source file): `list_hashes(kind)` and
`read(kind, hash, raw)`, which fails if the record is absent. `none` is a call that
returns `false`. The flag is `true` for `PAYLOAD_READ_RAW_FOSSILIZE_DB_BIT` and
`false` for flags `0`. The size query and the data read of the source are two calls
of the same function. -/
structure DatabaseInterface where
  get_hash_list_for_resource_tag : ResourceTag → Option (List Hash)
  read_entry : ResourceTag → Hash → Bool → Option (List Nat)

/-- Modelled from the spec: the destination Record Store, `write(kind, hash, bytes,
raw) -> success/fail`: the raw entries written so far, latest first, and which
writes the store accepts. -/
structure OutputDatabase where
  entries : List (ResourceTag × Hash × List Nat)
  accepts_write : ResourceTag → Hash → List Nat → Bool

/-- The call `output_db.write_entry(tag, hash, data, size, PAYLOAD_WRITE_RAW_FOSSILIZE_DB_BIT)`;
`none` when it returns `false`. -/
def OutputDatabase.write_entry (db : OutputDatabase) (tag : ResourceTag) (hash : Hash)
    (data : List Nat) : Option OutputDatabase :=
  if db.accepts_write tag hash data then some { db with entries := (tag, hash, data) :: db.entries }
  else none

/-! ## `copy_accessed_types` and `main` -/

/-- The range of `unsigned`. -/
def UINT_RANGE : Nat := 4294967296

/-- The loop of `copy_accessed_types` over the hashes of the set; `false` is the
early `return false`, with the destination as it is at that point. -/
def copy_accessed_loop (input_db : DatabaseInterface) (tag : ResourceTag) :
    List Hash → OutputDatabase → Bool × OutputDatabase
  | [], output_db => (true, output_db)
  | hash :: rest, output_db =>
    match input_db.read_entry tag hash true with
    | none => (false, output_db)
    | some _ =>
      match input_db.read_entry tag hash true with
      | none => (false, output_db)
      | some state_json =>
        match output_db.write_entry tag hash state_json with
        | none => (false, output_db)
        | some output_db1 => copy_accessed_loop input_db tag rest output_db1

/-- The function `copy_accessed_types`: its result, the destination and `per_tag_written`
afterwards. -/
def copy_accessed_types (input_db : DatabaseInterface) (output_db : OutputDatabase)
    (accessed : List Hash) (tag : ResourceTag) (per_tag_written : ResourceTag → Nat) :
    Bool × OutputDatabase × (ResourceTag → Nat) :=
  let per_tag_written1 := Function.update per_tag_written tag (accessed.length % UINT_RANGE)
  let r := copy_accessed_loop input_db tag accessed output_db
  (r.1, r.2, per_tag_written1)

/-- The mutable state of `main` once both databases are open. -/
structure Driver where
  prune_replayer : PruneReplayer
  output_db : OutputDatabase
  per_tag_read : ResourceTag → Nat
  per_tag_written : ResourceTag → Nat

def playback_order : List ResourceTag :=
  [RESOURCE_APPLICATION_INFO, RESOURCE_SHADER_MODULE, RESOURCE_SAMPLER,
   RESOURCE_DESCRIPTOR_SET_LAYOUT, RESOURCE_PIPELINE_LAYOUT, RESOURCE_RENDER_PASS,
   RESOURCE_GRAPHICS_PIPELINE, RESOURCE_COMPUTE_PIPELINE]

/-- The raw copy of one `ApplicationInfo` record inside the scan loop. `Except.error`
is `return EXIT_FAILURE`, carrying the state at that point. -/
def copy_application_info (input_db : DatabaseInterface) (tag : ResourceTag) (hash : Hash)
    (d : Driver) : Except Driver Driver :=
  match input_db.read_entry tag hash true with
  | none => .error d
  | some _ =>
    match input_db.read_entry tag hash true with
    | none => .error d
    | some state_json =>
      match d.output_db.write_entry tag hash state_json with
      | none => .error d
      | some output_db1 =>
        .ok { d with
          output_db := output_db1
          per_tag_written :=
            Function.update d.per_tag_written tag ((d.per_tag_written tag + 1) % UINT_RANGE) }

/-- The body of `for (auto hash : hashes)` in the scan loop of `main`. -/
def scan_entry (replayer : StateReplayer) (input_db : DatabaseInterface)
    (should_filter_application_hash : Bool) (application_hash : Hash)
    (tag : ResourceTag) (hash : Hash) (d : Driver) : Except Driver Driver :=
  match input_db.read_entry tag hash false with
  | none => .error d
  | some _ =>
    match input_db.read_entry tag hash false with
    | none => .error d
    | some state_json =>
      -- try { replayer.parse(...) } catch (...) { LOGE(...) }
      let d1 := { d with
        prune_replayer := d.prune_replayer.replay (replayer.parse state_json).events }
      if tag = RESOURCE_APPLICATION_INFO then
        if !should_filter_application_hash || hash == application_hash then
          copy_application_info input_db tag hash d1
        else .ok d1
      else .ok d1

/-- The loop `for (auto hash : hashes)` with its early exits. -/
def scan_entries (replayer : StateReplayer) (input_db : DatabaseInterface)
    (should_filter_application_hash : Bool) (application_hash : Hash)
    (tag : ResourceTag) : List Hash → Driver → Except Driver Driver
  | [], d => .ok d
  | hash :: rest, d =>
    match scan_entry replayer input_db should_filter_application_hash application_hash tag hash d with
    | .error e => .error e
    | .ok d1 =>
      scan_entries replayer input_db should_filter_application_hash application_hash tag rest d1

/-- The body of `for (auto &tag : playback_order)` in `main`. -/
def scan_tag (replayer : StateReplayer) (input_db : DatabaseInterface)
    (should_filter_application_hash : Bool) (application_hash : Hash)
    (tag : ResourceTag) (d : Driver) : Except Driver Driver :=
  if tag = RESOURCE_SHADER_MODULE then .ok d
  else
    let d1 := { d with
      prune_replayer := { d.prune_replayer with
        allow_application_info := decide (tag = RESOURCE_APPLICATION_INFO) } }
    match input_db.get_hash_list_for_resource_tag tag with
    | none => .error d1
    | some counted =>
      let d2 := { d1 with
        per_tag_read := Function.update d1.per_tag_read tag (counted.length % UINT_RANGE) }
      match input_db.get_hash_list_for_resource_tag tag with
      | none => .error d2
      | some hashes =>
        scan_entries replayer input_db should_filter_application_hash application_hash tag hashes d2

/-- The scan pass: `for (auto &tag : playback_order)` with its early exits. -/
def scan_tags (replayer : StateReplayer) (input_db : DatabaseInterface)
    (should_filter_application_hash : Bool) (application_hash : Hash) :
    List ResourceTag → Driver → Except Driver Driver
  | [], d => .ok d
  | tag :: rest, d =>
    match scan_tag replayer input_db should_filter_application_hash application_hash tag d with
    | .error e => .error e
    | .ok d1 => scan_tags replayer input_db should_filter_application_hash application_hash rest d1

/-- One `if (!copy_accessed_types(...)) return EXIT_FAILURE;` of `main`. -/
def sweep_step (input_db : DatabaseInterface) (accessed : PruneReplayer → List Hash)
    (tag : ResourceTag) (d : Driver) : Except Driver Driver :=
  let r := copy_accessed_types input_db d.output_db (accessed d.prune_replayer) tag d.per_tag_written
  let d1 := { d with output_db := r.2.1, per_tag_written := r.2.2 }
  if r.1 then .ok d1 else .error d1

/-- The sweep pass of `main`: the seven calls of `copy_accessed_types`, in order. -/
def sweep (input_db : DatabaseInterface) (d : Driver) : Except Driver Driver :=
  match sweep_step input_db (·.accessed_samplers) RESOURCE_SAMPLER d with
  | .error e => .error e
  | .ok d1 =>
  match sweep_step input_db (·.accessed_descriptor_sets) RESOURCE_DESCRIPTOR_SET_LAYOUT d1 with
  | .error e => .error e
  | .ok d2 =>
  match sweep_step input_db (·.accessed_shader_modules) RESOURCE_SHADER_MODULE d2 with
  | .error e => .error e
  | .ok d3 =>
  match sweep_step input_db (·.accessed_render_passes) RESOURCE_RENDER_PASS d3 with
  | .error e => .error e
  | .ok d4 =>
  match sweep_step input_db (·.accessed_pipeline_layouts) RESOURCE_PIPELINE_LAYOUT d4 with
  | .error e => .error e
  | .ok d5 =>
  match sweep_step input_db (·.accessed_graphics_pipelines) RESOURCE_GRAPHICS_PIPELINE d5 with
  | .error e => .error e
  | .ok d6 => sweep_step input_db (·.accessed_compute_pipelines) RESOURCE_COMPUTE_PIPELINE d6

/-- The state of `main` right before the scan loop: a fresh `PruneReplayer` with
the filter fields set when `should_filter_application_hash`, zeroed counters, and
the destination just opened. -/
def Driver.start (output_db : OutputDatabase)
    (should_filter_application_hash : Bool) (application_hash : Hash) : Driver where
  prune_replayer :=
    if should_filter_application_hash then
      { PruneReplayer.init with
        should_filter_application_hash := true
        filter_application_hash := application_hash }
    else PruneReplayer.init
  output_db := output_db
  per_tag_read := fun _ => 0
  per_tag_written := fun _ => 0

/-- The scan pass of `main` from its start state. -/
def scan (replayer : StateReplayer) (input_db : DatabaseInterface) (output_db : OutputDatabase)
    (should_filter_application_hash : Bool) (application_hash : Hash) : Except Driver Driver :=
  scan_tags replayer input_db should_filter_application_hash application_hash playback_order
    (Driver.start output_db should_filter_application_hash application_hash)

/-- The body of `main` from the scan loop to the report: `Except.ok` is the normal
end (exit status success), `Except.error` is `return EXIT_FAILURE`. The report
prints `per_tag_read[tag]` and `per_tag_written[tag]` of the final state. -/
def prune (replayer : StateReplayer) (input_db : DatabaseInterface) (output_db : OutputDatabase)
    (should_filter_application_hash : Bool) (application_hash : Hash) : Except Driver Driver :=
  match scan replayer input_db output_db should_filter_application_hash application_hash with
  | .error e => .error e
  | .ok d => sweep input_db d

end Fossilize

namespace Fossilize

open ResourceTag

/-! ## Reference lists of the decoded views -/

/-- The sampler hashes that `access_binding` passes to `access_sampler`. -/
def binding_samplers (bind : VkDescriptorSetLayoutBinding) : List Hash :=
  match bind.pImmutableSamplers with
  | none => []
  | some samplers =>
    if bind.descriptorCount ≠ 0 then
      (((List.range bind.descriptorCount).map samplers).filter (· ≠ VK_NULL_HANDLE)).map to_hash
    else []

/-- The non-null immutable-sampler hashes of a descriptor-set-layout view. -/
def immutable_samplers (create_info : VkDescriptorSetLayoutCreateInfo) : List Hash :=
  ((List.range create_info.bindingCount).map
    (fun binding => binding_samplers (create_info.pBindings binding))).flatten

/-- The set-layout hashes of a pipeline-layout view. -/
def set_layouts (create_info : VkPipelineLayoutCreateInfo) : List Hash :=
  (List.range create_info.setLayoutCount).map (fun layout => to_hash (create_info.pSetLayouts layout))

/-- The stage module hashes of a graphics pipeline. -/
def stage_modules (create_info : VkGraphicsPipelineCreateInfo) : List Hash :=
  (List.range create_info.stageCount).map (fun stage => to_hash (create_info.pStages stage).module)

/-- The sampler references of `d` under the stored views of `s`. -/
def PruneReplayer.samplers_of (s : PruneReplayer) (d : Hash) : List Hash :=
  match s.descriptor_sets d with
  | none => []
  | some create_info => immutable_samplers create_info

/-- The set-layout references of `p` under the stored views of `s`. -/
def PruneReplayer.set_layouts_of (s : PruneReplayer) (p : Hash) : List Hash :=
  match s.pipeline_layouts p with
  | none => []
  | some create_info => set_layouts create_info

/-- The insertion (`unordered_set::insert`) of every hash of a list, in order. -/
def insert_all (hashes : List Hash) (s : List Hash) : List Hash :=
  hashes.foldl (fun acc hash => set_insert hash acc) s

/-! ## A small concrete decoder and store, used to exercise the model -/

/-- A view with `count` entries read from a list. -/
def array_of (l : List Handle) : Nat → Handle := fun i => l.getD i 0

/-- A descriptor-set-layout view with one binding holding the given immutable samplers. -/
def dsl_view (samplers : List Handle) : VkDescriptorSetLayoutCreateInfo where
  bindingCount := 1
  pBindings := fun _ => ⟨samplers.length, some (array_of samplers)⟩

def pl_view (layouts : List Handle) : VkPipelineLayoutCreateInfo where
  setLayoutCount := layouts.length
  pSetLayouts := array_of layouts

def gp_view (layout render_pass : Handle) (modules : List Handle) : VkGraphicsPipelineCreateInfo where
  layout := layout
  renderPass := render_pass
  stageCount := modules.length
  pStages := fun i => ⟨array_of modules i⟩

def cp_view (layout module : Handle) : VkComputePipelineCreateInfo where
  layout := layout
  stage := ⟨module⟩

/-- A toy record format: the first number is the numeric tag, the second the
session the record was captured in, the third the hash, then the references. Any
other payload makes the decoder throw before it invokes a callback. -/
def toy_parse : List Nat → ParseResult
  | [0, _] => ⟨[.set_application_info], false⟩
  | [1, app, hash] => ⟨[.set_current_application_info app, .enqueue_create_sampler hash], false⟩
  | 2 :: app :: hash :: samplers =>
    ⟨[.set_current_application_info app,
      .enqueue_create_descriptor_set_layout hash (dsl_view samplers)], false⟩
  | 3 :: app :: hash :: layouts =>
    ⟨[.set_current_application_info app,
      .enqueue_create_pipeline_layout hash (pl_view layouts)], false⟩
  | [5, app, hash] => ⟨[.set_current_application_info app, .enqueue_create_render_pass hash], false⟩
  | 6 :: app :: hash :: layout :: render_pass :: modules =>
    ⟨[.set_current_application_info app,
      .enqueue_create_graphics_pipeline hash (gp_view layout render_pass modules)], false⟩
  | [7, app, hash, layout, module] =>
    ⟨[.set_current_application_info app,
      .enqueue_create_compute_pipeline hash (cp_view layout module)], false⟩
  | _ => ⟨[], true⟩

def toy_replayer : StateReplayer := ⟨toy_parse⟩

/-- A source store given by its records `(tag, hash, payload)`; the raw bytes of a
record are its payload behind a one-byte header. -/
def store_of (records : List (ResourceTag × Hash × List Nat)) : DatabaseInterface where
  get_hash_list_for_resource_tag := fun tag =>
    some ((records.filter (fun r => r.1 = tag)).map (fun r => r.2.1))
  read_entry := fun tag hash raw =>
    match records.find? (fun r => r.1 = tag ∧ r.2.1 = hash) with
    | none => none
    | some r => some (if raw then 255 :: r.2.2 else r.2.2)

/-- A destination that has just been opened and accepts every write. -/
def fresh_output : OutputDatabase := ⟨[], fun _ _ _ => true⟩

/-- The scenario of the specification: samplers 11 (unused) and 12, descriptor-set
layout 21 using sampler 12, pipeline layout 31 using 21, render pass 41, shader
module 51, graphics pipeline 61 of session 1, sessions 1 and 2. -/
def scenario_store : DatabaseInterface :=
  store_of
    [(RESOURCE_APPLICATION_INFO, 1, [0, 1]), (RESOURCE_APPLICATION_INFO, 2, [0, 2]),
     (RESOURCE_SAMPLER, 11, [1, 1, 11]), (RESOURCE_SAMPLER, 12, [1, 1, 12]),
     (RESOURCE_DESCRIPTOR_SET_LAYOUT, 21, [2, 1, 21, 12]),
     (RESOURCE_PIPELINE_LAYOUT, 31, [3, 1, 31, 21]),
     (RESOURCE_SHADER_MODULE, 51, [4, 1, 51]),
     (RESOURCE_RENDER_PASS, 41, [5, 1, 41]),
     (RESOURCE_GRAPHICS_PIPELINE, 61, [6, 1, 61, 31, 41, 51])]

end Fossilize

namespace Fossilize

open ResourceTag

/-! ## Roots, accepted events and closure properties -/

/-- The event is a pipeline creation event. -/
def Event.is_pipeline : Event → Bool
  | .enqueue_create_compute_pipeline _ _ => true
  | .enqueue_create_graphics_pipeline _ _ => true
  | _ => false

/-- The event registers a view in one of the two lookup tables. -/
def Event.is_layout : Event → Bool
  | .enqueue_create_descriptor_set_layout _ _ => true
  | .enqueue_create_pipeline_layout _ _ => true
  | _ => false

/-- The pipeline-layout reference of a pipeline creation event. -/
def Event.root_layouts : Event → List Hash
  | .enqueue_create_compute_pipeline _ ci => [to_hash ci.layout]
  | .enqueue_create_graphics_pipeline _ ci => [to_hash ci.layout]
  | _ => []

/-- The render-pass reference of a graphics pipeline creation event. -/
def Event.root_render_passes : Event → List Hash
  | .enqueue_create_graphics_pipeline _ ci => [to_hash ci.renderPass]
  | _ => []

/-- The shader-module references of a pipeline creation event. -/
def Event.root_modules : Event → List Hash
  | .enqueue_create_compute_pipeline _ ci => [to_hash ci.stage.module]
  | .enqueue_create_graphics_pipeline _ ci => stage_modules ci
  | _ => []

def Event.root_graphics : Event → List Hash
  | .enqueue_create_graphics_pipeline hash _ => [hash]
  | _ => []

def Event.root_computes : Event → List Hash
  | .enqueue_create_compute_pipeline hash _ => [hash]
  | _ => []

/-- The pipeline creation events of a callback sequence that pass the session
filter test at the moment they are dispatched, starting from `s`. -/
def PruneReplayer.accepted_events (s : PruneReplayer) : List Event → List Event
  | [] => []
  | e :: rest =>
    (if e.is_pipeline && s.accepts then [e] else []) ++ (s.dispatch e).accepted_events rest

/-- The seven reachable sets, in the order of their declaration. -/
def PruneReplayer.sets (s : PruneReplayer) : List (List Hash) :=
  [s.accessed_samplers, s.accessed_descriptor_sets, s.accessed_pipeline_layouts,
   s.accessed_shader_modules, s.accessed_render_passes, s.accessed_graphics_pipelines,
   s.accessed_compute_pipelines]

/-- The two replayers hold the same hashes in each of the seven reachable sets. -/
def PruneReplayer.same_reachable (s t : PruneReplayer) : Prop :=
  (∀ x, x ∈ s.accessed_samplers ↔ x ∈ t.accessed_samplers) ∧
  (∀ x, x ∈ s.accessed_descriptor_sets ↔ x ∈ t.accessed_descriptor_sets) ∧
  (∀ x, x ∈ s.accessed_pipeline_layouts ↔ x ∈ t.accessed_pipeline_layouts) ∧
  (∀ x, x ∈ s.accessed_shader_modules ↔ x ∈ t.accessed_shader_modules) ∧
  (∀ x, x ∈ s.accessed_render_passes ↔ x ∈ t.accessed_render_passes) ∧
  (∀ x, x ∈ s.accessed_graphics_pipelines ↔ x ∈ t.accessed_graphics_pipelines) ∧
  (∀ x, x ∈ s.accessed_compute_pipelines ↔ x ∈ t.accessed_compute_pipelines)

/-- Every hash of each reachable set of `s` is in the corresponding set of `t`. -/
def PruneReplayer.sub_reachable (s t : PruneReplayer) : Prop :=
  (∀ x, x ∈ s.accessed_samplers → x ∈ t.accessed_samplers) ∧
  (∀ x, x ∈ s.accessed_descriptor_sets → x ∈ t.accessed_descriptor_sets) ∧
  (∀ x, x ∈ s.accessed_pipeline_layouts → x ∈ t.accessed_pipeline_layouts) ∧
  (∀ x, x ∈ s.accessed_shader_modules → x ∈ t.accessed_shader_modules) ∧
  (∀ x, x ∈ s.accessed_render_passes → x ∈ t.accessed_render_passes) ∧
  (∀ x, x ∈ s.accessed_graphics_pipelines → x ∈ t.accessed_graphics_pipelines) ∧
  (∀ x, x ∈ s.accessed_compute_pipelines → x ∈ t.accessed_compute_pipelines)

/-- Everything but the reachable sets is the same in `s` and `t`. -/
def PruneReplayer.same_frame (s t : PruneReplayer) : Prop :=
  t.descriptor_sets = s.descriptor_sets ∧ t.pipeline_layouts = s.pipeline_layouts ∧
  t.current_application = s.current_application ∧
  t.filter_application_hash = s.filter_application_hash ∧
  t.should_filter_application_hash = s.should_filter_application_hash ∧
  t.allow_application_info = s.allow_application_info

/-- How the reachable sets of `t` arise from those of `s` when the pipeline
creation event `e` is accepted in `s`. -/
def MarkStep (s t : PruneReplayer) (e : Event) : Prop :=
  s.same_frame t ∧
  (∀ x, x ∈ t.accessed_graphics_pipelines ↔ x ∈ s.accessed_graphics_pipelines ∨ x ∈ e.root_graphics) ∧
  (∀ x, x ∈ t.accessed_compute_pipelines ↔ x ∈ s.accessed_compute_pipelines ∨ x ∈ e.root_computes) ∧
  (∀ x, x ∈ t.accessed_render_passes ↔ x ∈ s.accessed_render_passes ∨ x ∈ e.root_render_passes) ∧
  (∀ x, x ∈ t.accessed_shader_modules ↔ x ∈ s.accessed_shader_modules ∨ x ∈ e.root_modules) ∧
  (∀ x, x ∈ t.accessed_pipeline_layouts ↔ x ∈ s.accessed_pipeline_layouts ∨ x ∈ e.root_layouts) ∧
  (∀ x, x ∈ t.accessed_descriptor_sets ↔ x ∈ s.accessed_descriptor_sets ∨
    ∃ p ∈ e.root_layouts, p ∉ s.accessed_pipeline_layouts ∧ x ∈ s.set_layouts_of p) ∧
  (∀ x, x ∈ t.accessed_samplers ↔ x ∈ s.accessed_samplers ∨
    ∃ d ∈ t.accessed_descriptor_sets, d ∉ s.accessed_descriptor_sets ∧ x ∈ s.samplers_of d)

/-- The reachable sets are closed under the stored views: the set layouts of a
marked pipeline layout and the non-null immutable samplers of a marked
descriptor-set layout are marked. -/
def PruneReplayer.Closed (s : PruneReplayer) : Prop :=
  (∀ p ∈ s.accessed_pipeline_layouts, ∀ x ∈ s.set_layouts_of p, x ∈ s.accessed_descriptor_sets) ∧
  (∀ d ∈ s.accessed_descriptor_sets, ∀ x ∈ s.samplers_of d, x ∈ s.accessed_samplers)

/-- Every marked descriptor-set layout is a set layout of a marked pipeline layout
and every marked sampler an immutable sampler of a marked descriptor-set layout,
under the stored views. -/
def PruneReplayer.Sound (s : PruneReplayer) : Prop :=
  (∀ x ∈ s.accessed_descriptor_sets, ∃ p ∈ s.accessed_pipeline_layouts, x ∈ s.set_layouts_of p) ∧
  (∀ x ∈ s.accessed_samplers, ∃ d ∈ s.accessed_descriptor_sets, x ∈ s.samplers_of d)

/-- The references of every event of `roots` are marked in `s`. -/
def PruneReplayer.RootsMarked (s : PruneReplayer) (roots : List Event) : Prop :=
  ∀ e ∈ roots,
    (∀ x ∈ e.root_graphics, x ∈ s.accessed_graphics_pipelines) ∧
    (∀ x ∈ e.root_computes, x ∈ s.accessed_compute_pipelines) ∧
    (∀ x ∈ e.root_render_passes, x ∈ s.accessed_render_passes) ∧
    (∀ x ∈ e.root_modules, x ∈ s.accessed_shader_modules) ∧
    (∀ x ∈ e.root_layouts, x ∈ s.accessed_pipeline_layouts)

/-- Every pipeline, pipeline layout, render pass and shader module marked in `s` is
one of, or is referenced by one of, the events of `roots`. -/
def PruneReplayer.FromRoots (s : PruneReplayer) (roots : List Event) : Prop :=
  (∀ x ∈ s.accessed_graphics_pipelines, ∃ e ∈ roots, x ∈ e.root_graphics) ∧
  (∀ x ∈ s.accessed_compute_pipelines, ∃ e ∈ roots, x ∈ e.root_computes) ∧
  (∀ x ∈ s.accessed_render_passes, ∃ e ∈ roots, x ∈ e.root_render_passes) ∧
  (∀ x ∈ s.accessed_shader_modules, ∃ e ∈ roots, x ∈ e.root_modules) ∧
  (∀ x ∈ s.accessed_pipeline_layouts, ∃ e ∈ roots, x ∈ e.root_layouts)

end Fossilize

namespace Fossilize

/-- No hash is marked yet. -/
def PruneReplayer.unmarked (s : PruneReplayer) : Prop :=
  s.sets = [[], [], [], [], [], [], []]

end Fossilize

namespace Fossilize

open ResourceTag

/-! ## The callback sequence of the scan pass -/

/-- The callbacks made while decoding the record `(tag, hash)`. -/
def entry_events (replayer : StateReplayer) (input_db : DatabaseInterface)
    (tag : ResourceTag) (hash : Hash) : List Event :=
  match input_db.read_entry tag hash false with
  | none => []
  | some state_json => (replayer.parse state_json).events

/-- The hashes that the scan pass lists and decodes for `tag`. -/
def scanned_hashes (input_db : DatabaseInterface) (tag : ResourceTag) : List Hash :=
  if tag = RESOURCE_SHADER_MODULE then []
  else
    match input_db.get_hash_list_for_resource_tag tag with
    | none => []
    | some hashes => hashes

/-- The callbacks made while the scan pass works through the records of `tag`. -/
def tag_events (replayer : StateReplayer) (input_db : DatabaseInterface)
    (tag : ResourceTag) : List Event :=
  ((scanned_hashes input_db tag).map (entry_events replayer input_db tag)).flatten

/-- The callbacks made while the scan pass works through `tags`, in order. -/
def scan_events (replayer : StateReplayer) (input_db : DatabaseInterface)
    (tags : List ResourceTag) : List Event :=
  (tags.map (tag_events replayer input_db)).flatten

/-- The filter test of `main` on an `ApplicationInfo` hash. -/
def passes_filter (should_filter_application_hash : Bool) (application_hash : Hash)
    (hash : Hash) : Bool :=
  !should_filter_application_hash || hash == application_hash

end Fossilize

namespace Fossilize

/-- The replayer with `allow_application_info` set to `b`. -/
def PruneReplayer.with_allow (s : PruneReplayer) (b : Bool) : PruneReplayer :=
  { s with allow_application_info := b }

end Fossilize

namespace Fossilize

open ResourceTag

/-! ## The decoder contract used by the closure properties -/

/-- The callback may be made while a record of kind `tag` is decoded: a session
callback, or the creation callback of that kind. -/
def Event.allowed_in (tag : ResourceTag) : Event → Bool
  | .set_application_info => true
  | .set_current_application_info _ => true
  | .enqueue_create_sampler _ => decide (tag = RESOURCE_SAMPLER)
  | .enqueue_create_descriptor_set_layout _ _ => decide (tag = RESOURCE_DESCRIPTOR_SET_LAYOUT)
  | .enqueue_create_pipeline_layout _ _ => decide (tag = RESOURCE_PIPELINE_LAYOUT)
  | .enqueue_create_shader_module _ => decide (tag = RESOURCE_SHADER_MODULE)
  | .enqueue_create_render_pass _ => decide (tag = RESOURCE_RENDER_PASS)
  | .enqueue_create_compute_pipeline _ _ => decide (tag = RESOURCE_COMPUTE_PIPELINE)
  | .enqueue_create_graphics_pipeline _ _ => decide (tag = RESOURCE_GRAPHICS_PIPELINE)

/-- The decoder keeps to the kind of the record it decodes: every creation callback
made while the scan pass decodes a record of kind `tag` is of kind `tag` (the
CreationEvent of the specification is "scoped to one kind"). -/
def StateReplayer.kinded (replayer : StateReplayer) (input_db : DatabaseInterface) : Bool :=
  playback_order.all (fun tag => (tag_events replayer input_db tag).all (Event.allowed_in tag))

/-- The replayer that `main` hands to the scan pass. -/
def start_replayer (should_filter_application_hash : Bool) (application_hash : Hash) :
    PruneReplayer :=
  (Driver.start fresh_output should_filter_application_hash application_hash).prune_replayer

/-- The pipeline creation events of the whole scan pass that pass the session filter. -/
def accepted_roots (replayer : StateReplayer) (input_db : DatabaseInterface)
    (should_filter_application_hash : Bool) (application_hash : Hash) : List Event :=
  (start_replayer should_filter_application_hash application_hash).accepted_events
    (scan_events replayer input_db playback_order)

end Fossilize

namespace Fossilize

/-- Every stored view was registered by a layout creation callback of `events`. -/
def PruneReplayer.TablesFrom (s : PruneReplayer) (events : List Event) : Prop :=
  (∀ d ci, s.descriptor_sets d = some ci →
    Event.enqueue_create_descriptor_set_layout d ci ∈ events) ∧
  (∀ p ci, s.pipeline_layouts p = some ci → Event.enqueue_create_pipeline_layout p ci ∈ events)

/-- Every marked descriptor-set layout is named by the decoded view of a marked
pipeline layout, and every marked sampler by the decoded view of a marked
descriptor-set layout, the views being those of creation callbacks of `events`. -/
def PruneReplayer.Traced (s : PruneReplayer) (events : List Event) : Prop :=
  (∀ x ∈ s.accessed_descriptor_sets, ∃ p ∈ s.accessed_pipeline_layouts, ∃ ci,
    Event.enqueue_create_pipeline_layout p ci ∈ events ∧ x ∈ set_layouts ci) ∧
  (∀ x ∈ s.accessed_samplers, ∃ d ∈ s.accessed_descriptor_sets, ∃ ci,
    Event.enqueue_create_descriptor_set_layout d ci ∈ events ∧ x ∈ immutable_samplers ci)

end Fossilize

namespace Fossilize

open ResourceTag

/-! ## What the run writes -/

/-- The destination entry that a raw copy of `(tag, hash)` writes. -/
def raw_copy (input_db : DatabaseInterface) (tag : ResourceTag) (hash : Hash) :
    ResourceTag × Hash × List Nat :=
  (tag, hash, (input_db.read_entry tag hash true).getD [])

/-- The raw copies that the scan pass makes while it works through `tag`. -/
def tag_copies (input_db : DatabaseInterface) (should_filter_application_hash : Bool)
    (application_hash : Hash) (tag : ResourceTag) : List (ResourceTag × Hash × List Nat) :=
  if tag = RESOURCE_APPLICATION_INFO then
    ((scanned_hashes input_db tag).filter
      (passes_filter should_filter_application_hash application_hash)).map (raw_copy input_db tag)
  else []

/-- The reachable set of a kind; `ApplicationInfo` has none. -/
def PruneReplayer.accessed (s : PruneReplayer) : ResourceTag → List Hash
  | RESOURCE_APPLICATION_INFO => []
  | RESOURCE_SAMPLER => s.accessed_samplers
  | RESOURCE_DESCRIPTOR_SET_LAYOUT => s.accessed_descriptor_sets
  | RESOURCE_PIPELINE_LAYOUT => s.accessed_pipeline_layouts
  | RESOURCE_SHADER_MODULE => s.accessed_shader_modules
  | RESOURCE_RENDER_PASS => s.accessed_render_passes
  | RESOURCE_GRAPHICS_PIPELINE => s.accessed_graphics_pipelines
  | RESOURCE_COMPUTE_PIPELINE => s.accessed_compute_pipelines

/-- The hashes of the destination entries of kind `tag`, latest first. -/
def OutputDatabase.hashes_of (db : OutputDatabase) (tag : ResourceTag) : List Hash :=
  (db.entries.filter (fun r => decide (r.1 = tag))).map (fun r => r.2.1)

/-- The order of the seven `copy_accessed_types` calls of `main`. -/
def sweep_order : List ResourceTag :=
  [RESOURCE_SAMPLER, RESOURCE_DESCRIPTOR_SET_LAYOUT, RESOURCE_SHADER_MODULE, RESOURCE_RENDER_PASS,
   RESOURCE_PIPELINE_LAYOUT, RESOURCE_GRAPHICS_PIPELINE, RESOURCE_COMPUTE_PIPELINE]

end Fossilize

namespace Fossilize

/-- The state of `main` when it ends, normally or by `return EXIT_FAILURE`. -/
def final_state : Except Driver Driver → Driver
  | .ok d => d
  | .error d => d

/-- The sweep pass over a list of kinds, each with its reachable set. -/
def sweep_tags (input_db : DatabaseInterface) : List ResourceTag → Driver → Except Driver Driver
  | [], d => .ok d
  | tag :: rest, d =>
    match sweep_step input_db (fun s => s.accessed tag) tag d with
    | .error e => .error e
    | .ok d1 => sweep_tags input_db rest d1

end Fossilize

namespace Fossilize

/-- Every pipeline creation callback of the sequence is made while the current
session, `current` at the start and then the hash of the latest
`set_current_application_info` callback, differs from `filter`. -/
def sessions_differ (filter : Hash) : Hash → List Event → Bool
  | _, [] => true
  | _, .set_current_application_info hash :: rest => sessions_differ filter hash rest
  | current, e :: rest =>
    (!e.is_pipeline || current != filter) && sessions_differ filter current rest

end Fossilize

namespace Fossilize

/-- A replayer with nothing marked whose tables hold pipeline layout 31 (set layout
21) and descriptor-set layout 21 (immutable sampler 12). -/
def example_tables : PruneReplayer :=
  { PruneReplayer.init with
    descriptor_sets := Function.update (fun _ => none) 21 (some (dsl_view [12]))
    pipeline_layouts := Function.update (fun _ => none) 31 (some (pl_view [21])) }

/-- A graphics pipeline and a compute pipeline on pipeline layout 31. -/
def example_roots : List Event :=
  [.enqueue_create_graphics_pipeline 61 (gp_view 31 41 [51]),
   .enqueue_create_compute_pipeline 71 (cp_view 31 52)]

end Fossilize

namespace Fossilize

open ResourceTag

/-! ## A store with one record removed -/

/-- The source store without the record `(tag, hash)`: it is no longer listed and
can no longer be read. -/
def DatabaseInterface.remove (db : DatabaseInterface) (tag : ResourceTag) (hash : Hash) :
    DatabaseInterface where
  get_hash_list_for_resource_tag := fun t =>
    (db.get_hash_list_for_resource_tag t).map
      (fun hashes => if t = tag then hashes.filter (fun h => decide (h ≠ hash)) else hashes)
  read_entry := fun t h raw => if t = tag ∧ h = hash then none else db.read_entry t h raw

/-- Everything of the state of `main` except `per_tag_read` is the same. -/
def Driver.same_but_read (d e : Driver) : Prop :=
  d.prune_replayer = e.prune_replayer ∧ d.output_db = e.output_db ∧
    d.per_tag_written = e.per_tag_written

/-- Two runs end the same way (both normally or both by `return EXIT_FAILURE`) in
states that agree on everything except `per_tag_read`. -/
def same_outcome : Except Driver Driver → Except Driver Driver → Prop
  | .ok d, .ok e => d.same_but_read e
  | .error d, .error e => d.same_but_read e
  | _, _ => False

/-- A store whose only record is an `ApplicationInfo` record that the toy decoder
cannot decode. -/
def undecodable_application_store : DatabaseInterface :=
  store_of [(RESOURCE_APPLICATION_INFO, 1, [9, 9])]

/-- The scenario store with the payload of descriptor-set layout 21 replaced by one
that the toy decoder cannot decode. -/
def undecodable_layout_store : DatabaseInterface :=
  store_of
    [(RESOURCE_APPLICATION_INFO, 1, [0, 1]),
     (RESOURCE_SAMPLER, 12, [1, 1, 12]),
     (RESOURCE_DESCRIPTOR_SET_LAYOUT, 21, [9, 9]),
     (RESOURCE_PIPELINE_LAYOUT, 31, [3, 1, 31, 21]),
     (RESOURCE_SHADER_MODULE, 51, [4, 1, 51]),
     (RESOURCE_RENDER_PASS, 41, [5, 1, 41]),
     (RESOURCE_GRAPHICS_PIPELINE, 61, [6, 1, 61, 31, 41, 51])]

end Fossilize

namespace Fossilize

open ResourceTag

/-! ## Pruning the output of a run again -/

/-- Modelled from the spec: the destination store of a finished run, opened as the
source store of a second run (the Record Store is not part of this source file).
It lists the hashes that were written, in the order they were written; a raw read
returns the bytes written; a decoded read of a record returns what the decoded
read of the same record in the first source returns, the raw bytes having been
copied verbatim. -/
def reopen (input_db : DatabaseInterface) (written : OutputDatabase) : DatabaseInterface where
  get_hash_list_for_resource_tag := fun tag => some (written.hashes_of tag).reverse
  read_entry := fun tag hash raw =>
    match written.entries.find? (fun r => decide (r.1 = tag ∧ r.2.1 = hash)) with
    | none => none
    | some r => if raw then some r.2.2 else input_db.read_entry tag hash false

/-- The store is coherent: a record that can be read raw can also be read decoded
and is in the hash list of its kind. -/
def DatabaseInterface.coherent (db : DatabaseInterface) : Prop :=
  ∀ tag hash, (db.read_entry tag hash true).isSome = true →
    (db.read_entry tag hash false).isSome = true ∧
    ∃ hashes, db.get_hash_list_for_resource_tag tag = some hashes ∧ hash ∈ hashes

/-- The kind and hash of a creation callback. -/
def Event.creates : Event → Option (ResourceTag × Hash)
  | .set_application_info => none
  | .set_current_application_info _ => none
  | .enqueue_create_sampler hash => some (RESOURCE_SAMPLER, hash)
  | .enqueue_create_descriptor_set_layout hash _ => some (RESOURCE_DESCRIPTOR_SET_LAYOUT, hash)
  | .enqueue_create_pipeline_layout hash _ => some (RESOURCE_PIPELINE_LAYOUT, hash)
  | .enqueue_create_shader_module hash => some (RESOURCE_SHADER_MODULE, hash)
  | .enqueue_create_render_pass hash => some (RESOURCE_RENDER_PASS, hash)
  | .enqueue_create_compute_pipeline hash _ => some (RESOURCE_COMPUTE_PIPELINE, hash)
  | .enqueue_create_graphics_pipeline hash _ => some (RESOURCE_GRAPHICS_PIPELINE, hash)

/-- No pipeline creation callback comes before the first
`set_current_application_info` callback of the sequence. -/
def tagged_before_pipeline : List Event → Bool
  | [] => true
  | .set_current_application_info _ :: _ => true
  | e :: rest => !e.is_pipeline && tagged_before_pipeline rest

/-- The callbacks of decoding the record `(tag, hash)` have the shape the
specification describes ("one creation event per record", "scoped to one kind"):
at most one creation callback, it is of kind `tag` with hash `hash`, and a pipeline
creation callback comes after the session callback of the record. -/
def record_shape (tag : ResourceTag) (hash : Hash) (events : List Event) : Bool :=
  events.all (fun e =>
      match e.creates with
      | none => true
      | some c => decide (c.1 = tag ∧ c.2 = hash)) &&
    decide ((events.filter (fun e => e.creates.isSome)).length ≤ 1) &&
    tagged_before_pipeline events

/-- Every record that the scan pass decodes has `record_shape`. -/
def StateReplayer.one_event_per_record (replayer : StateReplayer)
    (input_db : DatabaseInterface) : Bool :=
  playback_order.all (fun tag =>
    (scanned_hashes input_db tag).all (fun hash =>
      record_shape tag hash (entry_events replayer input_db tag hash)))

end Fossilize

namespace Fossilize

open ResourceTag

/-- No hash occurs twice in any of the seven reachable sets: the lists stand for
sets, and their lengths for `size()`. -/
def PruneReplayer.duplicate_free (s : PruneReplayer) : Prop :=
  ∀ l ∈ s.sets, l.Nodup

/-- The scenario store with one more sampler, 13, which no layout references and
whose payload the toy decoder cannot decode. -/
def undecodable_sampler_store : DatabaseInterface :=
  store_of
    [(RESOURCE_APPLICATION_INFO, 1, [0, 1]), (RESOURCE_APPLICATION_INFO, 2, [0, 2]),
     (RESOURCE_SAMPLER, 11, [1, 1, 11]), (RESOURCE_SAMPLER, 12, [1, 1, 12]),
     (RESOURCE_SAMPLER, 13, [9, 9]),
     (RESOURCE_DESCRIPTOR_SET_LAYOUT, 21, [2, 1, 21, 12]),
     (RESOURCE_PIPELINE_LAYOUT, 31, [3, 1, 31, 21]),
     (RESOURCE_SHADER_MODULE, 51, [4, 1, 51]),
     (RESOURCE_RENDER_PASS, 41, [5, 1, 41]),
     (RESOURCE_GRAPHICS_PIPELINE, 61, [6, 1, 61, 31, 41, 51])]

end Fossilize

namespace Fossilize

open ResourceTag

/-! ## The sweep seen as one sequence of copies -/

/-- The copy of the record `(tag, hash)` goes through: the raw read from the source
succeeds and the destination accepts the raw write of the bytes read. -/
def copy_succeeds (input_db : DatabaseInterface) (output_db : OutputDatabase)
    (tag : ResourceTag) (hash : Hash) : Bool :=
  match input_db.read_entry tag hash true with
  | none => false
  | some state_json => output_db.accepts_write tag hash state_json

/-- The records that the sweep over `tags` iterates, in order: for each kind, the
hashes of its reachable set. -/
def sweep_sequence (s : PruneReplayer) (tags : List ResourceTag) : List (ResourceTag × Hash) :=
  (tags.map (fun tag => (s.accessed tag).map (fun hash => (tag, hash)))).flatten

/-- The destination entries (latest first) of the records that the sweep over
`tags` iterates before the first one whose copy does not go through. -/
def sweep_written (input_db : DatabaseInterface) (output_db : OutputDatabase) (s : PruneReplayer)
    (tags : List ResourceTag) : List (ResourceTag × Hash × List Nat) :=
  (((sweep_sequence s tags).takeWhile (fun r => copy_succeeds input_db output_db r.1 r.2)).map
    (fun r => raw_copy input_db r.1 r.2)).reverse

/-- A store that holds only the pipeline of the scenario: every record that the
pipeline references is missing. -/
def dangling_store : DatabaseInterface :=
  store_of
    [(RESOURCE_APPLICATION_INFO, 1, [0, 1]),
     (RESOURCE_SHADER_MODULE, 51, [4, 1, 51]),
     (RESOURCE_GRAPHICS_PIPELINE, 61, [6, 1, 61, 31, 41, 51])]

end Fossilize

namespace Fossilize

/-! ## The command line of `main` -/

/-- The range of `unsigned long long`. -/
def ULLONG_RANGE : Nat := 18446744073709551616

def ULLONG_MAX : Nat := 18446744073709551615

/-- The C library predicate `isspace` in the "C" locale: space, and the control
characters from horizontal tab to carriage return. -/
def isspace (c : Char) : Bool :=
  decide (c.toNat = 32 ∨ (9 ≤ c.toNat ∧ c.toNat ≤ 13))

/-- The value of a character as a base 16 digit: `0`-`9`, `a`-`f`, `A`-`F`. -/
def hex_digit (c : Char) : Option Nat :=
  if 48 ≤ c.toNat ∧ c.toNat ≤ 57 then some (c.toNat - 48)
  else if 97 ≤ c.toNat ∧ c.toNat ≤ 102 then some (c.toNat - 87)
  else if 65 ≤ c.toNat ∧ c.toNat ≤ 70 then some (c.toNat - 55)
  else none

/-- The digits that `strtoull` converts: the longest run of base 16 digits at the
head of the string, accumulated onto `acc` (not yet range-checked). -/
def hex_digits : List Char → Nat → Nat
  | [], acc => acc
  | c :: rest, acc =>
    match hex_digit c with
    | none => acc
    | some v => hex_digits rest (16 * acc + v)

/-- The white space that `strtoull` skips at the head of the string. -/
def skip_spaces : List Char → List Char
  | [] => []
  | c :: rest => if isspace c then skip_spaces rest else c :: rest

/-- The sign that `strtoull` accepts after the white space: whether it is a minus,
and the rest of the string. -/
def take_sign : List Char → Bool × List Char
  | [] => (false, [])
  | c :: rest =>
    if c.toNat = 45 then (true, rest)
    else if c.toNat = 43 then (false, rest)
    else (false, c :: rest)

/-- The prefix `0x` or `0X` that `strtoull` accepts in base 16 when a digit follows. -/
def skip_hex_mark : List Char → List Char
  | z :: x :: d :: rest =>
    if z.toNat = 48 ∧ (x.toNat = 120 ∨ x.toNat = 88) ∧ (hex_digit d).isSome = true then d :: rest
    else z :: x :: d :: rest
  | s => s

/-- The C library call `strtoull(nptr, nullptr, 16)` as ISO C defines it: white
space is skipped, then an optional sign, an optional `0x` and the longest run of
base 16 digits are converted; the result is 0 when there is no digit at all,
`ULLONG_MAX` when the value is out of range, and the value negated modulo `2 ^ 64`
after a minus sign. With a null end pointer and `errno` not looked at, as in
`main`, the caller learns nothing else. -/
def strtoull (nptr : String) : Nat :=
  let signed := take_sign (skip_spaces nptr.data)
  let value := hex_digits (skip_hex_mark signed.2) 0
  if ULLONG_RANGE ≤ value then ULLONG_MAX
  else if signed.1 then (ULLONG_RANGE - value) % ULLONG_RANGE
  else value

/-- The local variables of `main` that its command-line callbacks capture. -/
structure Options where
  input_db_path : String
  output_db_path : String
  application_hash : Hash
  should_filter_application_hash : Bool
  deriving DecidableEq

/-- The initial values of these variables. -/
def Options.init : Options := ⟨"", "", 0, false⟩

/-- Modelled from the spec: the walk of `CLIParser::parse` (declared in
`cli_parser.hpp`, not part of this source file) over the arguments, with the four
callbacks that `main` registers by `cbs.add`. Each argument selects the callback
registered under it; `parser.next_string()` hands the following argument to the
callback; `parser.end()` stops the walk. `none` is `parse()` returning `false`
after the error handler has printed the usage ("invalid flag input prints usage
and exits with failure"): an argument with no callback, or no argument left for
`next_string`. Otherwise the result is the variables as the callbacks left them
and `is_ended_state()`. -/
def parse_arguments : List String → Options → Option (Options × Bool)
  | [], o => some (o, false)
  | [flag], o => if flag = "--help" then some (o, true) else none
  | flag :: value :: rest, o =>
    if flag = "--help" then some (o, true)
    else if flag = "--input-db" then parse_arguments rest { o with input_db_path := value }
    else if flag = "--output-db" then parse_arguments rest { o with output_db_path := value }
    else if flag = "--filter-application" then
      parse_arguments rest
        { o with application_hash := strtoull value, should_filter_application_hash := true }
    else none

/-- How `main` ends: by a `return` before `create_database` (after printing the
usage; `EXIT_SUCCESS` only for `--help`), by a store-open failure, or by the run
on the two opened stores. -/
inductive MainResult where
  | usage_exit (success : Bool)
  | open_failed
  | ran (outcome : Except Driver Driver)

/-- The function `main`. The two stores are opened by `create_database` and
`prepare`, which are not part of this source file: `open_input` and `open_output`
give the opened store for a path, `none` when opening fails. -/
def main (open_input : String → Option DatabaseInterface)
    (open_output : String → Option OutputDatabase) (replayer : StateReplayer)
    (argv : List String) : MainResult :=
  match parse_arguments argv Options.init with
  | none => .usage_exit false
  | some (_, true) => .usage_exit true
  | some (o, false) =>
    if o.input_db_path = "" ∨ o.output_db_path = "" then .usage_exit false
    else
      match open_input o.input_db_path with
      | none => .open_failed
      | some input_db =>
        match open_output o.output_db_path with
        | none => .open_failed
        | some output_db =>
          .ran (prune replayer input_db output_db o.should_filter_application_hash
            o.application_hash)

/-- The string is a 64-bit hexadecimal value: one or more base 16 digits writing a
number below `2 ^ 64`. -/
def valid_hex64 (value : String) : Bool :=
  decide (value.data ≠ []) && value.data.all (fun c => (hex_digit c).isSome) &&
    decide (hex_digits value.data 0 < ULLONG_RANGE)

/-- The number that a string of base 16 digits writes. -/
def hex_value (value : String) : Nat :=
  value.data.foldl (fun acc c => 16 * acc + (hex_digit c).getD 0) 0

/-- The command line of a run from `in` to `out` with a session filter. -/
def filtered_arguments (value : String) : List String :=
  ["--input-db", "in", "--output-db", "out", "--filter-application", value]

end Fossilize

namespace Fossilize

/-- The tables of `example_tables` with pipeline layout 31 already marked, though
its set layout 21 is not. -/
def example_marked_layout : PruneReplayer :=
  { example_tables with accessed_pipeline_layouts := [31] }

end Fossilize

namespace Fossilize

open ResourceTag

/-! ## The calls of the scan pass on its collaborators -/

/-- A call that the scan pass makes: it lists the hashes of a kind in the source
store (`get_hash_list_for_resource_tag`), or it hands a record that it has read to
the decoder (`replayer.parse`). -/
inductive ScanCall where
  | list (tag : ResourceTag)
  | decode (tag : ResourceTag) (hash : Hash)
  deriving DecidableEq

/-- The kind that the call is about. -/
def ScanCall.tag : ScanCall → ResourceTag
  | .list tag => tag
  | .decode tag _ => tag

/-- The kind that a listing call lists. -/
def ScanCall.listed : ScanCall → Option ResourceTag
  | .list tag => some tag
  | .decode _ _ => none

/-- The body of `for (auto hash : hashes)` in the scan loop of `main`, as in
`scan_entry`, with the calls made so far: the call of `replayer.parse` on the record
is appended where the source makes it. -/
def scan_entry_logged (replayer : StateReplayer) (input_db : DatabaseInterface)
    (should_filter_application_hash : Bool) (application_hash : Hash)
    (tag : ResourceTag) (hash : Hash) (d : Driver) (calls : List ScanCall) :
    Except Driver Driver × List ScanCall :=
  match input_db.read_entry tag hash false with
  | none => (.error d, calls)
  | some _ =>
    match input_db.read_entry tag hash false with
    | none => (.error d, calls)
    | some state_json =>
      -- try { replayer.parse(...) } catch (...) { LOGE(...) }
      let calls1 := calls ++ [.decode tag hash]
      let d1 := { d with
        prune_replayer := d.prune_replayer.replay (replayer.parse state_json).events }
      if tag = RESOURCE_APPLICATION_INFO then
        if !should_filter_application_hash || hash == application_hash then
          (copy_application_info input_db tag hash d1, calls1)
        else (.ok d1, calls1)
      else (.ok d1, calls1)

/-- The loop `for (auto hash : hashes)` with its early exits, as in `scan_entries`,
with the calls made so far. -/
def scan_entries_logged (replayer : StateReplayer) (input_db : DatabaseInterface)
    (should_filter_application_hash : Bool) (application_hash : Hash)
    (tag : ResourceTag) : List Hash → Driver → List ScanCall → Except Driver Driver × List ScanCall
  | [], d, calls => (.ok d, calls)
  | hash :: rest, d, calls =>
    match scan_entry_logged replayer input_db should_filter_application_hash application_hash
        tag hash d calls with
    | (.error e, calls1) => (.error e, calls1)
    | (.ok d1, calls1) =>
      scan_entries_logged replayer input_db should_filter_application_hash application_hash tag
        rest d1 calls1

/-- The body of `for (auto &tag : playback_order)` in `main`, as in `scan_tag`, with
the calls made so far: the listing of the kind (the size query and the data call
of `get_hash_list_for_resource_tag`, one entry) is appended where the source makes
the first of the two calls. -/
def scan_tag_logged (replayer : StateReplayer) (input_db : DatabaseInterface)
    (should_filter_application_hash : Bool) (application_hash : Hash)
    (tag : ResourceTag) (d : Driver) (calls : List ScanCall) :
    Except Driver Driver × List ScanCall :=
  if tag = RESOURCE_SHADER_MODULE then (.ok d, calls)
  else
    let d1 := { d with
      prune_replayer := { d.prune_replayer with
        allow_application_info := decide (tag = RESOURCE_APPLICATION_INFO) } }
    let calls1 := calls ++ [.list tag]
    match input_db.get_hash_list_for_resource_tag tag with
    | none => (.error d1, calls1)
    | some counted =>
      let d2 := { d1 with
        per_tag_read := Function.update d1.per_tag_read tag (counted.length % UINT_RANGE) }
      match input_db.get_hash_list_for_resource_tag tag with
      | none => (.error d2, calls1)
      | some hashes =>
        scan_entries_logged replayer input_db should_filter_application_hash application_hash
          tag hashes d2 calls1

/-- The scan pass `for (auto &tag : playback_order)` with its early exits, as in
`scan_tags`, with the calls made so far. -/
def scan_tags_logged (replayer : StateReplayer) (input_db : DatabaseInterface)
    (should_filter_application_hash : Bool) (application_hash : Hash) :
    List ResourceTag → Driver → List ScanCall → Except Driver Driver × List ScanCall
  | [], d, calls => (.ok d, calls)
  | tag :: rest, d, calls =>
    match scan_tag_logged replayer input_db should_filter_application_hash application_hash
        tag d calls with
    | (.error e, calls1) => (.error e, calls1)
    | (.ok d1, calls1) =>
      scan_tags_logged replayer input_db should_filter_application_hash application_hash rest
        d1 calls1

/-- The scan pass of `main` from its start state, as in `scan`, together with the
calls it has made on the source store and the decoder, in order. -/
def scan_logged (replayer : StateReplayer) (input_db : DatabaseInterface)
    (output_db : OutputDatabase) (should_filter_application_hash : Bool)
    (application_hash : Hash) : Except Driver Driver × List ScanCall :=
  scan_tags_logged replayer input_db should_filter_application_hash application_hash
    playback_order (Driver.start output_db should_filter_application_hash application_hash) []

/-- The seven kinds of the scan order of the specification. -/
def decode_order : List ResourceTag :=
  [RESOURCE_APPLICATION_INFO, RESOURCE_SAMPLER, RESOURCE_DESCRIPTOR_SET_LAYOUT,
   RESOURCE_PIPELINE_LAYOUT, RESOURCE_RENDER_PASS, RESOURCE_GRAPHICS_PIPELINE,
   RESOURCE_COMPUTE_PIPELINE]

end Fossilize

namespace Fossilize

open ResourceTag

/-- A store whose graphics pipeline 61 has a null render pass handle; the store
holds its pipeline layout 31 and its shader module 51. -/
def null_render_pass_store : DatabaseInterface :=
  store_of
    [(RESOURCE_APPLICATION_INFO, 1, [0, 1]),
     (RESOURCE_PIPELINE_LAYOUT, 31, [3, 1, 31]),
     (RESOURCE_SHADER_MODULE, 51, [4, 1, 51]),
     (RESOURCE_GRAPHICS_PIPELINE, 61, [6, 1, 61, 31, 0, 51])]

/-- A callback sequence in which graphics pipeline 61 on pipeline layout 31 is
created before pipeline layout 31 (with set layout 21) is, and compute pipeline 71
on the same layout after it. -/
def late_registration : List Event :=
  [.enqueue_create_graphics_pipeline 61 (gp_view 31 41 [51]),
   .enqueue_create_pipeline_layout 31 (pl_view [21]),
   .enqueue_create_compute_pipeline 71 (cp_view 31 52)]

end Fossilize

namespace Fossilize

/-! ## The views that the decoder has handed over -/

/-- One step of `latest_pipeline_layout`: a creation callback for `p` replaces the view. -/
def pipeline_layout_step (p : Hash) (view : Option VkPipelineLayoutCreateInfo) :
    Event → Option VkPipelineLayoutCreateInfo
  | .enqueue_create_pipeline_layout hash create_info => if hash = p then some create_info else view
  | _ => view

/-- The decoded view of pipeline layout `p`: the view carried by the latest
`enqueue_create_pipeline_layout` callback for `p` in the sequence, `none` when the
decoder made no such callback. -/
def latest_pipeline_layout (events : List Event) (p : Hash) : Option VkPipelineLayoutCreateInfo :=
  events.foldl (pipeline_layout_step p) none

/-- One step of `latest_descriptor_set_layout`. -/
def descriptor_set_layout_step (h : Hash) (view : Option VkDescriptorSetLayoutCreateInfo) :
    Event → Option VkDescriptorSetLayoutCreateInfo
  | .enqueue_create_descriptor_set_layout hash create_info =>
    if hash = h then some create_info else view
  | _ => view

/-- The decoded view of descriptor-set layout `h`: the view carried by the latest
`enqueue_create_descriptor_set_layout` callback for `h` in the sequence. -/
def latest_descriptor_set_layout (events : List Event) (h : Hash) :
    Option VkDescriptorSetLayoutCreateInfo :=
  events.foldl (descriptor_set_layout_step h) none

end Fossilize

namespace Fossilize

open ResourceTag

/-! ## The decoder contract without the session tags -/

/-- The callbacks of decoding the record `(tag, hash)` hold at most one creation
callback, and it is of kind `tag` with hash `hash` ("one creation event per
record", "scoped to one kind"). Nothing is asked of the session callbacks. -/
def creates_record (tag : ResourceTag) (hash : Hash) (events : List Event) : Bool :=
  events.all (fun e =>
      match e.creates with
      | none => true
      | some c => decide (c.1 = tag ∧ c.2 = hash)) &&
    decide ((events.filter (fun e => e.creates.isSome)).length ≤ 1)

/-- Every record that the scan pass decodes satisfies `creates_record`. -/
def StateReplayer.one_creation_per_record (replayer : StateReplayer)
    (input_db : DatabaseInterface) : Bool :=
  playback_order.all (fun tag =>
    (scanned_hashes input_db tag).all (fun hash =>
      creates_record tag hash (entry_events replayer input_db tag hash)))

/-- In every record that the scan pass decodes, no pipeline creation callback comes
before the session callback of the record: every pipeline record carries its own
session tag. -/
def StateReplayer.pipelines_tagged (replayer : StateReplayer)
    (input_db : DatabaseInterface) : Bool :=
  playback_order.all (fun tag =>
    (scanned_hashes input_db tag).all (fun hash =>
      tagged_before_pipeline (entry_events replayer input_db tag hash)))

/-- The toy decoder with one more record format, a graphics pipeline that carries
no session tag: the payload `8, hash, layout, render pass, modules` makes the
creation callback only. -/
def untagged_parse : List Nat → ParseResult
  | 8 :: hash :: layout :: render_pass :: modules =>
    ⟨[.enqueue_create_graphics_pipeline hash (gp_view layout render_pass modules)], false⟩
  | state_json => toy_parse state_json

def untagged_replayer : StateReplayer := ⟨untagged_parse⟩

/-- A store whose graphics pipeline 62 carries no session tag. Its pipeline layout
31, shader module 51 and render pass 41 were captured in session 2; render pass
42, which nothing references, in session 1. -/
def untagged_store : DatabaseInterface :=
  store_of
    [(RESOURCE_APPLICATION_INFO, 1, [0, 1]),
     (RESOURCE_PIPELINE_LAYOUT, 31, [3, 2, 31]),
     (RESOURCE_SHADER_MODULE, 51, [4, 2, 51]),
     (RESOURCE_RENDER_PASS, 41, [5, 2, 41]), (RESOURCE_RENDER_PASS, 42, [5, 1, 42]),
     (RESOURCE_GRAPHICS_PIPELINE, 62, [8, 62, 31, 41, 51])]

end Fossilize

namespace Fossilize

/-- The store lists its records: a record that can be read raw is in the hash list
of its kind. -/
def DatabaseInterface.lists_its_records (db : DatabaseInterface) : Prop :=
  ∀ tag hash, (db.read_entry tag hash true).isSome = true →
    ∃ hashes, db.get_hash_list_for_resource_tag tag = some hashes ∧ hash ∈ hashes

end Fossilize

namespace Fossilize

open ResourceTag

/-! ## Sets as duplicate-free lists -/

theorem mem_set_insert (x hash : Hash) (s : List Hash) :
    x ∈ set_insert hash s ↔ x = hash ∨ x ∈ s := by
  unfold set_insert
  by_cases h : hash ∈ s
  · simp only [h, if_true]
    constructor
    · intro hx; exact Or.inr hx
    · rintro (rfl | hx)
      · exact h
      · exact hx
  · simp [h]

theorem set_insert_of_mem {hash : Hash} {s : List Hash} (h : hash ∈ s) :
    set_insert hash s = s := by
  simp [set_insert, h]

theorem nodup_set_insert (hash : Hash) {s : List Hash} (h : s.Nodup) :
    (set_insert hash s).Nodup := by
  unfold set_insert
  by_cases hm : hash ∈ s
  · simpa [hm] using h
  · simp [hm, h]

theorem mem_insert_all (x : Hash) (hashes s : List Hash) :
    x ∈ insert_all hashes s ↔ x ∈ hashes ∨ x ∈ s := by
  unfold insert_all
  induction hashes generalizing s with
  | nil => simp
  | cons a l ih =>
    simp only [List.foldl_cons, ih, mem_set_insert, List.mem_cons]
    tauto

theorem insert_all_append (l1 l2 s : List Hash) :
    insert_all (l1 ++ l2) s = insert_all l2 (insert_all l1 s) := by
  simp [insert_all, List.foldl_append]

theorem nodup_insert_all (hashes : List Hash) {s : List Hash} (h : s.Nodup) :
    (insert_all hashes s).Nodup := by
  unfold insert_all
  induction hashes generalizing s with
  | nil => simpa using h
  | cons a l ih => exact ih (nodup_set_insert a h)

/-! ## Normal forms of the mark functions -/

theorem foldl_access_sampler (s : PruneReplayer) (l : List Handle) :
    l.foldl (fun acc h => if h ≠ VK_NULL_HANDLE then access_sampler acc (to_hash h) else acc) s
      = { s with accessed_samplers :=
            insert_all ((l.filter (· ≠ VK_NULL_HANDLE)).map to_hash) s.accessed_samplers } := by
  induction l generalizing s with
  | nil => simp [insert_all]
  | cons a l ih =>
    simp only [List.foldl_cons, ih]
    by_cases ha : a = VK_NULL_HANDLE
    · simp [ha]
    · simp [ha, access_sampler, insert_all]

theorem access_binding_eq (s : PruneReplayer) (bind : VkDescriptorSetLayoutBinding) :
    access_binding s bind
      = { s with accessed_samplers := insert_all (binding_samplers bind) s.accessed_samplers } := by
  unfold access_binding binding_samplers
  cases hp : bind.pImmutableSamplers with
  | none => simp [insert_all]
  | some samplers =>
    by_cases hc : bind.descriptorCount = 0
    · simp [hc, insert_all]
    · simp only [ne_eq, hc, not_false_eq_true, if_true]
      have := foldl_access_sampler s ((List.range bind.descriptorCount).map samplers)
      rw [List.foldl_map] at this
      exact this

theorem foldl_access_binding (s : PruneReplayer) (l : List VkDescriptorSetLayoutBinding) :
    l.foldl access_binding s
      = { s with accessed_samplers :=
            insert_all ((l.map binding_samplers).flatten) s.accessed_samplers } := by
  induction l generalizing s with
  | nil => simp [insert_all]
  | cons a l ih =>
    simp only [List.foldl_cons, ih, access_binding_eq, List.map_cons, List.flatten_cons,
      insert_all_append]

theorem access_descriptor_set_eq (s : PruneReplayer) (hash : Hash) :
    access_descriptor_set s hash
      = if hash ∈ s.accessed_descriptor_sets then s
        else { s with
          accessed_descriptor_sets := hash :: s.accessed_descriptor_sets
          accessed_samplers := insert_all (s.samplers_of hash) s.accessed_samplers } := by
  unfold access_descriptor_set PruneReplayer.samplers_of
  by_cases h : hash ∈ s.accessed_descriptor_sets
  · simp [h]
  · simp only [h, if_false]
    cases hd : s.descriptor_sets hash with
    | none => simp [insert_all, set_insert, h]
    | some ci =>
      simp only []
      have := foldl_access_binding
        { s with accessed_descriptor_sets := set_insert hash s.accessed_descriptor_sets }
        ((List.range ci.bindingCount).map ci.pBindings)
      rw [List.foldl_map] at this
      rw [this]
      simp [immutable_samplers, set_insert, h, List.map_map, Function.comp_def]

theorem access_pipeline_layout_eq (s : PruneReplayer) (hash : Hash) :
    access_pipeline_layout s hash
      = if hash ∈ s.accessed_pipeline_layouts then s
        else (s.set_layouts_of hash).foldl access_descriptor_set
          { s with accessed_pipeline_layouts := hash :: s.accessed_pipeline_layouts } := by
  unfold access_pipeline_layout PruneReplayer.set_layouts_of
  by_cases h : hash ∈ s.accessed_pipeline_layouts
  · simp [h]
  · simp only [h, if_false]
    cases hd : s.pipeline_layouts hash with
    | none => simp [set_insert, h]
    | some ci => simp [set_layouts, List.foldl_map, set_insert, h]

theorem foldl_insert_shader_module (s : PruneReplayer) (l : List Hash) :
    l.foldl insert_shader_module s
      = { s with accessed_shader_modules := insert_all l s.accessed_shader_modules } := by
  induction l generalizing s with
  | nil => simp [insert_all]
  | cons a l ih => simp [List.foldl_cons, ih, insert_shader_module, insert_all]

end Fossilize

namespace Fossilize

open ResourceTag

/-! ## What one mark changes -/

/-- Marking a list of descriptor-set layouts touches only the descriptor-set and
sampler sets, and these are described by the stored views. -/
theorem foldl_access_descriptor_set_spec (l : List Hash) (s : PruneReplayer) :
    ∃ ds sa, l.foldl access_descriptor_set s
        = { s with accessed_descriptor_sets := ds, accessed_samplers := sa } ∧
      (∀ x, x ∈ ds ↔ x ∈ s.accessed_descriptor_sets ∨ x ∈ l) ∧
      (∀ x, x ∈ sa ↔ x ∈ s.accessed_samplers ∨
        ∃ d ∈ l, d ∉ s.accessed_descriptor_sets ∧ x ∈ s.samplers_of d) := by
  induction l generalizing s with
  | nil => exact ⟨s.accessed_descriptor_sets, s.accessed_samplers, rfl, by simp, by simp⟩
  | cons a l ih =>
    rw [List.foldl_cons, access_descriptor_set_eq]
    by_cases ha : a ∈ s.accessed_descriptor_sets
    · rw [if_pos ha]
      obtain ⟨ds, sa, heq, hds, hsa⟩ := ih s
      refine ⟨ds, sa, heq, ?_, ?_⟩
      · intro x
        rw [hds, List.mem_cons]
        constructor
        · rintro (h | h)
          · exact Or.inl h
          · exact Or.inr (Or.inr h)
        · rintro (h | rfl | h)
          · exact Or.inl h
          · exact Or.inl ha
          · exact Or.inr h
      · intro x
        rw [hsa]
        constructor
        · rintro (h | ⟨d, hd, hn, hx⟩)
          · exact Or.inl h
          · exact Or.inr ⟨d, List.mem_cons_of_mem _ hd, hn, hx⟩
        · rintro (h | ⟨d, hd, hn, hx⟩)
          · exact Or.inl h
          · rcases List.mem_cons.mp hd with rfl | hd
            · exact absurd ha hn
            · exact Or.inr ⟨d, hd, hn, hx⟩
    · rw [if_neg ha]
      obtain ⟨ds, sa, heq, hds, hsa⟩ := ih
        { s with
          accessed_descriptor_sets := a :: s.accessed_descriptor_sets
          accessed_samplers := insert_all (s.samplers_of a) s.accessed_samplers }
      refine ⟨ds, sa, heq, ?_, ?_⟩
      · intro x
        rw [hds]
        simp only [List.mem_cons]
        tauto
      · intro x
        rw [hsa]
        simp only [List.mem_cons, mem_insert_all, PruneReplayer.samplers_of, not_or]
        constructor
        · rintro ((h | h) | ⟨d, hd, ⟨hne, hn⟩, hx⟩)
          · exact Or.inr ⟨a, Or.inl rfl, ha, h⟩
          · exact Or.inl h
          · exact Or.inr ⟨d, Or.inr hd, hn, hx⟩
        · rintro (h | ⟨d, hd | hd, hn, hx⟩)
          · exact Or.inl (Or.inr h)
          · subst hd
            exact Or.inl (Or.inl hx)
          · by_cases hda : d = a
            · subst hda
              exact Or.inl (Or.inl hx)
            · exact Or.inr ⟨d, hd, ⟨hda, hn⟩, hx⟩

/-- Marking a pipeline layout touches only the three layout-side sets. -/
theorem access_pipeline_layout_spec (s : PruneReplayer) (hash : Hash) :
    ∃ pl ds sa, access_pipeline_layout s hash
        = { s with accessed_pipeline_layouts := pl, accessed_descriptor_sets := ds,
                   accessed_samplers := sa } ∧
      (∀ x, x ∈ pl ↔ x ∈ s.accessed_pipeline_layouts ∨ x = hash) ∧
      (∀ x, x ∈ ds ↔ x ∈ s.accessed_descriptor_sets ∨
        (hash ∉ s.accessed_pipeline_layouts ∧ x ∈ s.set_layouts_of hash)) ∧
      (∀ x, x ∈ sa ↔ x ∈ s.accessed_samplers ∨
        ∃ d, d ∈ ds ∧ d ∉ s.accessed_descriptor_sets ∧ x ∈ s.samplers_of d) := by
  rw [access_pipeline_layout_eq]
  by_cases h : hash ∈ s.accessed_pipeline_layouts
  · rw [if_pos h]
    refine ⟨s.accessed_pipeline_layouts, s.accessed_descriptor_sets, s.accessed_samplers,
      rfl, ?_, ?_, ?_⟩
    · intro x
      constructor
      · exact Or.inl
      · rintro (hx | rfl)
        · exact hx
        · exact h
    · intro x
      constructor
      · exact Or.inl
      · rintro (hx | ⟨hn, _⟩)
        · exact hx
        · exact absurd h hn
    · intro x
      constructor
      · exact Or.inl
      · rintro (hx | ⟨d, hd, hn, _⟩)
        · exact hx
        · exact absurd hd hn
  · rw [if_neg h]
    obtain ⟨ds, sa, heq, hds, hsa⟩ := foldl_access_descriptor_set_spec (s.set_layouts_of hash)
      { s with accessed_pipeline_layouts := hash :: s.accessed_pipeline_layouts }
    refine ⟨hash :: s.accessed_pipeline_layouts, ds, sa, ?_, ?_, ?_, ?_⟩
    · rw [heq]
    · intro x
      simp only [List.mem_cons]
      tauto
    · intro x
      rw [hds]
      simp only [h, not_false_eq_true, true_and]
    · intro x
      rw [hsa]
      simp only [PruneReplayer.samplers_of]
      constructor
      · rintro (hx | ⟨d, hd, hn, hx⟩)
        · exact Or.inl hx
        · exact Or.inr ⟨d, (hds d).mpr (Or.inr hd), hn, hx⟩
      · rintro (hx | ⟨d, hd, hn, hx⟩)
        · exact Or.inl hx
        · rcases (hds d).mp hd with hd | hd
          · exact absurd hd hn
          · exact Or.inr ⟨d, hd, hn, hx⟩

end Fossilize

namespace Fossilize

open ResourceTag

/-! ## The effect of one callback -/

theorem same_frame_refl (s : PruneReplayer) : s.same_frame s :=
  ⟨rfl, rfl, rfl, rfl, rfl, rfl⟩

theorem set_layouts_of_congr {s t : PruneReplayer} (h : t.pipeline_layouts = s.pipeline_layouts)
    (p : Hash) : t.set_layouts_of p = s.set_layouts_of p := by
  simp [PruneReplayer.set_layouts_of, h]

theorem samplers_of_congr {s t : PruneReplayer} (h : t.descriptor_sets = s.descriptor_sets)
    (d : Hash) : t.samplers_of d = s.samplers_of d := by
  simp [PruneReplayer.samplers_of, h]

theorem accepts_congr {s t : PruneReplayer} (h : s.same_frame t) : t.accepts = s.accepts := by
  obtain ⟨_, _, h3, h4, h5, _⟩ := h
  simp [PruneReplayer.accepts, h3, h4, h5]

/-- A callback that is not a pipeline creation leaves the seven sets as they are. -/
theorem dispatch_sets_of_not_pipeline (s : PruneReplayer) (e : Event)
    (he : e.is_pipeline = false) : (s.dispatch e).sets = s.sets := by
  cases e <;> first | rfl | simp [Event.is_pipeline] at he

/-- A rejected pipeline creation changes nothing at all. -/
theorem dispatch_rejected (s : PruneReplayer) (e : Event) (he : e.is_pipeline = true)
    (hs : s.accepts = false) : s.dispatch e = s := by
  cases e <;> simp [Event.is_pipeline] at he
  · simp [PruneReplayer.dispatch, enqueue_create_compute_pipeline, hs]
  · simp [PruneReplayer.dispatch, enqueue_create_graphics_pipeline, hs]

/-- Only the two layout creation callbacks write the lookup tables. -/
theorem dispatch_tables_of_not_layout (s : PruneReplayer) (e : Event)
    (he : e.is_layout = false) :
    (s.dispatch e).descriptor_sets = s.descriptor_sets ∧
      (s.dispatch e).pipeline_layouts = s.pipeline_layouts := by
  cases e with
  | enqueue_create_descriptor_set_layout _ _ => simp [Event.is_layout] at he
  | enqueue_create_pipeline_layout _ _ => simp [Event.is_layout] at he
  | enqueue_create_compute_pipeline hash ci =>
    obtain ⟨pl, ds, sa, heq, -⟩ := access_pipeline_layout_spec s (to_hash ci.layout)
    simp only [PruneReplayer.dispatch, enqueue_create_compute_pipeline]
    split
    · simp [heq, insert_shader_module]
    · exact ⟨rfl, rfl⟩
  | enqueue_create_graphics_pipeline hash ci =>
    obtain ⟨pl, ds, sa, heq, -⟩ := access_pipeline_layout_spec s (to_hash ci.layout)
    simp only [PruneReplayer.dispatch, enqueue_create_graphics_pipeline]
    split
    · rw [← List.foldl_map (fun stage => to_hash (ci.pStages stage).module) insert_shader_module,
        foldl_insert_shader_module]
      simp [heq]
    · exact ⟨rfl, rfl⟩
  | _ => exact ⟨rfl, rfl⟩

/-- The filter configuration is never written by a callback. -/
theorem dispatch_filter (s : PruneReplayer) (e : Event) :
    (s.dispatch e).filter_application_hash = s.filter_application_hash ∧
      (s.dispatch e).should_filter_application_hash = s.should_filter_application_hash ∧
      (s.dispatch e).allow_application_info = s.allow_application_info := by
  cases e with
  | enqueue_create_compute_pipeline hash ci =>
    obtain ⟨pl, ds, sa, heq, -⟩ := access_pipeline_layout_spec s (to_hash ci.layout)
    simp only [PruneReplayer.dispatch, enqueue_create_compute_pipeline]
    split
    · simp [heq, insert_shader_module]
    · exact ⟨rfl, rfl, rfl⟩
  | enqueue_create_graphics_pipeline hash ci =>
    obtain ⟨pl, ds, sa, heq, -⟩ := access_pipeline_layout_spec s (to_hash ci.layout)
    simp only [PruneReplayer.dispatch, enqueue_create_graphics_pipeline]
    split
    · rw [← List.foldl_map (fun stage => to_hash (ci.pStages stage).module) insert_shader_module,
        foldl_insert_shader_module]
      simp [heq]
    · exact ⟨rfl, rfl, rfl⟩
  | _ => exact ⟨rfl, rfl, rfl⟩

/-- An accepted pipeline creation marks its references and nothing else. -/
theorem dispatch_accepted (s : PruneReplayer) (e : Event) (he : e.is_pipeline = true)
    (hs : s.accepts = true) : MarkStep s (s.dispatch e) e := by
  cases e with
  | enqueue_create_compute_pipeline hash ci =>
    obtain ⟨pl, ds, sa, heq, hpl, hds, hsa⟩ := access_pipeline_layout_spec s (to_hash ci.layout)
    simp only [PruneReplayer.dispatch, enqueue_create_compute_pipeline, hs, if_true, heq,
      insert_shader_module]
    refine ⟨⟨rfl, rfl, rfl, rfl, rfl, rfl⟩, ?_, ?_, ?_, ?_, ?_, ?_, ?_⟩
    · intro x; simp [Event.root_graphics]
    · intro x; simp [Event.root_computes, mem_set_insert]; tauto
    · intro x; simp [Event.root_render_passes]
    · intro x; simp [Event.root_modules, mem_set_insert]; tauto
    · intro x; simp [Event.root_layouts, hpl]
    · intro x; simp [Event.root_layouts, hds]
    · intro x; simp [hsa]
  | enqueue_create_graphics_pipeline hash ci =>
    obtain ⟨pl, ds, sa, heq, hpl, hds, hsa⟩ := access_pipeline_layout_spec s (to_hash ci.layout)
    simp only [PruneReplayer.dispatch, enqueue_create_graphics_pipeline, hs, if_true]
    rw [← List.foldl_map (fun stage => to_hash (ci.pStages stage).module) insert_shader_module,
      foldl_insert_shader_module, heq]
    refine ⟨⟨rfl, rfl, rfl, rfl, rfl, rfl⟩, ?_, ?_, ?_, ?_, ?_, ?_, ?_⟩
    · intro x; simp [Event.root_graphics, mem_set_insert]; tauto
    · intro x; simp [Event.root_computes]
    · intro x; simp [Event.root_render_passes, mem_set_insert]; tauto
    · intro x; simp only [Event.root_modules, mem_insert_all]; exact or_comm
    · intro x; simp [Event.root_layouts, hpl]
    · intro x; simp [Event.root_layouts, hds]
    · intro x; simp [hsa]
  | _ => simp [Event.is_pipeline] at he

end Fossilize

namespace Fossilize

open ResourceTag

/-! ## Invariants of a callback sequence -/

theorem sets_eq_iff (s t : PruneReplayer) :
    s.sets = t.sets ↔
      s.accessed_samplers = t.accessed_samplers ∧
      s.accessed_descriptor_sets = t.accessed_descriptor_sets ∧
      s.accessed_pipeline_layouts = t.accessed_pipeline_layouts ∧
      s.accessed_shader_modules = t.accessed_shader_modules ∧
      s.accessed_render_passes = t.accessed_render_passes ∧
      s.accessed_graphics_pipelines = t.accessed_graphics_pipelines ∧
      s.accessed_compute_pipelines = t.accessed_compute_pipelines := by
  simp [PruneReplayer.sets]

theorem unmarked_iff (s : PruneReplayer) :
    s.unmarked ↔
      s.accessed_samplers = [] ∧ s.accessed_descriptor_sets = [] ∧
      s.accessed_pipeline_layouts = [] ∧ s.accessed_shader_modules = [] ∧
      s.accessed_render_passes = [] ∧ s.accessed_graphics_pipelines = [] ∧
      s.accessed_compute_pipelines = [] := by
  simp [PruneReplayer.unmarked, PruneReplayer.sets]

theorem replay_nil (s : PruneReplayer) : s.replay [] = s := rfl

theorem replay_cons (s : PruneReplayer) (e : Event) (l : List Event) :
    s.replay (e :: l) = (s.dispatch e).replay l := rfl

theorem replay_append (s : PruneReplayer) (l1 l2 : List Event) :
    s.replay (l1 ++ l2) = (s.replay l1).replay l2 := by
  simp [PruneReplayer.replay, List.foldl_append]

theorem replay_filter_fields (s : PruneReplayer) (l : List Event) :
    (s.replay l).filter_application_hash = s.filter_application_hash ∧
      (s.replay l).should_filter_application_hash = s.should_filter_application_hash ∧
      (s.replay l).allow_application_info = s.allow_application_info := by
  induction l generalizing s with
  | nil => exact ⟨rfl, rfl, rfl⟩
  | cons e l ih =>
    rw [replay_cons]
    obtain ⟨h1, h2, h3⟩ := ih (s.dispatch e)
    obtain ⟨g1, g2, g3⟩ := dispatch_filter s e
    exact ⟨h1.trans g1, h2.trans g2, h3.trans g3⟩

/-- Callbacks other than pipeline creations mark nothing. -/
theorem replay_sets_of_no_pipeline (s : PruneReplayer) (l : List Event)
    (h : ∀ e ∈ l, e.is_pipeline = false) : (s.replay l).sets = s.sets := by
  induction l generalizing s with
  | nil => rfl
  | cons e l ih =>
    rw [replay_cons, ih _ (fun e he => h e (List.mem_cons_of_mem _ he)),
      dispatch_sets_of_not_pipeline s e (h e (List.mem_cons_self _ _))]

theorem accepted_events_of_no_pipeline (s : PruneReplayer) (l : List Event)
    (h : ∀ e ∈ l, e.is_pipeline = false) : s.accepted_events l = [] := by
  induction l generalizing s with
  | nil => rfl
  | cons e l ih =>
    simp [PruneReplayer.accepted_events, h e (List.mem_cons_self _ _),
      ih _ (fun e he => h e (List.mem_cons_of_mem _ he))]

theorem accepted_events_append (s : PruneReplayer) (l1 l2 : List Event) :
    s.accepted_events (l1 ++ l2) = s.accepted_events l1 ++ (s.replay l1).accepted_events l2 := by
  induction l1 generalizing s with
  | nil => rfl
  | cons e l ih => simp [PruneReplayer.accepted_events, ih, replay_cons]

/-- Callbacks other than layout creations leave the lookup tables alone. -/
theorem replay_tables_of_no_layout (s : PruneReplayer) (l : List Event)
    (h : ∀ e ∈ l, e.is_layout = false) :
    (s.replay l).descriptor_sets = s.descriptor_sets ∧
      (s.replay l).pipeline_layouts = s.pipeline_layouts := by
  induction l generalizing s with
  | nil => exact ⟨rfl, rfl⟩
  | cons e l ih =>
    rw [replay_cons]
    obtain ⟨h1, h2⟩ := ih (s.dispatch e) (fun e he => h e (List.mem_cons_of_mem _ he))
    obtain ⟨g1, g2⟩ := dispatch_tables_of_not_layout s e (h e (List.mem_cons_self _ _))
    exact ⟨h1.trans g1, h2.trans g2⟩

theorem MarkStep.closed {s t : PruneReplayer} {e : Event} (h : MarkStep s t e)
    (hc : s.Closed) : t.Closed := by
  obtain ⟨⟨hT1, hT2, -⟩, -, -, -, -, hpl, hds, hsa⟩ := h
  constructor
  · intro p hp x hx
    rw [set_layouts_of_congr hT2] at hx
    rw [hds]
    rcases (hpl p).mp hp with hp | hp
    · exact Or.inl (hc.1 p hp x hx)
    · by_cases hin : p ∈ s.accessed_pipeline_layouts
      · exact Or.inl (hc.1 p hin x hx)
      · exact Or.inr ⟨p, hp, hin, hx⟩
  · intro d hd x hx
    rw [samplers_of_congr hT1] at hx
    rw [hsa]
    by_cases hin : d ∈ s.accessed_descriptor_sets
    · exact Or.inl (hc.2 d hin x hx)
    · exact Or.inr ⟨d, hd, hin, hx⟩

theorem MarkStep.sound {s t : PruneReplayer} {e : Event} (h : MarkStep s t e)
    (hc : s.Sound) : t.Sound := by
  obtain ⟨⟨hT1, hT2, -⟩, -, -, -, -, hpl, hds, hsa⟩ := h
  constructor
  · intro x hx
    rcases (hds x).mp hx with hx | ⟨p, hp, -, hx⟩
    · obtain ⟨p, hp, hxp⟩ := hc.1 x hx
      exact ⟨p, (hpl p).mpr (Or.inl hp), by rw [set_layouts_of_congr hT2]; exact hxp⟩
    · exact ⟨p, (hpl p).mpr (Or.inr hp), by rw [set_layouts_of_congr hT2]; exact hx⟩
  · intro x hx
    rcases (hsa x).mp hx with hx | ⟨d, hd, -, hx⟩
    · obtain ⟨d, hd, hxd⟩ := hc.2 x hx
      exact ⟨d, (hds d).mpr (Or.inl hd), by rw [samplers_of_congr hT1]; exact hxd⟩
    · exact ⟨d, hd, by rw [samplers_of_congr hT1]; exact hx⟩

theorem MarkStep.roots_marked {s t : PruneReplayer} {e : Event} (h : MarkStep s t e)
    {roots : List Event} (hr : s.RootsMarked roots) : t.RootsMarked (roots ++ [e]) := by
  obtain ⟨-, hgp, hcp, hrp, hsm, hpl, -, -⟩ := h
  intro r hmem
  rcases List.mem_append.mp hmem with hmem | hmem
  · obtain ⟨h1, h2, h3, h4, h5⟩ := hr r hmem
    exact ⟨fun x hx => (hgp x).mpr (Or.inl (h1 x hx)), fun x hx => (hcp x).mpr (Or.inl (h2 x hx)),
      fun x hx => (hrp x).mpr (Or.inl (h3 x hx)), fun x hx => (hsm x).mpr (Or.inl (h4 x hx)),
      fun x hx => (hpl x).mpr (Or.inl (h5 x hx))⟩
  · rw [List.mem_singleton] at hmem
    subst hmem
    exact ⟨fun x hx => (hgp x).mpr (Or.inr hx), fun x hx => (hcp x).mpr (Or.inr hx),
      fun x hx => (hrp x).mpr (Or.inr hx), fun x hx => (hsm x).mpr (Or.inr hx),
      fun x hx => (hpl x).mpr (Or.inr hx)⟩

theorem MarkStep.from_roots {s t : PruneReplayer} {e : Event} (h : MarkStep s t e)
    {roots : List Event} (hr : s.FromRoots roots) : t.FromRoots (roots ++ [e]) := by
  obtain ⟨-, hgp, hcp, hrp, hsm, hpl, -, -⟩ := h
  obtain ⟨h1, h2, h3, h4, h5⟩ := hr
  have key : ∀ (f : Event → List Hash) (old new : List Hash),
      (∀ x, x ∈ new ↔ x ∈ old ∨ x ∈ f e) → (∀ x ∈ old, ∃ r ∈ roots, x ∈ f r) →
      ∀ x ∈ new, ∃ r ∈ roots ++ [e], x ∈ f r := by
    intro f old new hiff hold x hx
    rcases (hiff x).mp hx with hx | hx
    · obtain ⟨r, hr, hxr⟩ := hold x hx
      exact ⟨r, List.mem_append.mpr (Or.inl hr), hxr⟩
    · exact ⟨e, by simp, hx⟩
  exact ⟨key _ _ _ hgp h1, key _ _ _ hcp h2, key _ _ _ hrp h3, key _ _ _ hsm h4, key _ _ _ hpl h5⟩

theorem unmarked_closed {s : PruneReplayer} (h : s.unmarked) : s.Closed := by
  obtain ⟨-, h2, h3, -⟩ := (unmarked_iff s).mp h
  constructor
  · intro p hp; simp [h3] at hp
  · intro d hd; simp [h2] at hd

theorem unmarked_sound {s : PruneReplayer} (h : s.unmarked) : s.Sound := by
  obtain ⟨h1, h2, -⟩ := (unmarked_iff s).mp h
  constructor
  · intro x hx; simp [h2] at hx
  · intro x hx; simp [h1] at hx

theorem unmarked_from_roots {s : PruneReplayer} (h : s.unmarked) : s.FromRoots [] := by
  obtain ⟨-, -, h3, h4, h5, h6, h7⟩ := (unmarked_iff s).mp h
  refine ⟨?_, ?_, ?_, ?_, ?_⟩ <;> intro x hx <;> simp_all

theorem roots_marked_nil (s : PruneReplayer) : s.RootsMarked [] := by
  intro e he
  simp at he

theorem closed_of_sets_tables {s t : PruneReplayer} (hs : t.sets = s.sets)
    (h1 : t.descriptor_sets = s.descriptor_sets) (h2 : t.pipeline_layouts = s.pipeline_layouts)
    (hc : s.Closed) : t.Closed := by
  obtain ⟨e1, e2, e3, -⟩ := (sets_eq_iff t s).mp hs
  unfold PruneReplayer.Closed
  simp only [e1, e2, e3, set_layouts_of_congr h2, samplers_of_congr h1]
  exact hc

theorem sound_of_sets_tables {s t : PruneReplayer} (hs : t.sets = s.sets)
    (h1 : t.descriptor_sets = s.descriptor_sets) (h2 : t.pipeline_layouts = s.pipeline_layouts)
    (hc : s.Sound) : t.Sound := by
  obtain ⟨e1, e2, e3, -⟩ := (sets_eq_iff t s).mp hs
  unfold PruneReplayer.Sound
  simp only [e1, e2, e3, set_layouts_of_congr h2, samplers_of_congr h1]
  exact hc

/-- While no view is registered, the reachable sets stay closed and sound under the
stored views. -/
theorem replay_closed_sound (s : PruneReplayer) (l : List Event)
    (h : ∀ e ∈ l, e.is_layout = false) (hc : s.Closed) (hs : s.Sound) :
    (s.replay l).Closed ∧ (s.replay l).Sound := by
  induction l generalizing s with
  | nil => exact ⟨hc, hs⟩
  | cons e l ih =>
    rw [replay_cons]
    apply ih _ (fun e he => h e (List.mem_cons_of_mem _ he))
    · cases hp : e.is_pipeline with
      | false =>
        obtain ⟨g1, g2⟩ := dispatch_tables_of_not_layout s e (h e (List.mem_cons_self _ _))
        exact closed_of_sets_tables (dispatch_sets_of_not_pipeline s e hp) g1 g2 hc
      | true =>
        cases ha : s.accepts with
        | false => rw [dispatch_rejected s e hp ha]; exact hc
        | true => exact (dispatch_accepted s e hp ha).closed hc
    · cases hp : e.is_pipeline with
      | false =>
        obtain ⟨g1, g2⟩ := dispatch_tables_of_not_layout s e (h e (List.mem_cons_self _ _))
        exact sound_of_sets_tables (dispatch_sets_of_not_pipeline s e hp) g1 g2 hs
      | true =>
        cases ha : s.accepts with
        | false => rw [dispatch_rejected s e hp ha]; exact hs
        | true => exact (dispatch_accepted s e hp ha).sound hs

theorem from_roots_of_sets {s t : PruneReplayer} (hs : t.sets = s.sets) {roots : List Event}
    (h : s.FromRoots roots) : t.FromRoots roots := by
  obtain ⟨-, -, e3, e4, e5, e6, e7⟩ := (sets_eq_iff t s).mp hs
  unfold PruneReplayer.FromRoots
  simp only [e3, e4, e5, e6, e7]
  exact h

theorem roots_marked_of_sets {s t : PruneReplayer} (hs : t.sets = s.sets) {roots : List Event}
    (h : s.RootsMarked roots) : t.RootsMarked roots := by
  obtain ⟨-, -, e3, e4, e5, e6, e7⟩ := (sets_eq_iff t s).mp hs
  unfold PruneReplayer.RootsMarked
  simp only [e3, e4, e5, e6, e7]
  exact h

/-- The marked pipelines, pipeline layouts, render passes and shader modules are
exactly those of the accepted pipeline creation events. -/
theorem replay_roots (l : List Event) (s : PruneReplayer) (roots : List Event)
    (hf : s.FromRoots roots) (hm : s.RootsMarked roots) :
    (s.replay l).FromRoots (roots ++ s.accepted_events l) ∧
      (s.replay l).RootsMarked (roots ++ s.accepted_events l) := by
  induction l generalizing s roots with
  | nil => simpa [PruneReplayer.accepted_events, replay_nil] using ⟨hf, hm⟩
  | cons e l ih =>
    rw [replay_cons]
    simp only [PruneReplayer.accepted_events]
    rw [← List.append_assoc]
    cases hp : e.is_pipeline with
    | false =>
      simp only [Bool.false_and, Bool.false_eq_true, if_false, List.append_nil]
      exact ih _ _ (from_roots_of_sets (dispatch_sets_of_not_pipeline s e hp) hf)
        (roots_marked_of_sets (dispatch_sets_of_not_pipeline s e hp) hm)
    | true =>
      cases ha : s.accepts with
      | false =>
        simp only [Bool.and_false, Bool.false_eq_true, if_false, List.append_nil]
        rw [dispatch_rejected s e hp ha]
        exact ih _ _ hf hm
      | true =>
        simp only [Bool.and_self, if_true]
        have hstep := dispatch_accepted s e hp ha
        exact ih _ _ (hstep.from_roots hf) (hstep.roots_marked hm)

end Fossilize

namespace Fossilize

open ResourceTag

/-! ## The scan pass as a callback sequence -/

theorem access_descriptor_set_allow (s : PruneReplayer) (b : Bool) (hash : Hash) :
    access_descriptor_set { s with allow_application_info := b } hash
      = { access_descriptor_set s hash with allow_application_info := b } := by
  rw [access_descriptor_set_eq, access_descriptor_set_eq]
  by_cases h : hash ∈ s.accessed_descriptor_sets
  · simp [h]
  · simp [h, PruneReplayer.samplers_of]

theorem foldl_access_descriptor_set_allow (l : List Hash) (s : PruneReplayer) (b : Bool) :
    l.foldl access_descriptor_set { s with allow_application_info := b }
      = { l.foldl access_descriptor_set s with allow_application_info := b } := by
  induction l generalizing s with
  | nil => rfl
  | cons a l ih => rw [List.foldl_cons, access_descriptor_set_allow, ih, List.foldl_cons]

theorem access_pipeline_layout_allow (s : PruneReplayer) (b : Bool) (hash : Hash) :
    access_pipeline_layout { s with allow_application_info := b } hash
      = { access_pipeline_layout s hash with allow_application_info := b } := by
  rw [access_pipeline_layout_eq, access_pipeline_layout_eq]
  by_cases h : hash ∈ s.accessed_pipeline_layouts
  · simp [h]
  · simp only [h, if_false]
    have := foldl_access_descriptor_set_allow (s.set_layouts_of hash)
      { s with accessed_pipeline_layouts := hash :: s.accessed_pipeline_layouts } b
    simpa [PruneReplayer.set_layouts_of] using this

theorem foldl_insert_shader_module_allow (l : List Hash) (s : PruneReplayer) (b : Bool) :
    l.foldl insert_shader_module { s with allow_application_info := b }
      = { l.foldl insert_shader_module s with allow_application_info := b } := by
  rw [foldl_insert_shader_module, foldl_insert_shader_module]

theorem dispatch_allow (s : PruneReplayer) (b : Bool) (e : Event) :
    PruneReplayer.dispatch { s with allow_application_info := b } e
      = { s.dispatch e with allow_application_info := b } := by
  cases e with
  | enqueue_create_compute_pipeline hash ci =>
    simp only [PruneReplayer.dispatch, enqueue_create_compute_pipeline, PruneReplayer.accepts,
      access_pipeline_layout_allow]
    split <;> rfl
  | enqueue_create_graphics_pipeline hash ci =>
    simp only [PruneReplayer.dispatch, enqueue_create_graphics_pipeline, PruneReplayer.accepts,
      access_pipeline_layout_allow]
    split
    · rw [← List.foldl_map (fun stage => to_hash (ci.pStages stage).module) insert_shader_module,
        ← List.foldl_map (fun stage => to_hash (ci.pStages stage).module) insert_shader_module,
        foldl_insert_shader_module, foldl_insert_shader_module]
    · rfl
  | _ => rfl

theorem replay_allow (l : List Event) (s : PruneReplayer) (b : Bool) :
    (s.with_allow b).replay l = (s.replay l).with_allow b := by
  induction l generalizing s with
  | nil => rfl
  | cons e l ih =>
    rw [replay_cons, replay_cons, ← ih]
    exact congrArg (fun t => PruneReplayer.replay t l) (dispatch_allow s b e)

theorem with_allow_with_allow (s : PruneReplayer) (b c : Bool) :
    (s.with_allow b).with_allow c = s.with_allow c := rfl

theorem with_allow_self (s : PruneReplayer) : s.with_allow s.allow_application_info = s := rfl

theorem scan_events_cons (replayer : StateReplayer) (input_db : DatabaseInterface)
    (t : ResourceTag) (l : List ResourceTag) :
    scan_events replayer input_db (t :: l)
      = tag_events replayer input_db t ++ scan_events replayer input_db l := by
  simp [scan_events]

theorem copy_application_info_replayer {input_db : DatabaseInterface} {tag : ResourceTag}
    {hash : Hash} {d d1 : Driver} (h : copy_application_info input_db tag hash d = .ok d1) :
    d1.prune_replayer = d.prune_replayer ∧ d1.per_tag_read = d.per_tag_read := by
  unfold copy_application_info at h
  split at h
  · cases h
  · split at h
    · cases h
    · split at h
      · cases h
      · cases h
        exact ⟨rfl, rfl⟩

theorem scan_entry_replayer {replayer : StateReplayer} {input_db : DatabaseInterface}
    {sf : Bool} {f : Hash} {tag : ResourceTag} {hash : Hash} {d d1 : Driver}
    (h : scan_entry replayer input_db sf f tag hash d = .ok d1) :
    d1.prune_replayer = d.prune_replayer.replay (entry_events replayer input_db tag hash) ∧
      d1.per_tag_read = d.per_tag_read := by
  unfold scan_entry at h
  unfold entry_events
  cases hr : input_db.read_entry tag hash false with
  | none => simp [hr] at h
  | some data =>
    simp only [hr] at h
    split at h
    · split at h
      · exact copy_application_info_replayer h
      · cases h
        exact ⟨rfl, rfl⟩
    · cases h
      exact ⟨rfl, rfl⟩

theorem scan_entries_replayer {replayer : StateReplayer} {input_db : DatabaseInterface}
    {sf : Bool} {f : Hash} {tag : ResourceTag} (hashes : List Hash) {d d1 : Driver}
    (h : scan_entries replayer input_db sf f tag hashes d = .ok d1) :
    d1.prune_replayer
        = d.prune_replayer.replay ((hashes.map (entry_events replayer input_db tag)).flatten) ∧
      d1.per_tag_read = d.per_tag_read := by
  induction hashes generalizing d with
  | nil =>
    simp only [scan_entries] at h
    cases h
    exact ⟨rfl, rfl⟩
  | cons a l ih =>
    simp only [scan_entries] at h
    cases hs : scan_entry replayer input_db sf f tag a d with
    | error e => simp [hs] at h
    | ok d2 =>
      simp only [hs] at h
      obtain ⟨h1, h2⟩ := ih h
      obtain ⟨g1, g2⟩ := scan_entry_replayer hs
      rw [h1, g1, List.map_cons, List.flatten_cons, replay_append]
      exact ⟨rfl, h2.trans g2⟩

theorem scan_tag_replayer {replayer : StateReplayer} {input_db : DatabaseInterface}
    {sf : Bool} {f : Hash} {tag : ResourceTag} {d d1 : Driver}
    (h : scan_tag replayer input_db sf f tag d = .ok d1) :
    ∃ b, d1.prune_replayer
      = (d.prune_replayer.replay (tag_events replayer input_db tag)).with_allow b := by
  unfold scan_tag at h
  unfold tag_events scanned_hashes
  by_cases ht : tag = RESOURCE_SHADER_MODULE
  · simp only [ht, if_true, Except.ok.injEq] at h
    subst h
    exact ⟨d.prune_replayer.allow_application_info, by simp [ht, replay_nil, with_allow_self]⟩
  · simp only [ht, if_false] at h ⊢
    cases hl : input_db.get_hash_list_for_resource_tag tag with
    | none => simp [hl] at h
    | some hashes =>
      simp only [hl] at h
      obtain ⟨h1, -⟩ := scan_entries_replayer hashes h
      refine ⟨decide (tag = RESOURCE_APPLICATION_INFO), ?_⟩
      rw [h1, ← replay_allow]
      rfl

theorem scan_tags_replayer {replayer : StateReplayer} {input_db : DatabaseInterface}
    {sf : Bool} {f : Hash} (tags : List ResourceTag) {d d1 : Driver}
    (h : scan_tags replayer input_db sf f tags d = .ok d1) :
    ∃ b, d1.prune_replayer
      = (d.prune_replayer.replay (scan_events replayer input_db tags)).with_allow b := by
  induction tags generalizing d with
  | nil =>
    simp only [scan_tags, Except.ok.injEq] at h
    subst h
    exact ⟨d.prune_replayer.allow_application_info, rfl⟩
  | cons t l ih =>
    simp only [scan_tags] at h
    cases hs : scan_tag replayer input_db sf f t d with
    | error e => simp [hs] at h
    | ok d2 =>
      simp only [hs] at h
      obtain ⟨b, hb⟩ := ih h
      obtain ⟨b2, hb2⟩ := scan_tag_replayer hs
      refine ⟨b, ?_⟩
      rw [hb, hb2, replay_allow, with_allow_with_allow, scan_events_cons, replay_append]

end Fossilize

namespace Fossilize

open ResourceTag

/-! ## Closure of the reachable sets after the scan pass -/

theorem mem_set_layouts (ci : VkPipelineLayoutCreateInfo) (x : Hash) :
    x ∈ set_layouts ci ↔ ∃ layout, layout < ci.setLayoutCount ∧ to_hash (ci.pSetLayouts layout) = x := by
  simp [set_layouts]

theorem mem_stage_modules (ci : VkGraphicsPipelineCreateInfo) (x : Hash) :
    x ∈ stage_modules ci ↔ ∃ stage, stage < ci.stageCount ∧ to_hash (ci.pStages stage).module = x := by
  simp [stage_modules]

theorem mem_binding_samplers (bind : VkDescriptorSetLayoutBinding) (x : Hash) :
    x ∈ binding_samplers bind ↔
      ∃ samplers, bind.pImmutableSamplers = some samplers ∧ bind.descriptorCount ≠ 0 ∧
        ∃ i, i < bind.descriptorCount ∧ samplers i ≠ VK_NULL_HANDLE ∧ to_hash (samplers i) = x := by
  unfold binding_samplers
  cases hp : bind.pImmutableSamplers with
  | none => simp
  | some samplers =>
    by_cases hc : bind.descriptorCount = 0
    · simp [hc]
    · simp only [ne_eq, hc, not_false_eq_true, if_true, List.mem_map, List.mem_filter,
        List.mem_range, decide_eq_true_eq, Option.some.injEq, exists_eq_left', true_and]
      constructor
      · rintro ⟨a, ⟨⟨i, hi, rfl⟩, hne⟩, rfl⟩
        exact ⟨i, hi, hne, rfl⟩
      · rintro ⟨i, hi, hne, rfl⟩
        exact ⟨samplers i, ⟨⟨i, hi, rfl⟩, hne⟩, rfl⟩

theorem mem_immutable_samplers (ci : VkDescriptorSetLayoutCreateInfo) (x : Hash) :
    x ∈ immutable_samplers ci ↔
      ∃ binding, binding < ci.bindingCount ∧
        ∃ samplers, (ci.pBindings binding).pImmutableSamplers = some samplers ∧
          (ci.pBindings binding).descriptorCount ≠ 0 ∧
          ∃ i, i < (ci.pBindings binding).descriptorCount ∧ samplers i ≠ VK_NULL_HANDLE ∧
            to_hash (samplers i) = x := by
  unfold immutable_samplers
  simp only [List.mem_flatten, List.mem_map, List.mem_range]
  constructor
  · rintro ⟨l, ⟨b, hb, rfl⟩, hx⟩
    exact ⟨b, hb, (mem_binding_samplers _ x).mp hx⟩
  · rintro ⟨b, hb, h⟩
    exact ⟨_, ⟨b, hb, rfl⟩, (mem_binding_samplers _ x).mpr h⟩

theorem start_replayer_unmarked (sf : Bool) (f : Hash) : (start_replayer sf f).unmarked := by
  cases sf <;> rfl

theorem start_driver_replayer (output_db : OutputDatabase) (sf : Bool) (f : Hash) :
    (Driver.start output_db sf f).prune_replayer = start_replayer sf f := rfl

theorem with_allow_sets (s : PruneReplayer) (b : Bool) : (s.with_allow b).sets = s.sets := rfl

/-- The replayer after a completed scan pass is the start replayer after the
callbacks of the scan, up to `allow_application_info`. -/
theorem scan_replayer {replayer : StateReplayer} {input_db : DatabaseInterface}
    {output_db : OutputDatabase} {sf : Bool} {f : Hash} {d : Driver}
    (h : scan replayer input_db output_db sf f = .ok d) :
    ∃ b, d.prune_replayer
      = ((start_replayer sf f).replay (scan_events replayer input_db playback_order)).with_allow b :=
  @scan_tags_replayer replayer input_db sf f playback_order (Driver.start output_db sf f) d h

theorem allowed_in_not_pipeline {tag : ResourceTag} {e : Event} (h : e.allowed_in tag = true)
    (h1 : tag ≠ RESOURCE_GRAPHICS_PIPELINE) (h2 : tag ≠ RESOURCE_COMPUTE_PIPELINE) :
    e.is_pipeline = false := by
  cases e <;> simp_all [Event.allowed_in, Event.is_pipeline]

theorem allowed_in_not_layout {tag : ResourceTag} {e : Event} (h : e.allowed_in tag = true)
    (h1 : tag ≠ RESOURCE_DESCRIPTOR_SET_LAYOUT) (h2 : tag ≠ RESOURCE_PIPELINE_LAYOUT) :
    e.is_layout = false := by
  cases e <;> simp_all [Event.allowed_in, Event.is_layout]

theorem kinded_tag {replayer : StateReplayer} {input_db : DatabaseInterface}
    (h : replayer.kinded input_db = true) {tag : ResourceTag} (ht : tag ∈ playback_order)
    {e : Event} (he : e ∈ tag_events replayer input_db tag) : e.allowed_in tag = true := by
  unfold StateReplayer.kinded at h
  rw [List.all_eq_true] at h
  have := h tag ht
  rw [List.all_eq_true] at this
  exact this e he

/-- The scan order splits the callbacks into a part without pipeline creations
followed by a part without layout registrations. -/
theorem scan_events_split (replayer : StateReplayer) (input_db : DatabaseInterface)
    (h : replayer.kinded input_db = true) :
    ∃ l1 l2, scan_events replayer input_db playback_order = l1 ++ l2 ∧
      (∀ e ∈ l1, e.is_pipeline = false) ∧ (∀ e ∈ l2, e.is_layout = false) := by
  refine ⟨scan_events replayer input_db
      [RESOURCE_APPLICATION_INFO, RESOURCE_SHADER_MODULE, RESOURCE_SAMPLER,
        RESOURCE_DESCRIPTOR_SET_LAYOUT, RESOURCE_PIPELINE_LAYOUT, RESOURCE_RENDER_PASS],
    scan_events replayer input_db [RESOURCE_GRAPHICS_PIPELINE, RESOURCE_COMPUTE_PIPELINE], ?_, ?_, ?_⟩
  · simp [scan_events, playback_order]
  · intro e he
    simp only [scan_events, List.map_cons, List.map_nil, List.flatten_cons, List.flatten_nil,
      List.append_nil, List.mem_append] at he
    rcases he with he | he | he | he | he | he <;>
      exact allowed_in_not_pipeline (kinded_tag h (by simp [playback_order]) he)
        (by decide) (by decide)
  · intro e he
    simp only [scan_events, List.map_cons, List.map_nil, List.flatten_cons, List.flatten_nil,
      List.append_nil, List.mem_append] at he
    rcases he with he | he <;>
      exact allowed_in_not_layout (kinded_tag h (by simp [playback_order]) he)
        (by decide) (by decide)

/-- With a decoder that keeps to the kind of the record, the replayed callbacks of
the scan leave the reachable sets closed and sound under the stored views. -/
theorem replay_scan_closed_sound (replayer : StateReplayer) (input_db : DatabaseInterface)
    (sf : Bool) (f : Hash) (h : replayer.kinded input_db = true) :
    ((start_replayer sf f).replay (scan_events replayer input_db playback_order)).Closed ∧
      ((start_replayer sf f).replay (scan_events replayer input_db playback_order)).Sound := by
  obtain ⟨l1, l2, heq, h1, h2⟩ := scan_events_split replayer input_db h
  rw [heq, replay_append]
  have hu : ((start_replayer sf f).replay l1).unmarked := by
    unfold PruneReplayer.unmarked
    rw [replay_sets_of_no_pipeline _ _ h1]
    exact start_replayer_unmarked sf f
  exact replay_closed_sound _ l2 h2 (unmarked_closed hu) (unmarked_sound hu)

theorem replay_scan_roots (replayer : StateReplayer) (input_db : DatabaseInterface)
    (sf : Bool) (f : Hash) :
    ((start_replayer sf f).replay (scan_events replayer input_db playback_order)).FromRoots
        (accepted_roots replayer input_db sf f) ∧
      ((start_replayer sf f).replay (scan_events replayer input_db playback_order)).RootsMarked
        (accepted_roots replayer input_db sf f) := by
  have := replay_roots (scan_events replayer input_db playback_order) (start_replayer sf f) []
    (unmarked_from_roots (start_replayer_unmarked sf f)) (roots_marked_nil _)
  simpa [accepted_roots] using this

end Fossilize

namespace Fossilize

open ResourceTag

/-! ## Where marks and stored views come from -/

theorem tables_from_mono {s : PruneReplayer} {l1 l2 : List Event} (h : s.TablesFrom l1)
    (hsub : ∀ e ∈ l1, e ∈ l2) : s.TablesFrom l2 :=
  ⟨fun d ci hd => hsub _ (h.1 d ci hd), fun p ci hp => hsub _ (h.2 p ci hp)⟩

theorem traced_mono {s : PruneReplayer} {l1 l2 : List Event} (h : s.Traced l1)
    (hsub : ∀ e ∈ l1, e ∈ l2) : s.Traced l2 := by
  constructor
  · intro x hx
    obtain ⟨p, hp, ci, hci, hxc⟩ := h.1 x hx
    exact ⟨p, hp, ci, hsub _ hci, hxc⟩
  · intro x hx
    obtain ⟨d, hd, ci, hci, hxc⟩ := h.2 x hx
    exact ⟨d, hd, ci, hsub _ hci, hxc⟩

theorem MarkStep.traced {s t : PruneReplayer} {e : Event} (h : MarkStep s t e)
    {seen : List Event} (ht : s.TablesFrom seen) (hc : s.Traced seen) : t.Traced seen := by
  obtain ⟨-, -, -, -, -, hpl, hds, hsa⟩ := h
  constructor
  · intro x hx
    rcases (hds x).mp hx with hx | ⟨p, hp, -, hx⟩
    · obtain ⟨p, hp, ci, hci, hxc⟩ := hc.1 x hx
      exact ⟨p, (hpl p).mpr (Or.inl hp), ci, hci, hxc⟩
    · unfold PruneReplayer.set_layouts_of at hx
      cases hv : s.pipeline_layouts p with
      | none => simp [hv] at hx
      | some ci =>
        simp only [hv] at hx
        exact ⟨p, (hpl p).mpr (Or.inr hp), ci, ht.2 p ci hv, hx⟩
  · intro x hx
    rcases (hsa x).mp hx with hx | ⟨d, hd, -, hx⟩
    · obtain ⟨d, hd, ci, hci, hxc⟩ := hc.2 x hx
      exact ⟨d, (hds d).mpr (Or.inl hd), ci, hci, hxc⟩
    · unfold PruneReplayer.samplers_of at hx
      cases hv : s.descriptor_sets d with
      | none => simp [hv] at hx
      | some ci =>
        simp only [hv] at hx
        exact ⟨d, hd, ci, ht.1 d ci hv, hx⟩

theorem traced_of_sets {s t : PruneReplayer} (hs : t.sets = s.sets) {seen : List Event}
    (h : s.Traced seen) : t.Traced seen := by
  obtain ⟨e1, e2, e3, -⟩ := (sets_eq_iff t s).mp hs
  unfold PruneReplayer.Traced
  simp only [e1, e2, e3]
  exact h

theorem dispatch_tables_from (s : PruneReplayer) (e : Event) {seen : List Event}
    (h : s.TablesFrom seen) : (s.dispatch e).TablesFrom (seen ++ [e]) := by
  have hmono : s.TablesFrom (seen ++ [e]) :=
    tables_from_mono h (fun x hx => List.mem_append.mpr (Or.inl hx))
  cases hl : e.is_layout with
  | false =>
    obtain ⟨g1, g2⟩ := dispatch_tables_of_not_layout s e hl
    unfold PruneReplayer.TablesFrom
    rw [g1, g2]
    exact hmono
  | true =>
    cases e with
    | enqueue_create_descriptor_set_layout hash ci =>
      refine ⟨?_, hmono.2⟩
      intro d v hd
      simp only [PruneReplayer.dispatch, enqueue_create_descriptor_set_layout] at hd
      by_cases hdh : d = hash
      · subst hdh
        simp only [Function.update_same, Option.some.injEq] at hd
        subst hd
        simp
      · rw [Function.update_noteq hdh] at hd
        exact hmono.1 d v hd
    | enqueue_create_pipeline_layout hash ci =>
      refine ⟨hmono.1, ?_⟩
      intro p v hp
      simp only [PruneReplayer.dispatch, enqueue_create_pipeline_layout] at hp
      by_cases hph : p = hash
      · subst hph
        simp only [Function.update_same, Option.some.injEq] at hp
        subst hp
        simp
      · rw [Function.update_noteq hph] at hp
        exact hmono.2 p v hp
    | _ => simp [Event.is_layout] at hl

theorem dispatch_traced (s : PruneReplayer) (e : Event) {seen : List Event}
    (ht : s.TablesFrom seen) (hc : s.Traced seen) : (s.dispatch e).Traced (seen ++ [e]) := by
  apply traced_mono _ (fun x hx => List.mem_append.mpr (Or.inl hx))
  cases hp : e.is_pipeline with
  | false => exact traced_of_sets (dispatch_sets_of_not_pipeline s e hp) hc
  | true =>
    cases ha : s.accepts with
    | false => rw [dispatch_rejected s e hp ha]; exact hc
    | true => exact (dispatch_accepted s e hp ha).traced ht hc

/-- Stored views and marks are traced back to the creation callbacks seen so far. -/
theorem replay_traced (l : List Event) (s : PruneReplayer) (seen : List Event)
    (ht : s.TablesFrom seen) (hc : s.Traced seen) :
    (s.replay l).TablesFrom (seen ++ l) ∧ (s.replay l).Traced (seen ++ l) := by
  induction l generalizing s seen with
  | nil => simpa [replay_nil] using ⟨ht, hc⟩
  | cons e l ih =>
    rw [replay_cons]
    have := ih (s.dispatch e) (seen ++ [e]) (dispatch_tables_from s e ht) (dispatch_traced s e ht hc)
    simpa using this

theorem start_replayer_tables_from (sf : Bool) (f : Hash) : (start_replayer sf f).TablesFrom [] := by
  cases sf <;> exact ⟨fun d ci h => (by cases h), fun p ci h => (by cases h)⟩

theorem replay_scan_traced (replayer : StateReplayer) (input_db : DatabaseInterface)
    (sf : Bool) (f : Hash) :
    ((start_replayer sf f).replay (scan_events replayer input_db playback_order)).TablesFrom
        (scan_events replayer input_db playback_order) ∧
      ((start_replayer sf f).replay (scan_events replayer input_db playback_order)).Traced
        (scan_events replayer input_db playback_order) := by
  have hu := start_replayer_unmarked sf f
  obtain ⟨h1, h2, -⟩ := (unmarked_iff _).mp hu
  have := replay_traced (scan_events replayer input_db playback_order) (start_replayer sf f) []
    (start_replayer_tables_from sf f)
    ⟨fun x hx => (by simp [h2] at hx), fun x hx => (by simp [h1] at hx)⟩
  simpa using this

end Fossilize

namespace Fossilize

open ResourceTag

/-! ## C1: closure correctness -/

theorem scenario_scan_ok :
    (scan toy_replayer scenario_store fresh_output false 0).isOk = true := by decide

end Fossilize

namespace Fossilize

open ResourceTag

/-! ## The destination store after the scan and the sweep -/

/-- A successful `copy_accessed_types` loop wrote exactly the raw copies of the
hashes it iterated, every raw read and write having succeeded. -/
theorem copy_accessed_loop_ok (input_db : DatabaseInterface) (tag : ResourceTag)
    (l : List Hash) (out out1 : OutputDatabase)
    (h : copy_accessed_loop input_db tag l out = (true, out1)) :
    out1.entries = (l.map (raw_copy input_db tag)).reverse ++ out.entries ∧
      out1.accepts_write = out.accepts_write ∧
      ∀ hash ∈ l, ∃ data, input_db.read_entry tag hash true = some data ∧
        out.accepts_write tag hash data = true := by
  induction l generalizing out with
  | nil =>
    simp only [copy_accessed_loop, Prod.mk.injEq, true_and] at h
    subst h
    simp
  | cons a l ih =>
    simp only [copy_accessed_loop] at h
    cases hr : input_db.read_entry tag a true with
    | none => simp [hr] at h
    | some data =>
      simp only [hr] at h
      cases hw : out.write_entry tag a data with
      | none => simp [hw] at h
      | some out2 =>
        simp only [hw] at h
        obtain ⟨h1, h2, h3⟩ := ih out2 h
        unfold OutputDatabase.write_entry at hw
        split at hw
        · rename_i hacc
          simp only [Option.some.injEq] at hw
          subst hw
          refine ⟨?_, h2, ?_⟩
          · rw [h1]
            simp [raw_copy, hr]
          · intro hash hmem
            rcases List.mem_cons.mp hmem with rfl | hmem
            · exact ⟨data, hr, hacc⟩
            · exact h3 hash hmem
        · cases hw

/-- Whatever its result, the `copy_accessed_types` loop only adds raw copies of
hashes of the set it iterates. -/
theorem copy_accessed_loop_entries (input_db : DatabaseInterface) (tag : ResourceTag)
    (l : List Hash) (out : OutputDatabase) :
    (copy_accessed_loop input_db tag l out).2.accepts_write = out.accepts_write ∧
    ∃ l1 l2, l = l1 ++ l2 ∧
      (copy_accessed_loop input_db tag l out).2.entries
        = (l1.map (raw_copy input_db tag)).reverse ++ out.entries ∧
      (∀ hash ∈ l1, (input_db.read_entry tag hash true).isSome = true) ∧
      ((copy_accessed_loop input_db tag l out).1 = true → l2 = []) := by
  induction l generalizing out with
  | nil => exact ⟨rfl, [], [], rfl, rfl, by simp, fun _ => rfl⟩
  | cons a l ih =>
    simp only [copy_accessed_loop]
    cases hr : input_db.read_entry tag a true with
    | none => exact ⟨rfl, [], a :: l, rfl, rfl, by simp, by simp⟩
    | some data =>
      simp only []
      cases hw : out.write_entry tag a data with
      | none => exact ⟨rfl, [], a :: l, rfl, rfl, by simp, by simp⟩
      | some out2 =>
        simp only []
        obtain ⟨hacc, l1, l2, hl, he, hs, hb⟩ := ih out2
        unfold OutputDatabase.write_entry at hw
        split at hw
        · simp only [Option.some.injEq] at hw
          subst hw
          refine ⟨hacc, a :: l1, l2, by simp [hl], ?_, ?_, hb⟩
          · rw [he]
            simp [raw_copy, hr]
          · intro hash hmem
            rcases List.mem_cons.mp hmem with rfl | hmem
            · simp [hr]
            · exact hs hash hmem
        · cases hw

theorem copy_application_info_ok {input_db : DatabaseInterface} {tag : ResourceTag}
    {hash : Hash} {d d1 : Driver} (h : copy_application_info input_db tag hash d = .ok d1) :
    d1.output_db.entries = raw_copy input_db tag hash :: d.output_db.entries ∧
      d1.output_db.accepts_write = d.output_db.accepts_write ∧
      (∃ data, input_db.read_entry tag hash true = some data ∧
        d.output_db.accepts_write tag hash data = true) ∧
      d1.per_tag_written
        = Function.update d.per_tag_written tag ((d.per_tag_written tag + 1) % UINT_RANGE) := by
  unfold copy_application_info at h
  cases hr : input_db.read_entry tag hash true with
  | none => simp [hr] at h
  | some data =>
    simp only [hr] at h
    cases hw : d.output_db.write_entry tag hash data with
    | none => simp [hw] at h
    | some out2 =>
      simp only [hw, Except.ok.injEq] at h
      subst h
      unfold OutputDatabase.write_entry at hw
      split at hw
      · rename_i hacc
        simp only [Option.some.injEq] at hw
        subst hw
        exact ⟨by simp [raw_copy, hr], rfl, ⟨data, rfl, hacc⟩, rfl⟩
      · cases hw

/-- The destination after one scanned record. -/
theorem scan_entry_output {replayer : StateReplayer} {input_db : DatabaseInterface}
    {sf : Bool} {f : Hash} {tag : ResourceTag} {hash : Hash} {d d1 : Driver}
    (h : scan_entry replayer input_db sf f tag hash d = .ok d1) :
    d1.output_db.entries
        = (if tag = RESOURCE_APPLICATION_INFO ∧ passes_filter sf f hash = true
            then [raw_copy input_db tag hash] else []) ++ d.output_db.entries ∧
      d1.output_db.accepts_write = d.output_db.accepts_write ∧
      (input_db.read_entry tag hash false).isSome = true ∧
      (tag = RESOURCE_APPLICATION_INFO → passes_filter sf f hash = true →
        ∃ data, input_db.read_entry tag hash true = some data ∧
          d.output_db.accepts_write tag hash data = true) := by
  unfold scan_entry at h
  cases hr : input_db.read_entry tag hash false with
  | none => simp [hr] at h
  | some data =>
    simp only [hr] at h
    by_cases ht : tag = RESOURCE_APPLICATION_INFO
    · simp only [ht, if_true] at h
      by_cases hp : passes_filter sf f hash = true
      · have hp2 : (!sf || hash == f) = true := hp
        simp only [hp2, if_true] at h
        obtain ⟨h1, h2, h3, -⟩ := copy_application_info_ok h
        subst ht
        exact ⟨by simp [hp, h1], h2, rfl, fun _ _ => h3⟩
      · have hp2 : ¬ (!sf || hash == f) = true := hp
        simp only [hp2, if_false, Except.ok.injEq, Bool.false_eq_true] at h
        subst h
        exact ⟨by simp [hp], rfl, rfl, fun _ hq => absurd hq hp⟩
    · simp only [ht, if_false, Except.ok.injEq] at h
      subst h
      exact ⟨by simp [ht], rfl, rfl, fun hq => absurd hq ht⟩

theorem scan_entries_output {replayer : StateReplayer} {input_db : DatabaseInterface}
    {sf : Bool} {f : Hash} {tag : ResourceTag} (hashes : List Hash) {d d1 : Driver}
    (h : scan_entries replayer input_db sf f tag hashes d = .ok d1) :
    d1.output_db.entries
        = (if tag = RESOURCE_APPLICATION_INFO
            then ((hashes.filter (passes_filter sf f)).map (raw_copy input_db tag)).reverse
            else []) ++ d.output_db.entries ∧
      d1.output_db.accepts_write = d.output_db.accepts_write ∧
      (∀ hash ∈ hashes, (input_db.read_entry tag hash false).isSome = true) ∧
      (tag = RESOURCE_APPLICATION_INFO → ∀ hash ∈ hashes, passes_filter sf f hash = true →
        ∃ data, input_db.read_entry tag hash true = some data ∧
          d.output_db.accepts_write tag hash data = true) := by
  induction hashes generalizing d with
  | nil =>
    simp only [scan_entries, Except.ok.injEq] at h
    subst h
    simp
  | cons a l ih =>
    simp only [scan_entries] at h
    cases hs : scan_entry replayer input_db sf f tag a d with
    | error e => simp [hs] at h
    | ok d2 =>
      simp only [hs] at h
      obtain ⟨h1, h2, h3, h4⟩ := ih h
      obtain ⟨g1, g2, g3, g4⟩ := scan_entry_output hs
      refine ⟨?_, h2.trans g2, ?_, ?_⟩
      · rw [h1, g1]
        by_cases ht : tag = RESOURCE_APPLICATION_INFO
        · by_cases hp : passes_filter sf f a = true
          · simp [ht, hp, List.filter_cons]
          · simp [ht, hp, List.filter_cons]
        · simp [ht]
      · intro hash hmem
        rcases List.mem_cons.mp hmem with rfl | hmem
        · exact g3
        · exact h3 hash hmem
      · intro ht hash hmem hp
        rcases List.mem_cons.mp hmem with rfl | hmem
        · exact g4 ht hp
        · obtain ⟨data, hd1, hd2⟩ := h4 ht hash hmem hp
          exact ⟨data, hd1, by rw [← g2]; exact hd2⟩

theorem scan_tag_output {replayer : StateReplayer} {input_db : DatabaseInterface}
    {sf : Bool} {f : Hash} {tag : ResourceTag} {d d1 : Driver}
    (h : scan_tag replayer input_db sf f tag d = .ok d1) :
    d1.output_db.entries = (tag_copies input_db sf f tag).reverse ++ d.output_db.entries ∧
      d1.output_db.accepts_write = d.output_db.accepts_write ∧
      (∀ hash ∈ scanned_hashes input_db tag, (input_db.read_entry tag hash false).isSome = true) ∧
      (∀ r ∈ tag_copies input_db sf f tag,
        input_db.read_entry r.1 r.2.1 true = some r.2.2 ∧
          d.output_db.accepts_write r.1 r.2.1 r.2.2 = true) := by
  unfold scan_tag at h
  unfold tag_copies scanned_hashes
  by_cases ht : tag = RESOURCE_SHADER_MODULE
  · simp only [ht, if_true, Except.ok.injEq] at h
    subst h
    simp [ht]
  · simp only [ht, if_false] at h ⊢
    cases hl : input_db.get_hash_list_for_resource_tag tag with
    | none => simp [hl] at h
    | some hashes =>
      simp only [hl] at h
      obtain ⟨h1, h2, h3, h4⟩ := scan_entries_output hashes h
      refine ⟨?_, h2, h3, ?_⟩
      · rw [h1]
        by_cases hta : tag = RESOURCE_APPLICATION_INFO <;> simp [hta]
      · intro r hr
        by_cases hta : tag = RESOURCE_APPLICATION_INFO
        · simp only [hta, if_true, List.mem_map, List.mem_filter] at hr
          obtain ⟨hash, ⟨hmem, hp⟩, rfl⟩ := hr
          obtain ⟨data, hd1, hd2⟩ := h4 hta hash hmem hp
          subst hta
          simp only [raw_copy, hd1, Option.getD_some]
          exact ⟨trivial, hd2⟩
        · simp [hta] at hr

theorem scan_tags_output {replayer : StateReplayer} {input_db : DatabaseInterface}
    {sf : Bool} {f : Hash} (tags : List ResourceTag) {d d1 : Driver}
    (h : scan_tags replayer input_db sf f tags d = .ok d1) :
    d1.output_db.entries
        = ((tags.map (tag_copies input_db sf f)).flatten).reverse ++ d.output_db.entries ∧
      d1.output_db.accepts_write = d.output_db.accepts_write ∧
      (∀ tag ∈ tags, ∀ hash ∈ scanned_hashes input_db tag,
        (input_db.read_entry tag hash false).isSome = true) ∧
      (∀ tag ∈ tags, ∀ r ∈ tag_copies input_db sf f tag,
        input_db.read_entry r.1 r.2.1 true = some r.2.2 ∧
          d.output_db.accepts_write r.1 r.2.1 r.2.2 = true) := by
  induction tags generalizing d with
  | nil =>
    simp only [scan_tags, Except.ok.injEq] at h
    subst h
    simp
  | cons t l ih =>
    simp only [scan_tags] at h
    cases hs : scan_tag replayer input_db sf f t d with
    | error e => simp [hs] at h
    | ok d2 =>
      simp only [hs] at h
      obtain ⟨h1, h2, h3, h4⟩ := ih h
      obtain ⟨g1, g2, g3, g4⟩ := scan_tag_output hs
      refine ⟨?_, h2.trans g2, ?_, ?_⟩
      · rw [h1, g1]
        simp
      · intro tag hmem
        rcases List.mem_cons.mp hmem with rfl | hmem
        · exact g3
        · exact h3 tag hmem
      · intro tag hmem r hr
        rcases List.mem_cons.mp hmem with rfl | hmem
        · exact g4 r hr
        · obtain ⟨hd1, hd2⟩ := h4 tag hmem r hr
          exact ⟨hd1, by rw [← g2]; exact hd2⟩

end Fossilize

namespace Fossilize

open ResourceTag

/-! ## The sweep pass -/

/-- The seven calls of `main` are the sweep over `sweep_order`. -/
theorem sweep_eq_sweep_tags (input_db : DatabaseInterface) (d : Driver) :
    sweep input_db d = sweep_tags input_db sweep_order d := by
  simp only [sweep, sweep_tags, sweep_order, PruneReplayer.accessed]
  repeat' split
  all_goals first | rfl | simp_all

theorem sweep_step_ok {input_db : DatabaseInterface} {acc : PruneReplayer → List Hash}
    {tag : ResourceTag} {d d1 : Driver} (h : sweep_step input_db acc tag d = .ok d1) :
    d1.prune_replayer = d.prune_replayer ∧ d1.per_tag_read = d.per_tag_read ∧
      d1.per_tag_written
        = Function.update d.per_tag_written tag ((acc d.prune_replayer).length % UINT_RANGE) ∧
      d1.output_db.entries
        = ((acc d.prune_replayer).map (raw_copy input_db tag)).reverse ++ d.output_db.entries ∧
      d1.output_db.accepts_write = d.output_db.accepts_write ∧
      ∀ hash ∈ acc d.prune_replayer, ∃ data, input_db.read_entry tag hash true = some data ∧
        d.output_db.accepts_write tag hash data = true := by
  unfold sweep_step copy_accessed_types at h
  simp only at h
  split at h
  · rename_i hb
    simp only [Except.ok.injEq] at h
    subst h
    have := copy_accessed_loop_ok input_db tag (acc d.prune_replayer) d.output_db
      (copy_accessed_loop input_db tag (acc d.prune_replayer) d.output_db).2
      (by rw [← hb])
    exact ⟨rfl, rfl, rfl, this.1, this.2.1, this.2.2⟩
  · cases h

/-- Whatever its result, one sweep step leaves the replayer alone and adds only raw
copies of hashes of the given set, in iteration order, up to the first failure. -/
theorem sweep_step_final (input_db : DatabaseInterface) (acc : PruneReplayer → List Hash)
    (tag : ResourceTag) (d : Driver) :
    (final_state (sweep_step input_db acc tag d)).prune_replayer = d.prune_replayer ∧
      (final_state (sweep_step input_db acc tag d)).per_tag_read = d.per_tag_read ∧
      (final_state (sweep_step input_db acc tag d)).output_db.accepts_write
        = d.output_db.accepts_write ∧
      ∃ l1 l2, acc d.prune_replayer = l1 ++ l2 ∧
        (final_state (sweep_step input_db acc tag d)).output_db.entries
          = (l1.map (raw_copy input_db tag)).reverse ++ d.output_db.entries ∧
        (∀ hash ∈ l1, (input_db.read_entry tag hash true).isSome = true) := by
  obtain ⟨hacc, l1, l2, hl, he, hs, -⟩ :=
    copy_accessed_loop_entries input_db tag (acc d.prune_replayer) d.output_db
  unfold sweep_step copy_accessed_types
  simp only
  split <;> exact ⟨rfl, rfl, hacc, l1, l2, hl, he, hs⟩

/-- Whatever its result, the sweep leaves the replayer alone and every entry it adds is
a raw copy, for a kind of the sweep, of a hash of that kind's reachable set. -/
theorem sweep_tags_final (input_db : DatabaseInterface) (tags : List ResourceTag) (d : Driver) :
    (final_state (sweep_tags input_db tags d)).prune_replayer = d.prune_replayer ∧
      (final_state (sweep_tags input_db tags d)).per_tag_read = d.per_tag_read ∧
      (final_state (sweep_tags input_db tags d)).output_db.accepts_write
        = d.output_db.accepts_write ∧
      ∃ added, (final_state (sweep_tags input_db tags d)).output_db.entries
          = added ++ d.output_db.entries ∧
        ∀ r ∈ added, r.1 ∈ tags ∧ r.2.1 ∈ d.prune_replayer.accessed r.1 ∧
          input_db.read_entry r.1 r.2.1 true = some r.2.2 := by
  induction tags generalizing d with
  | nil => exact ⟨rfl, rfl, rfl, [], rfl, by simp⟩
  | cons t l ih =>
    obtain ⟨g1, g2, g3, l1, l2, hl, he, hs⟩ :=
      sweep_step_final input_db (fun s => s.accessed t) t d
    have hadd : ∀ r ∈ (l1.map (raw_copy input_db t)).reverse,
        r.1 ∈ t :: l ∧ r.2.1 ∈ d.prune_replayer.accessed r.1 ∧
          input_db.read_entry r.1 r.2.1 true = some r.2.2 := by
      intro r hr
      simp only [List.mem_reverse, List.mem_map] at hr
      obtain ⟨hash, hmem, rfl⟩ := hr
      refine ⟨by simp [raw_copy], ?_, ?_⟩
      · simp only [raw_copy]
        rw [hl]
        exact List.mem_append.mpr (Or.inl hmem)
      · have := hs hash hmem
        simp only [raw_copy]
        cases hr : input_db.read_entry t hash true with
        | none => simp [hr] at this
        | some data => simp
    simp only [sweep_tags]
    cases hstep : sweep_step input_db (fun s => s.accessed t) t d with
    | error e =>
      rw [hstep] at g1 g2 g3 he
      exact ⟨g1, g2, g3, _, he, hadd⟩
    | ok d1 =>
      rw [hstep] at g1 g2 g3 he
      simp only [final_state] at g1 g2 g3 he
      obtain ⟨h1, h2, h3, added, ha, hr⟩ := ih d1
      refine ⟨h1.trans g1, h2.trans g2, h3.trans g3,
        added ++ (l1.map (raw_copy input_db t)).reverse, ?_, ?_⟩
      · rw [ha, he, List.append_assoc]
      · intro r hmem
        rcases List.mem_append.mp hmem with hmem | hmem
        · obtain ⟨r1, r2, r3⟩ := hr r hmem
          rw [g1] at r2
          exact ⟨List.mem_cons_of_mem _ r1, r2, r3⟩
        · exact hadd r hmem

/-- A successful sweep wrote, for every kind of the sweep, the raw copy of every hash
of that kind's reachable set, every raw read and write having succeeded. -/
theorem sweep_tags_ok (input_db : DatabaseInterface) (tags : List ResourceTag) {d d1 : Driver}
    (h : sweep_tags input_db tags d = .ok d1) :
    d1.prune_replayer = d.prune_replayer ∧ d1.per_tag_read = d.per_tag_read ∧
      d1.output_db.accepts_write = d.output_db.accepts_write ∧
      d1.output_db.entries
        = ((tags.map (fun tag => (d.prune_replayer.accessed tag).map (raw_copy input_db tag))).flatten).reverse
          ++ d.output_db.entries ∧
      ∀ tag ∈ tags, ∀ hash ∈ d.prune_replayer.accessed tag,
        ∃ data, input_db.read_entry tag hash true = some data ∧
          d.output_db.accepts_write tag hash data = true := by
  induction tags generalizing d with
  | nil =>
    simp only [sweep_tags, Except.ok.injEq] at h
    subst h
    simp
  | cons t l ih =>
    simp only [sweep_tags] at h
    cases hstep : sweep_step input_db (fun s => s.accessed t) t d with
    | error e => simp [hstep] at h
    | ok d2 =>
      simp only [hstep] at h
      obtain ⟨h1, h2, h3, h4, h5⟩ := ih h
      obtain ⟨g1, g2, -, g4, g5, g6⟩ := sweep_step_ok hstep
      refine ⟨h1.trans g1, h2.trans g2, h3.trans g5, ?_, ?_⟩
      · rw [h4, g4, g1]
        simp
      · intro tag hmem hash hh
        rcases List.mem_cons.mp hmem with rfl | hmem
        · exact g6 hash hh
        · rw [g1] at h5
          obtain ⟨data, hd1, hd2⟩ := h5 tag hmem hash hh
          exact ⟨data, hd1, by rw [← g5]; exact hd2⟩

end Fossilize

namespace Fossilize

open ResourceTag

/-! ## C2, C5, C10: what is written -/

theorem prune_ok {replayer : StateReplayer} {input_db : DatabaseInterface}
    {output_db : OutputDatabase} {sf : Bool} {f : Hash} {d : Driver}
    (h : prune replayer input_db output_db sf f = .ok d) :
    ∃ ds, scan replayer input_db output_db sf f = .ok ds ∧
      sweep_tags input_db sweep_order ds = .ok d := by
  unfold prune at h
  cases hs : scan replayer input_db output_db sf f with
  | error e => simp [hs] at h
  | ok ds =>
    simp only [hs] at h
    exact ⟨ds, rfl, by rw [← sweep_eq_sweep_tags]; exact h⟩

theorem mem_tag_copies {input_db : DatabaseInterface} {sf : Bool} {f : Hash}
    {tag : ResourceTag} {r : ResourceTag × Hash × List Nat}
    (h : r ∈ tag_copies input_db sf f tag) :
    tag = RESOURCE_APPLICATION_INFO ∧ r.1 = RESOURCE_APPLICATION_INFO ∧
      passes_filter sf f r.2.1 = true ∧ r.2.1 ∈ scanned_hashes input_db RESOURCE_APPLICATION_INFO := by
  unfold tag_copies at h
  by_cases ht : tag = RESOURCE_APPLICATION_INFO
  · subst ht
    simp only [if_true, List.mem_map, List.mem_filter] at h
    obtain ⟨hash, ⟨hmem, hp⟩, rfl⟩ := h
    exact ⟨rfl, rfl, hp, hmem⟩
  · simp [ht] at h

theorem scan_copies_playback_order (input_db : DatabaseInterface) (sf : Bool) (f : Hash) :
    (playback_order.map (tag_copies input_db sf f)).flatten
      = tag_copies input_db sf f RESOURCE_APPLICATION_INFO := by
  simp [playback_order, tag_copies]

/-- The destination after a completed scan pass holds, on top of what it held, the raw
copies of the listed `ApplicationInfo` hashes that pass the filter test. -/
theorem scan_output {replayer : StateReplayer} {input_db : DatabaseInterface}
    {output_db : OutputDatabase} {sf : Bool} {f : Hash} {d : Driver}
    (h : scan replayer input_db output_db sf f = .ok d) :
    d.output_db.entries
        = (tag_copies input_db sf f RESOURCE_APPLICATION_INFO).reverse ++ output_db.entries ∧
      d.output_db.accepts_write = output_db.accepts_write ∧
      (∀ r ∈ tag_copies input_db sf f RESOURCE_APPLICATION_INFO,
        input_db.read_entry r.1 r.2.1 true = some r.2.2 ∧
          output_db.accepts_write r.1 r.2.1 r.2.2 = true) := by
  obtain ⟨h1, h2, -, h4⟩ := @scan_tags_output replayer input_db sf f playback_order
    (Driver.start output_db sf f) d h
  rw [scan_copies_playback_order] at h1
  exact ⟨h1, h2, h4 RESOURCE_APPLICATION_INFO (by simp [playback_order])⟩

/-- C2 (no over-retention). After a run that succeeds on a freshly opened
destination, every entry of the destination is either a listed `ApplicationInfo`
record that passes the filter test or a member of the reachable set of its kind;
every marked pipeline is the hash of an accepted pipeline creation callback, every
marked pipeline layout, render pass and shader module is referenced by one
(`FromRoots`); every marked descriptor-set layout is a set layout of the decoded
view of a marked pipeline layout and every marked sampler an immutable sampler of
the decoded view of a marked descriptor-set layout (`Traced`). -/
theorem no_over_retention (replayer : StateReplayer) (input_db : DatabaseInterface)
    (accepts_write : ResourceTag → Hash → List Nat → Bool)
    (should_filter_application_hash : Bool) (application_hash : Hash) (d : Driver)
    (hrun : prune replayer input_db ⟨[], accepts_write⟩ should_filter_application_hash
      application_hash = .ok d) :
    (∀ r ∈ d.output_db.entries,
      (r.1 = RESOURCE_APPLICATION_INFO ∧
        passes_filter should_filter_application_hash application_hash r.2.1 = true ∧
        r.2.1 ∈ scanned_hashes input_db RESOURCE_APPLICATION_INFO) ∨
      r.2.1 ∈ d.prune_replayer.accessed r.1) ∧
    d.prune_replayer.FromRoots
      (accepted_roots replayer input_db should_filter_application_hash application_hash) ∧
    d.prune_replayer.Traced (scan_events replayer input_db playback_order) := by
  obtain ⟨ds, hscan, hsweep⟩ := prune_ok hrun
  obtain ⟨b, hb⟩ := scan_replayer hscan
  obtain ⟨hfrom, -⟩ := replay_scan_roots replayer input_db
    should_filter_application_hash application_hash
  obtain ⟨-, htraced⟩ := replay_scan_traced replayer input_db
    should_filter_application_hash application_hash
  obtain ⟨hout, -, -⟩ := scan_output hscan
  have hfin := sweep_tags_final input_db sweep_order ds
  rw [hsweep] at hfin
  simp only [final_state] at hfin
  obtain ⟨hrep, -, -, added, hent, hadded⟩ := hfin
  refine ⟨?_, ?_, ?_⟩
  · intro r hr
    rw [hent, hout] at hr
    simp only [List.append_nil, List.mem_append, List.mem_reverse] at hr
    rcases hr with hr | hr
    · right
      rw [hrep]
      exact (hadded r hr).2.1
    · left
      exact (mem_tag_copies hr).2
  · rw [hrep, hb]
    exact hfrom
  · rw [hrep, hb]
    exact htraced

theorem scenario_prune_ok :
    (prune toy_replayer scenario_store ⟨[], fun _ _ _ => true⟩ true 1).isOk = true := by decide

/-- The scenario of the specification, pruned with the filter set to session 1,
satisfies the hypothesis of `no_over_retention`. -/
theorem no_over_retention_witness :
    ∃ d, prune toy_replayer scenario_store ⟨[], fun _ _ _ => true⟩ true 1 = .ok d ∧
      ∀ r ∈ d.output_db.entries,
        (r.1 = RESOURCE_APPLICATION_INFO ∧ passes_filter true 1 r.2.1 = true ∧
          r.2.1 ∈ scanned_hashes scenario_store RESOURCE_APPLICATION_INFO) ∨
        r.2.1 ∈ d.prune_replayer.accessed r.1 := by
  cases h : prune toy_replayer scenario_store ⟨[], fun _ _ _ => true⟩ true 1 with
  | error e =>
    have := scenario_prune_ok
    rw [h] at this
    cases this
  | ok d =>
    exact ⟨d, rfl, (no_over_retention toy_replayer scenario_store (fun _ _ _ => true) true 1 d h).1⟩

end Fossilize

namespace Fossilize

open ResourceTag

theorem scan_tag_listed {replayer : StateReplayer} {input_db : DatabaseInterface}
    {sf : Bool} {f : Hash} {tag : ResourceTag} {d d1 : Driver}
    (h : scan_tag replayer input_db sf f tag d = .ok d1) (ht : tag ≠ RESOURCE_SHADER_MODULE) :
    ∃ hashes, input_db.get_hash_list_for_resource_tag tag = some hashes := by
  unfold scan_tag at h
  simp only [ht, if_false] at h
  cases hl : input_db.get_hash_list_for_resource_tag tag with
  | none => simp [hl] at h
  | some hashes => exact ⟨hashes, rfl⟩

theorem scan_tags_listed {replayer : StateReplayer} {input_db : DatabaseInterface}
    {sf : Bool} {f : Hash} (tags : List ResourceTag) {d d1 : Driver}
    (h : scan_tags replayer input_db sf f tags d = .ok d1) :
    ∀ tag ∈ tags, tag ≠ RESOURCE_SHADER_MODULE →
      ∃ hashes, input_db.get_hash_list_for_resource_tag tag = some hashes := by
  induction tags generalizing d with
  | nil => intro tag hmem; simp at hmem
  | cons t l ih =>
    simp only [scan_tags] at h
    cases hs : scan_tag replayer input_db sf f t d with
    | error e => simp [hs] at h
    | ok d2 =>
      simp only [hs] at h
      intro tag hmem ht
      rcases List.mem_cons.mp hmem with rfl | hmem
      · exact scan_tag_listed hs ht
      · exact ih h tag hmem ht

theorem hashes_of_tag_copies (input_db : DatabaseInterface) (sf : Bool) (f : Hash)
    (hashes : List Hash)
    (hl : input_db.get_hash_list_for_resource_tag RESOURCE_APPLICATION_INFO = some hashes) :
    OutputDatabase.hashes_of
        ⟨(tag_copies input_db sf f RESOURCE_APPLICATION_INFO).reverse, fun _ _ _ => true⟩
        RESOURCE_APPLICATION_INFO
      = (hashes.filter (passes_filter sf f)).reverse := by
  simp only [OutputDatabase.hashes_of, tag_copies, scanned_hashes, hl, if_true]
  have : ¬ (RESOURCE_APPLICATION_INFO = RESOURCE_SHADER_MODULE) := by decide
  simp only [this, if_false]
  rw [← List.map_reverse, List.filter_map, List.map_map]
  have hall : ∀ l : List Hash,
      List.filter ((fun r => decide (r.1 = RESOURCE_APPLICATION_INFO))
        ∘ raw_copy input_db RESOURCE_APPLICATION_INFO) l = l := by
    intro l
    apply List.filter_eq_self.mpr
    intro a _
    simp [raw_copy]
  rw [hall]
  have hid : ((fun r : ResourceTag × Hash × List Nat => r.2.1)
      ∘ raw_copy input_db RESOURCE_APPLICATION_INFO) = id := by
    funext x
    simp [raw_copy]
  rw [hid, List.map_id]

/-- C10 (ApplicationInfo copy). After a completed scan pass on a freshly opened
destination, the destination holds only `ApplicationInfo` entries, and their hashes
are the listed source `ApplicationInfo` hashes that pass the filter test (latest
first): all of them when no filter is given, exactly those equal to the filter value
when one is given. The sweep pass, whatever its result, adds no `ApplicationInfo`
entry. -/
theorem application_info_copy (replayer : StateReplayer) (input_db : DatabaseInterface)
    (accepts_write : ResourceTag → Hash → List Nat → Bool)
    (should_filter_application_hash : Bool) (application_hash : Hash) (d : Driver)
    (hscan : scan replayer input_db ⟨[], accepts_write⟩ should_filter_application_hash
      application_hash = .ok d) :
    ∃ hashes, input_db.get_hash_list_for_resource_tag RESOURCE_APPLICATION_INFO = some hashes ∧
      d.output_db.hashes_of RESOURCE_APPLICATION_INFO
        = (hashes.filter
            (passes_filter should_filter_application_hash application_hash)).reverse ∧
      (∀ r ∈ d.output_db.entries, r.1 = RESOURCE_APPLICATION_INFO) ∧
      (should_filter_application_hash = false →
        ∀ hash, hash ∈ d.output_db.hashes_of RESOURCE_APPLICATION_INFO ↔ hash ∈ hashes) ∧
      (should_filter_application_hash = true →
        ∀ hash, hash ∈ d.output_db.hashes_of RESOURCE_APPLICATION_INFO ↔
          hash ∈ hashes ∧ hash = application_hash) ∧
      (final_state (sweep input_db d)).output_db.hashes_of RESOURCE_APPLICATION_INFO
        = d.output_db.hashes_of RESOURCE_APPLICATION_INFO := by
  obtain ⟨hashes, hl⟩ := @scan_tags_listed replayer input_db should_filter_application_hash
    application_hash playback_order _ d hscan RESOURCE_APPLICATION_INFO
    (by simp [playback_order]) (by decide)
  obtain ⟨hout, -, -⟩ := scan_output hscan
  simp only [List.append_nil] at hout
  have hh : d.output_db.hashes_of RESOURCE_APPLICATION_INFO
      = (hashes.filter (passes_filter should_filter_application_hash application_hash)).reverse := by
    rw [← hashes_of_tag_copies input_db _ _ hashes hl]
    simp only [OutputDatabase.hashes_of, hout]
  refine ⟨hashes, hl, hh, ?_, ?_, ?_, ?_⟩
  · intro r hr
    rw [hout, List.mem_reverse] at hr
    exact (mem_tag_copies hr).2.1
  · intro hsf hash
    rw [hh, hsf]
    simp [passes_filter]
  · intro hsf hash
    rw [hh, hsf]
    simp [passes_filter]
  · rw [sweep_eq_sweep_tags]
    obtain ⟨-, -, -, added, hent, hadded⟩ := sweep_tags_final input_db sweep_order d
    simp only [OutputDatabase.hashes_of, hent, List.filter_append]
    have : List.filter (fun r => decide (r.1 = RESOURCE_APPLICATION_INFO)) added = [] := by
      apply List.filter_eq_nil_iff.mpr
      intro r hr
      have h1 := (hadded r hr).1
      simp only [decide_eq_true_eq]
      intro heq
      rw [heq] at h1
      simp [sweep_order] at h1
    rw [this, List.nil_append]

/-- The scenario of the specification completes its scan with the filter set to
session 1; the only `ApplicationInfo` hash then written is 1. -/
theorem application_info_copy_witness :
    ∃ d, scan toy_replayer scenario_store ⟨[], fun _ _ _ => true⟩ true 1 = .ok d ∧
      ∃ hashes,
        scenario_store.get_hash_list_for_resource_tag RESOURCE_APPLICATION_INFO = some hashes ∧
        d.output_db.hashes_of RESOURCE_APPLICATION_INFO
          = (hashes.filter (passes_filter true 1)).reverse := by
  have hok : (scan toy_replayer scenario_store ⟨[], fun _ _ _ => true⟩ true 1).isOk = true := by
    decide
  cases h : scan toy_replayer scenario_store ⟨[], fun _ _ _ => true⟩ true 1 with
  | error e =>
    rw [h] at hok
    cases hok
  | ok d =>
    obtain ⟨hashes, h1, h2, -⟩ :=
      application_info_copy toy_replayer scenario_store (fun _ _ _ => true) true 1 d h
    exact ⟨d, rfl, hashes, h1, h2⟩

end Fossilize

namespace Fossilize

open ResourceTag

/-! ## C6: session-filter root gating -/

theorem dispatch_current (s : PruneReplayer) (e : Event) :
    (s.dispatch e).current_application
      = match e with
        | .set_current_application_info hash => hash
        | _ => s.current_application := by
  cases e with
  | enqueue_create_compute_pipeline hash ci =>
    cases ha : s.accepts with
    | false => rw [dispatch_rejected s (.enqueue_create_compute_pipeline hash ci) rfl ha]
    | true =>
      exact (dispatch_accepted s (.enqueue_create_compute_pipeline hash ci) rfl ha).1.2.2.1
  | enqueue_create_graphics_pipeline hash ci =>
    cases ha : s.accepts with
    | false => rw [dispatch_rejected s (.enqueue_create_graphics_pipeline hash ci) rfl ha]
    | true =>
      exact (dispatch_accepted s (.enqueue_create_graphics_pipeline hash ci) rfl ha).1.2.2.1
  | _ => rfl

theorem accepted_events_of_sessions_differ (l : List Event) (s : PruneReplayer)
    (hsf : s.should_filter_application_hash = true)
    (h : sessions_differ s.filter_application_hash s.current_application l = true) :
    s.accepted_events l = [] := by
  induction l generalizing s with
  | nil => rfl
  | cons e l ih =>
    obtain ⟨g1, g2, -⟩ := dispatch_filter s e
    have hcur := dispatch_current s e
    simp only [PruneReplayer.accepted_events]
    cases e with
    | set_current_application_info hash =>
      simp only [sessions_differ] at h
      simp only [Event.is_pipeline, Bool.false_and, Bool.false_eq_true, if_false, List.nil_append]
      apply ih _ (g2.trans hsf)
      rw [g1, hcur]
      exact h
    | enqueue_create_compute_pipeline hash ci =>
      simp only [sessions_differ, Event.is_pipeline, Bool.not_true, Bool.false_or,
        Bool.and_eq_true, bne_iff_ne, ne_eq] at h
      have ha : s.accepts = false := by
        simp [PruneReplayer.accepts, hsf, h.1]
      simp only [ha, Bool.and_false, Bool.false_eq_true, if_false, List.nil_append]
      rw [dispatch_rejected s (.enqueue_create_compute_pipeline hash ci) rfl ha]
      exact ih s hsf h.2
    | enqueue_create_graphics_pipeline hash ci =>
      simp only [sessions_differ, Event.is_pipeline, Bool.not_true, Bool.false_or,
        Bool.and_eq_true, bne_iff_ne, ne_eq] at h
      have ha : s.accepts = false := by
        simp [PruneReplayer.accepts, hsf, h.1]
      simp only [ha, Bool.and_false, Bool.false_eq_true, if_false, List.nil_append]
      rw [dispatch_rejected s (.enqueue_create_graphics_pipeline hash ci) rfl ha]
      exact ih s hsf h.2
    | _ =>
      simp only [sessions_differ, Event.is_pipeline, Bool.not_false, Bool.true_or,
        Bool.true_and] at h
      simp only [Event.is_pipeline, Bool.false_and, Bool.false_eq_true, if_false, List.nil_append]
      apply ih _ (g2.trans hsf)
      rw [g1, hcur]
      exact h

/-- Without an accepted pipeline creation nothing is marked. -/
theorem unmarked_of_no_roots {s : PruneReplayer} {events : List Event}
    (hf : s.FromRoots []) (ht : s.Traced events) : s.unmarked := by
  obtain ⟨h1, h2, h3, h4, h5⟩ := hf
  have e1 : s.accessed_graphics_pipelines = [] :=
    List.eq_nil_iff_forall_not_mem.mpr (fun x hx => by obtain ⟨e, he, -⟩ := h1 x hx; simp at he)
  have e2 : s.accessed_compute_pipelines = [] :=
    List.eq_nil_iff_forall_not_mem.mpr (fun x hx => by obtain ⟨e, he, -⟩ := h2 x hx; simp at he)
  have e3 : s.accessed_render_passes = [] :=
    List.eq_nil_iff_forall_not_mem.mpr (fun x hx => by obtain ⟨e, he, -⟩ := h3 x hx; simp at he)
  have e4 : s.accessed_shader_modules = [] :=
    List.eq_nil_iff_forall_not_mem.mpr (fun x hx => by obtain ⟨e, he, -⟩ := h4 x hx; simp at he)
  have e5 : s.accessed_pipeline_layouts = [] :=
    List.eq_nil_iff_forall_not_mem.mpr (fun x hx => by obtain ⟨e, he, -⟩ := h5 x hx; simp at he)
  have e6 : s.accessed_descriptor_sets = [] :=
    List.eq_nil_iff_forall_not_mem.mpr
      (fun x hx => by obtain ⟨p, hp, -⟩ := ht.1 x hx; simp [e5] at hp)
  have e7 : s.accessed_samplers = [] :=
    List.eq_nil_iff_forall_not_mem.mpr
      (fun x hx => by obtain ⟨p, hp, -⟩ := ht.2 x hx; simp [e6] at hp)
  exact (unmarked_iff s).mpr ⟨e7, e6, e5, e4, e3, e1, e2⟩

/-- C6 (session-filter root gating). For every state and every graphics or compute
pipeline creation event: if the filter is disabled or `current_application` equals
`filter_application_hash`, the pipeline hash is in its kind's reachable set
afterwards; if the filter is enabled and `current_application` differs, the
replayer, and so every reachable set, is exactly as it was. Consequently, when
every pipeline creation callback of the scan is made under a session other than
the filter value, a completed scan pass ends with all seven reachable sets empty. -/
theorem session_filter_root_gating (s : PruneReplayer) (hash : Hash)
    (graphics : VkGraphicsPipelineCreateInfo) (compute : VkComputePipelineCreateInfo) :
    ((s.should_filter_application_hash = false ∨
        s.current_application = s.filter_application_hash) →
      hash ∈ (enqueue_create_graphics_pipeline s hash graphics).self.accessed_graphics_pipelines ∧
      hash ∈ (enqueue_create_compute_pipeline s hash compute).self.accessed_compute_pipelines) ∧
    ((s.should_filter_application_hash = true ∧
        s.current_application ≠ s.filter_application_hash) →
      (enqueue_create_graphics_pipeline s hash graphics).self = s ∧
      (enqueue_create_compute_pipeline s hash compute).self = s ∧
      (enqueue_create_graphics_pipeline s hash graphics).self.sets = s.sets ∧
      (enqueue_create_compute_pipeline s hash compute).self.sets = s.sets) ∧
    (∀ (replayer : StateReplayer) (input_db : DatabaseInterface) (output_db : OutputDatabase)
        (application_hash : Hash) (d : Driver),
      sessions_differ application_hash 0 (scan_events replayer input_db playback_order) = true →
      scan replayer input_db output_db true application_hash = .ok d →
      d.prune_replayer.sets = [[], [], [], [], [], [], []]) := by
  refine ⟨?_, ?_, ?_⟩
  · intro h
    have ha : s.accepts = true := by
      rcases h with h | h <;> simp [PruneReplayer.accepts, h]
    have hg := dispatch_accepted s (.enqueue_create_graphics_pipeline hash graphics) rfl ha
    have hc := dispatch_accepted s (.enqueue_create_compute_pipeline hash compute) rfl ha
    exact ⟨(hg.2.1 hash).mpr (Or.inr (by simp [Event.root_graphics])),
      (hc.2.2.1 hash).mpr (Or.inr (by simp [Event.root_computes]))⟩
  · rintro ⟨h1, h2⟩
    have ha : s.accepts = false := by
      simp [PruneReplayer.accepts, h1, h2]
    have hg := dispatch_rejected s (.enqueue_create_graphics_pipeline hash graphics) rfl ha
    have hc := dispatch_rejected s (.enqueue_create_compute_pipeline hash compute) rfl ha
    simp only [PruneReplayer.dispatch] at hg hc
    exact ⟨hg, hc, by rw [hg], by rw [hc]⟩
  · intro replayer input_db output_db application_hash d hdiff hscan
    obtain ⟨b, hb⟩ := scan_replayer hscan
    obtain ⟨hfrom, -⟩ := replay_scan_roots replayer input_db true application_hash
    obtain ⟨-, htraced⟩ := replay_scan_traced replayer input_db true application_hash
    have hnone : accepted_roots replayer input_db true application_hash = [] :=
      accepted_events_of_sessions_differ _ (start_replayer true application_hash) rfl hdiff
    rw [hnone] at hfrom
    have := unmarked_of_no_roots hfrom htraced
    rw [hb]
    exact this

/-- The specification scenario filtered to session 2, under which no pipeline was
captured: the state before the graphics pipeline callback rejects it, and the scan
ends with empty reachable sets. -/
theorem session_filter_root_gating_witness :
    ∃ d, scan toy_replayer scenario_store fresh_output true 2 = .ok d ∧
      d.prune_replayer.sets = [[], [], [], [], [], [], []] ∧
      (enqueue_create_graphics_pipeline
          { PruneReplayer.init with
            should_filter_application_hash := true, filter_application_hash := 2,
            current_application := 1 } 61 (gp_view 31 41 [51])).self.sets
        = [[], [], [], [], [], [], []] := by
  have hok : (scan toy_replayer scenario_store fresh_output true 2).isOk = true := by decide
  cases h : scan toy_replayer scenario_store fresh_output true 2 with
  | error e =>
    rw [h] at hok
    cases hok
  | ok d =>
    have hthm := session_filter_root_gating
      { PruneReplayer.init with
        should_filter_application_hash := true, filter_application_hash := 2,
        current_application := 1 } 61 (gp_view 31 41 [51]) (cp_view 31 51)
    exact ⟨d, rfl, hthm.2.2 toy_replayer scenario_store fresh_output 2 d (by decide) h,
      (hthm.2.1 ⟨rfl, by decide⟩).2.2.1⟩

end Fossilize

namespace Fossilize

open ResourceTag

/-! ## C7 and C3: order independence and filter monotonicity -/

/-- Sound marks of `s` are found in a closed `t` that has marked the pipeline layouts
of `s` and stores views with at least the same references. -/
theorem sub_of_sound_closed {s t : PruneReplayer} (hs : s.Sound) (ht : t.Closed)
    (hpl : ∀ x ∈ s.accessed_pipeline_layouts, x ∈ t.accessed_pipeline_layouts)
    (hTpl : ∀ p ∈ s.accessed_pipeline_layouts, ∀ x ∈ s.set_layouts_of p, x ∈ t.set_layouts_of p)
    (hTds : ∀ d ∈ s.accessed_descriptor_sets, ∀ x ∈ s.samplers_of d, x ∈ t.samplers_of d) :
    (∀ x ∈ s.accessed_descriptor_sets, x ∈ t.accessed_descriptor_sets) ∧
      (∀ x ∈ s.accessed_samplers, x ∈ t.accessed_samplers) := by
  have hds : ∀ x ∈ s.accessed_descriptor_sets, x ∈ t.accessed_descriptor_sets := by
    intro x hx
    obtain ⟨p, hp, hxp⟩ := hs.1 x hx
    exact ht.1 p (hpl p hp) x (hTpl p hp x hxp)
  refine ⟨hds, ?_⟩
  intro x hx
  obtain ⟨d, hd, hxd⟩ := hs.2 x hx
  exact ht.2 d (hds d hd) x (hTds d hd x hxd)

/-- Roots of `s` that are marked in `t` carry the five root-side sets of `s` into `t`. -/
theorem sub_of_roots {s t : PruneReplayer} {rs rt : List Event} (hs : s.FromRoots rs)
    (ht : t.RootsMarked rt) (hsub : ∀ e ∈ rs, e ∈ rt) :
    (∀ x ∈ s.accessed_graphics_pipelines, x ∈ t.accessed_graphics_pipelines) ∧
      (∀ x ∈ s.accessed_compute_pipelines, x ∈ t.accessed_compute_pipelines) ∧
      (∀ x ∈ s.accessed_render_passes, x ∈ t.accessed_render_passes) ∧
      (∀ x ∈ s.accessed_shader_modules, x ∈ t.accessed_shader_modules) ∧
      (∀ x ∈ s.accessed_pipeline_layouts, x ∈ t.accessed_pipeline_layouts) := by
  obtain ⟨h1, h2, h3, h4, h5⟩ := hs
  refine ⟨?_, ?_, ?_, ?_, ?_⟩
  · intro x hx
    obtain ⟨e, he, hxe⟩ := h1 x hx
    exact (ht e (hsub e he)).1 x hxe
  · intro x hx
    obtain ⟨e, he, hxe⟩ := h2 x hx
    exact (ht e (hsub e he)).2.1 x hxe
  · intro x hx
    obtain ⟨e, he, hxe⟩ := h3 x hx
    exact (ht e (hsub e he)).2.2.1 x hxe
  · intro x hx
    obtain ⟨e, he, hxe⟩ := h4 x hx
    exact (ht e (hsub e he)).2.2.2.1 x hxe
  · intro x hx
    obtain ⟨e, he, hxe⟩ := h5 x hx
    exact (ht e (hsub e he)).2.2.2.2 x hxe

/-- The subset relation between two replayers whose marks come from roots `rs ⊆ rt`
and are closed and sound under views with the same references. -/
theorem sub_reachable_of_roots {s t : PruneReplayer} {rs rt : List Event}
    (hsf : s.FromRoots rs) (htm : t.RootsMarked rt) (hsub : ∀ e ∈ rs, e ∈ rt)
    (hs : s.Sound) (ht : t.Closed)
    (hTpl : ∀ p ∈ s.accessed_pipeline_layouts, ∀ x ∈ s.set_layouts_of p, x ∈ t.set_layouts_of p)
    (hTds : ∀ d ∈ s.accessed_descriptor_sets, ∀ x ∈ s.samplers_of d, x ∈ t.samplers_of d) :
    s.sub_reachable t := by
  obtain ⟨h1, h2, h3, h4, h5⟩ := sub_of_roots hsf htm hsub
  obtain ⟨h6, h7⟩ := sub_of_sound_closed hs ht h5 hTpl hTds
  exact ⟨h7, h6, h5, h4, h3, h1, h2⟩

theorem same_reachable_of_sub {s t : PruneReplayer} (h1 : s.sub_reachable t)
    (h2 : t.sub_reachable s) : s.same_reachable t := by
  obtain ⟨a1, a2, a3, a4, a5, a6, a7⟩ := h1
  obtain ⟨b1, b2, b3, b4, b5, b6, b7⟩ := h2
  exact ⟨fun x => ⟨a1 x, b1 x⟩, fun x => ⟨a2 x, b2 x⟩, fun x => ⟨a3 x, b3 x⟩,
    fun x => ⟨a4 x, b4 x⟩, fun x => ⟨a5 x, b5 x⟩, fun x => ⟨a6 x, b6 x⟩, fun x => ⟨a7 x, b7 x⟩⟩

theorem mem_accepted_events {s : PruneReplayer} {l : List Event} {e : Event}
    (h : e ∈ s.accepted_events l) : e ∈ l ∧ e.is_pipeline = true := by
  induction l generalizing s with
  | nil => simp [PruneReplayer.accepted_events] at h
  | cons a l ih =>
    simp only [PruneReplayer.accepted_events, List.mem_append] at h
    rcases h with h | h
    · split at h
      · rename_i hc
        rw [List.mem_singleton] at h
        subst h
        simp only [Bool.and_eq_true] at hc
        exact ⟨List.mem_cons_self _ _, hc.1⟩
      · simp at h
    · obtain ⟨h1, h2⟩ := ih h
      exact ⟨List.mem_cons_of_mem _ h1, h2⟩

/-- With the filter disabled every pipeline creation is accepted. -/
theorem accepted_events_unfiltered (l : List Event) (s : PruneReplayer)
    (hsf : s.should_filter_application_hash = false) {e : Event} (he : e ∈ l)
    (hp : e.is_pipeline = true) : e ∈ s.accepted_events l := by
  induction l generalizing s with
  | nil => simp at he
  | cons a l ih =>
    simp only [PruneReplayer.accepted_events, List.mem_append]
    rcases List.mem_cons.mp he with rfl | he
    · left
      simp [hp, PruneReplayer.accepts, hsf]
    · right
      exact ih _ ((dispatch_filter s a).2.1.trans hsf) he

/-- Pipeline creations that start in an accepting state are all accepted. -/
theorem accepted_events_of_accepts (l : List Event) (s : PruneReplayer)
    (ha : s.accepts = true) (hp : ∀ e ∈ l, e.is_pipeline = true) : s.accepted_events l = l := by
  induction l generalizing s with
  | nil => rfl
  | cons a l ih =>
    have hpa := hp a (List.mem_cons_self _ _)
    have hstep := dispatch_accepted s a hpa ha
    simp only [PruneReplayer.accepted_events, hpa, ha, Bool.and_self, if_true,
      List.singleton_append, List.cons.injEq, true_and]
    exact ih _ ((accepts_congr hstep.1).trans ha) (fun e he => hp e (List.mem_cons_of_mem _ he))

theorem is_layout_of_is_pipeline {e : Event} (h : e.is_pipeline = true) : e.is_layout = false := by
  cases e <;> simp_all [Event.is_pipeline, Event.is_layout]

/-- C7 (root order independence). With the lookup tables fixed and no hash marked
yet, in a state that accepts pipeline creations, replaying a list of graphics and
compute pipeline creation callbacks and replaying any permutation of it end with the
same hashes in each of the seven reachable sets. -/
theorem root_order_independence (s : PruneReplayer) (l1 l2 : List Event)
    (hempty : s.unmarked) (haccepts : s.accepts = true)
    (hpipelines : ∀ e ∈ l1, e.is_pipeline = true) (hperm : l1.Perm l2) :
    (s.replay l1).same_reachable (s.replay l2) ∧
      (s.replay l1).descriptor_sets = s.descriptor_sets ∧
      (s.replay l1).pipeline_layouts = s.pipeline_layouts ∧
      (s.replay l2).descriptor_sets = s.descriptor_sets ∧
      (s.replay l2).pipeline_layouts = s.pipeline_layouts := by
  have hpipelines2 : ∀ e ∈ l2, e.is_pipeline = true :=
    fun e he => hpipelines e (hperm.mem_iff.mpr he)
  have hl1 : ∀ e ∈ l1, e.is_layout = false := fun e he => is_layout_of_is_pipeline (hpipelines e he)
  have hl2 : ∀ e ∈ l2, e.is_layout = false := fun e he => is_layout_of_is_pipeline (hpipelines2 e he)
  obtain ⟨c1, s1⟩ := replay_closed_sound s l1 hl1 (unmarked_closed hempty) (unmarked_sound hempty)
  obtain ⟨c2, s2⟩ := replay_closed_sound s l2 hl2 (unmarked_closed hempty) (unmarked_sound hempty)
  obtain ⟨f1, m1⟩ := replay_roots l1 s [] (unmarked_from_roots hempty) (roots_marked_nil s)
  obtain ⟨f2, m2⟩ := replay_roots l2 s [] (unmarked_from_roots hempty) (roots_marked_nil s)
  rw [List.nil_append, accepted_events_of_accepts l1 s haccepts hpipelines] at f1 m1
  rw [List.nil_append, accepted_events_of_accepts l2 s haccepts hpipelines2] at f2 m2
  obtain ⟨t1d, t1p⟩ := replay_tables_of_no_layout s l1 hl1
  obtain ⟨t2d, t2p⟩ := replay_tables_of_no_layout s l2 hl2
  refine ⟨same_reachable_of_sub ?_ ?_, t1d, t1p, t2d, t2p⟩
  · apply sub_reachable_of_roots f1 m2 (fun e he => hperm.mem_iff.mp he) s1 c2
    · intro p _ x hx
      rw [set_layouts_of_congr (t2p.trans t1p.symm)]
      exact hx
    · intro d _ x hx
      rw [samplers_of_congr (t2d.trans t1d.symm)]
      exact hx
  · apply sub_reachable_of_roots f2 m1 (fun e he => hperm.mem_iff.mpr he) s2 c1
    · intro p _ x hx
      rw [set_layouts_of_congr (t1p.trans t2p.symm)]
      exact hx
    · intro d _ x hx
      rw [samplers_of_congr (t1d.trans t2d.symm)]
      exact hx

end Fossilize

namespace Fossilize

open ResourceTag

/-- The two pipelines of `example_roots` in either order. -/
theorem root_order_independence_witness :
    example_tables.unmarked ∧ example_tables.accepts = true ∧
      (example_tables.replay example_roots).same_reachable
        (example_tables.replay example_roots.reverse) := by
  have h := root_order_independence example_tables example_roots example_roots.reverse rfl rfl
    (by intro e he; simp [example_roots] at he; rcases he with rfl | rfl <;> rfl)
    (List.reverse_perm example_roots).symm
  exact ⟨rfl, rfl, h.1⟩

theorem dispatch_tables_congr (s t : PruneReplayer) (e : Event)
    (h1 : s.descriptor_sets = t.descriptor_sets) (h2 : s.pipeline_layouts = t.pipeline_layouts) :
    (s.dispatch e).descriptor_sets = (t.dispatch e).descriptor_sets ∧
      (s.dispatch e).pipeline_layouts = (t.dispatch e).pipeline_layouts := by
  cases hl : e.is_layout with
  | false =>
    obtain ⟨a1, a2⟩ := dispatch_tables_of_not_layout s e hl
    obtain ⟨b1, b2⟩ := dispatch_tables_of_not_layout t e hl
    exact ⟨a1.trans (h1.trans b1.symm), a2.trans (h2.trans b2.symm)⟩
  | true =>
    cases e with
    | enqueue_create_descriptor_set_layout hash ci =>
      simp [PruneReplayer.dispatch, enqueue_create_descriptor_set_layout, h1, h2]
    | enqueue_create_pipeline_layout hash ci =>
      simp [PruneReplayer.dispatch, enqueue_create_pipeline_layout, h1, h2]
    | _ => simp [Event.is_layout] at hl

/-- The lookup tables after a callback sequence depend only on the tables before. -/
theorem replay_tables_congr (l : List Event) (s t : PruneReplayer)
    (h1 : s.descriptor_sets = t.descriptor_sets) (h2 : s.pipeline_layouts = t.pipeline_layouts) :
    (s.replay l).descriptor_sets = (t.replay l).descriptor_sets ∧
      (s.replay l).pipeline_layouts = (t.replay l).pipeline_layouts := by
  induction l generalizing s t with
  | nil => exact ⟨h1, h2⟩
  | cons e l ih =>
    obtain ⟨g1, g2⟩ := dispatch_tables_congr s t e h1 h2
    exact ih _ _ g1 g2

/-- C3 (filter monotonicity). For the same source store, decoder and destination, with
a decoder that keeps to the kind of the record it decodes: when the scan pass
completes both with the session filter `application_hash` and with no filter, each
of the seven reachable sets of the filtered run is a subset of the corresponding set
of the unfiltered run, and so is the set of `ApplicationInfo` hashes written. -/
theorem filter_monotonicity (replayer : StateReplayer) (input_db : DatabaseInterface)
    (accepts_write : ResourceTag → Hash → List Nat → Bool) (application_hash unused_hash : Hash)
    (filtered unfiltered : Driver) (hk : replayer.kinded input_db = true)
    (hfiltered : scan replayer input_db ⟨[], accepts_write⟩ true application_hash = .ok filtered)
    (hunfiltered : scan replayer input_db ⟨[], accepts_write⟩ false unused_hash = .ok unfiltered) :
    filtered.prune_replayer.sub_reachable unfiltered.prune_replayer ∧
      ∀ hash ∈ filtered.output_db.hashes_of RESOURCE_APPLICATION_INFO,
        hash ∈ unfiltered.output_db.hashes_of RESOURCE_APPLICATION_INFO := by
  obtain ⟨bf, hbf⟩ := scan_replayer hfiltered
  obtain ⟨bu, hbu⟩ := scan_replayer hunfiltered
  obtain ⟨-, sf⟩ := replay_scan_closed_sound replayer input_db true application_hash hk
  obtain ⟨cu, -⟩ := replay_scan_closed_sound replayer input_db false unused_hash hk
  obtain ⟨ff, -⟩ := replay_scan_roots replayer input_db true application_hash
  obtain ⟨-, mu⟩ := replay_scan_roots replayer input_db false unused_hash
  obtain ⟨td, tp⟩ := replay_tables_congr (scan_events replayer input_db playback_order)
    (start_replayer true application_hash) (start_replayer false unused_hash) rfl rfl
  constructor
  · rw [hbf, hbu]
    apply sub_reachable_of_roots ff mu _ sf cu
    · intro p _ x hx
      rw [set_layouts_of_congr tp.symm]
      exact hx
    · intro d _ x hx
      rw [samplers_of_congr td.symm]
      exact hx
    · intro e he
      obtain ⟨h1, h2⟩ := mem_accepted_events he
      exact accepted_events_unfiltered _ _ rfl h1 h2
  · obtain ⟨hashes, hl, hh, -⟩ := application_info_copy replayer input_db accepts_write true
      application_hash filtered hfiltered
    obtain ⟨hashes2, hl2, hh2, -⟩ := application_info_copy replayer input_db accepts_write false
      unused_hash unfiltered hunfiltered
    rw [hl] at hl2
    simp only [Option.some.injEq] at hl2
    subst hl2
    intro hash hmem
    rw [hh] at hmem
    rw [hh2]
    simp only [List.mem_reverse, List.mem_filter] at hmem ⊢
    exact ⟨hmem.1, by simp [passes_filter]⟩

/-- The scenario of the specification, scanned with the filter set to session 1 and
with no filter. -/
theorem filter_monotonicity_witness :
    toy_replayer.kinded scenario_store = true ∧
    ∃ filtered unfiltered,
      scan toy_replayer scenario_store ⟨[], fun _ _ _ => true⟩ true 1 = .ok filtered ∧
      scan toy_replayer scenario_store ⟨[], fun _ _ _ => true⟩ false 0 = .ok unfiltered ∧
      filtered.prune_replayer.sub_reachable unfiltered.prune_replayer := by
  refine ⟨by decide, ?_⟩
  have hok1 : (scan toy_replayer scenario_store ⟨[], fun _ _ _ => true⟩ true 1).isOk = true := by
    decide
  have hok2 : (scan toy_replayer scenario_store ⟨[], fun _ _ _ => true⟩ false 0).isOk = true := by
    decide
  cases h1 : scan toy_replayer scenario_store ⟨[], fun _ _ _ => true⟩ true 1 with
  | error e =>
    rw [h1] at hok1
    cases hok1
  | ok filtered =>
    cases h2 : scan toy_replayer scenario_store ⟨[], fun _ _ _ => true⟩ false 0 with
    | error e =>
      rw [h2] at hok2
      cases hok2
    | ok unfiltered =>
      exact ⟨filtered, unfiltered, rfl, rfl,
        (filter_monotonicity toy_replayer scenario_store (fun _ _ _ => true) 1 0 filtered
          unfiltered (by decide) h1 h2).1⟩

end Fossilize

namespace Fossilize

open ResourceTag

/-! ## C9: the per-kind counters -/

/-! ### The reachable sets hold no hash twice -/

theorem duplicate_free_iff (s : PruneReplayer) :
    s.duplicate_free ↔ s.accessed_samplers.Nodup ∧ s.accessed_descriptor_sets.Nodup ∧
      s.accessed_pipeline_layouts.Nodup ∧ s.accessed_shader_modules.Nodup ∧
      s.accessed_render_passes.Nodup ∧ s.accessed_graphics_pipelines.Nodup ∧
      s.accessed_compute_pipelines.Nodup := by
  simp [PruneReplayer.duplicate_free, PruneReplayer.sets]

theorem access_descriptor_set_duplicate_free (s : PruneReplayer) (hash : Hash)
    (h : s.duplicate_free) : (access_descriptor_set s hash).duplicate_free := by
  rw [access_descriptor_set_eq]
  split
  · exact h
  · rename_i hm
    rw [duplicate_free_iff] at h ⊢
    obtain ⟨h1, h2, h3, h4, h5, h6, h7⟩ := h
    exact ⟨nodup_insert_all _ h1, List.nodup_cons.mpr ⟨hm, h2⟩, h3, h4, h5, h6, h7⟩

theorem foldl_access_descriptor_set_duplicate_free (l : List Hash) (s : PruneReplayer)
    (h : s.duplicate_free) : (l.foldl access_descriptor_set s).duplicate_free := by
  induction l generalizing s with
  | nil => exact h
  | cons a l ih => exact ih _ (access_descriptor_set_duplicate_free s a h)

theorem access_pipeline_layout_duplicate_free (s : PruneReplayer) (hash : Hash)
    (h : s.duplicate_free) : (access_pipeline_layout s hash).duplicate_free := by
  rw [access_pipeline_layout_eq]
  split
  · exact h
  · rename_i hm
    apply foldl_access_descriptor_set_duplicate_free
    rw [duplicate_free_iff] at h ⊢
    obtain ⟨h1, h2, h3, h4, h5, h6, h7⟩ := h
    exact ⟨h1, h2, List.nodup_cons.mpr ⟨hm, h3⟩, h4, h5, h6, h7⟩

theorem dispatch_duplicate_free (s : PruneReplayer) (e : Event) (h : s.duplicate_free) :
    (s.dispatch e).duplicate_free := by
  cases e with
  | enqueue_create_compute_pipeline hash ci =>
    have h1 := access_pipeline_layout_duplicate_free s (to_hash ci.layout) h
    simp only [PruneReplayer.dispatch, enqueue_create_compute_pipeline]
    split
    · rw [duplicate_free_iff] at h1 ⊢
      obtain ⟨a1, a2, a3, a4, a5, a6, a7⟩ := h1
      exact ⟨a1, a2, a3, nodup_set_insert _ a4, a5, a6, nodup_set_insert _ a7⟩
    · exact h
  | enqueue_create_graphics_pipeline hash ci =>
    have h1 := access_pipeline_layout_duplicate_free s (to_hash ci.layout) h
    simp only [PruneReplayer.dispatch, enqueue_create_graphics_pipeline]
    split
    · rw [← List.foldl_map (fun stage => to_hash (ci.pStages stage).module) insert_shader_module,
        foldl_insert_shader_module]
      rw [duplicate_free_iff] at h1 ⊢
      obtain ⟨a1, a2, a3, a4, a5, a6, a7⟩ := h1
      exact ⟨a1, a2, a3, nodup_insert_all _ a4, nodup_set_insert _ a5, nodup_set_insert _ a6, a7⟩
    · exact h
  | _ => exact h

theorem replay_duplicate_free (l : List Event) (s : PruneReplayer) (h : s.duplicate_free) :
    (s.replay l).duplicate_free := by
  induction l generalizing s with
  | nil => exact h
  | cons e l ih => exact ih _ (dispatch_duplicate_free s e h)

theorem accessed_nodup {s : PruneReplayer} (h : s.duplicate_free) (tag : ResourceTag) :
    (s.accessed tag).Nodup := by
  rw [duplicate_free_iff] at h
  obtain ⟨h1, h2, h3, h4, h5, h6, h7⟩ := h
  cases tag <;> simp [PruneReplayer.accessed, *]

/-- After a completed scan pass no reachable set holds a hash twice. -/
theorem scan_duplicate_free {replayer : StateReplayer} {input_db : DatabaseInterface}
    {output_db : OutputDatabase} {sf : Bool} {f : Hash} {d : Driver}
    (h : scan replayer input_db output_db sf f = .ok d) : d.prune_replayer.duplicate_free := by
  obtain ⟨b, hb⟩ := scan_replayer h
  have h0 : (start_replayer sf f).duplicate_free := by
    intro l hl
    rw [start_replayer_unmarked sf f] at hl
    simp only [List.mem_cons, List.mem_singleton, List.not_mem_nil, or_false, or_self] at hl
    subst hl
    exact List.nodup_nil
  have h1 := replay_duplicate_free (scan_events replayer input_db playback_order) _ h0
  intro l hl
  rw [hb, with_allow_sets] at hl
  exact h1 l hl

theorem scan_entry_written {replayer : StateReplayer} {input_db : DatabaseInterface}
    {sf : Bool} {f : Hash} {tag : ResourceTag} {hash : Hash} {d d1 : Driver}
    (h : scan_entry replayer input_db sf f tag hash d = .ok d1) :
    d1.per_tag_written
      = if tag = RESOURCE_APPLICATION_INFO ∧ passes_filter sf f hash = true
        then Function.update d.per_tag_written tag ((d.per_tag_written tag + 1) % UINT_RANGE)
        else d.per_tag_written := by
  unfold scan_entry at h
  cases hr : input_db.read_entry tag hash false with
  | none => simp [hr] at h
  | some data =>
    simp only [hr] at h
    by_cases ht : tag = RESOURCE_APPLICATION_INFO
    · simp only [ht, if_true] at h
      by_cases hp : passes_filter sf f hash = true
      · have hp2 : (!sf || hash == f) = true := hp
        simp only [hp2, if_true] at h
        obtain ⟨-, -, -, h4⟩ := copy_application_info_ok h
        simp [ht, hp, h4]
      · have hp2 : ¬ (!sf || hash == f) = true := hp
        simp only [hp2, if_false, Except.ok.injEq, Bool.false_eq_true] at h
        subst h
        simp [hp]
    · simp only [ht, if_false, Except.ok.injEq] at h
      subst h
      simp [ht]

theorem scan_entries_written {replayer : StateReplayer} {input_db : DatabaseInterface}
    {sf : Bool} {f : Hash} {tag : ResourceTag} (hashes : List Hash) {d d1 : Driver}
    (h : scan_entries replayer input_db sf f tag hashes d = .ok d1)
    (hlt : d.per_tag_written tag < UINT_RANGE) :
    d1.per_tag_written
      = if tag = RESOURCE_APPLICATION_INFO
        then Function.update d.per_tag_written tag
          ((d.per_tag_written tag + (hashes.filter (passes_filter sf f)).length) % UINT_RANGE)
        else d.per_tag_written := by
  induction hashes generalizing d with
  | nil =>
    simp only [scan_entries, Except.ok.injEq] at h
    subst h
    by_cases ht : tag = RESOURCE_APPLICATION_INFO
    · simp [ht, Nat.mod_eq_of_lt (ht ▸ hlt)]
    · simp [ht]
  | cons a l ih =>
    simp only [scan_entries] at h
    cases hs : scan_entry replayer input_db sf f tag a d with
    | error e => simp [hs] at h
    | ok d2 =>
      simp only [hs] at h
      have h2 := scan_entry_written hs
      by_cases ht : tag = RESOURCE_APPLICATION_INFO
      · subst ht
        by_cases hp : passes_filter sf f a = true
        · simp only [hp, and_self, if_true] at h2
          have hlt2 : d2.per_tag_written RESOURCE_APPLICATION_INFO < UINT_RANGE := by
            rw [h2, Function.update_same]
            exact Nat.mod_lt _ (by decide)
          rw [ih h hlt2, h2]
          simp only [if_true, Function.update_same, Function.update_idem,
            List.filter_cons, hp, List.length_cons]
          rw [Nat.mod_add_mod, Nat.add_assoc,
            Nat.add_comm 1 (List.filter (passes_filter sf f) l).length]
        · simp only [hp, and_false, if_false, Bool.false_eq_true] at h2
          rw [ih h (by rw [h2]; exact hlt)]
          simp [h2, List.filter_cons, hp]
      · simp only [ht, false_and, if_false] at h2
        rw [ih h (by rw [h2]; exact hlt)]
        simp [ht, h2]

theorem scan_tag_counters {replayer : StateReplayer} {input_db : DatabaseInterface}
    {sf : Bool} {f : Hash} {tag : ResourceTag} {d d1 : Driver}
    (h : scan_tag replayer input_db sf f tag d = .ok d1)
    (hlt : d.per_tag_written tag < UINT_RANGE) :
    d1.per_tag_read
        = (if tag = RESOURCE_SHADER_MODULE then d.per_tag_read
          else Function.update d.per_tag_read tag
            ((scanned_hashes input_db tag).length % UINT_RANGE)) ∧
      d1.per_tag_written
        = if tag = RESOURCE_APPLICATION_INFO
          then Function.update d.per_tag_written tag
            ((d.per_tag_written tag
              + ((scanned_hashes input_db tag).filter (passes_filter sf f)).length) % UINT_RANGE)
          else d.per_tag_written := by
  unfold scan_tag at h
  unfold scanned_hashes
  by_cases ht : tag = RESOURCE_SHADER_MODULE
  · simp only [ht, if_true, Except.ok.injEq] at h
    subst h
    subst ht
    simp
  · simp only [ht, if_false] at h ⊢
    cases hl : input_db.get_hash_list_for_resource_tag tag with
    | none => simp [hl] at h
    | some hashes =>
      simp only [hl] at h
      obtain ⟨-, h2⟩ := scan_entries_replayer hashes h
      have h3 := scan_entries_written hashes h hlt
      exact ⟨h2, h3⟩

theorem scan_tags_read {replayer : StateReplayer} {input_db : DatabaseInterface}
    {sf : Bool} {f : Hash} (tags : List ResourceTag) {d d1 : Driver}
    (h : scan_tags replayer input_db sf f tags d = .ok d1)
    (hlt : ∀ t, d.per_tag_written t < UINT_RANGE) :
    (∀ t, d1.per_tag_read t
        = if t ∈ tags ∧ t ≠ RESOURCE_SHADER_MODULE
          then (scanned_hashes input_db t).length % UINT_RANGE else d.per_tag_read t) ∧
      (∀ t, t ≠ RESOURCE_APPLICATION_INFO → d1.per_tag_written t = d.per_tag_written t) ∧
      (RESOURCE_APPLICATION_INFO ∉ tags →
        d1.per_tag_written RESOURCE_APPLICATION_INFO
          = d.per_tag_written RESOURCE_APPLICATION_INFO) ∧
      (∀ t, d1.per_tag_written t < UINT_RANGE) := by
  induction tags generalizing d with
  | nil =>
    simp only [scan_tags, Except.ok.injEq] at h
    subst h
    exact ⟨by simp, fun _ _ => rfl, fun _ => rfl, hlt⟩
  | cons t0 l ih =>
    simp only [scan_tags] at h
    cases hs : scan_tag replayer input_db sf f t0 d with
    | error e => simp [hs] at h
    | ok d2 =>
      simp only [hs] at h
      obtain ⟨g1, g2⟩ := scan_tag_counters hs (hlt t0)
      have hlt2 : ∀ t, d2.per_tag_written t < UINT_RANGE := by
        intro t
        rw [g2]
        split
        · by_cases ht : t = t0
          · subst ht
            rw [Function.update_same]
            exact Nat.mod_lt _ (by decide)
          · rw [Function.update_noteq ht]
            exact hlt t
        · exact hlt t
      obtain ⟨h1, h2, h3, h4⟩ := ih h hlt2
      refine ⟨?_, ?_, ?_, h4⟩
      · intro t
        rw [h1 t, g1]
        by_cases htl : t ∈ l ∧ t ≠ RESOURCE_SHADER_MODULE
        · have : t ∈ t0 :: l ∧ t ≠ RESOURCE_SHADER_MODULE := ⟨List.mem_cons_of_mem _ htl.1, htl.2⟩
          simp [htl, this]
        · rw [if_neg htl]
          by_cases ht0 : t0 = RESOURCE_SHADER_MODULE
          · subst ht0
            have : ¬ (t ∈ RESOURCE_SHADER_MODULE :: l ∧ t ≠ RESOURCE_SHADER_MODULE) := by
              rintro ⟨hm, hne⟩
              rcases List.mem_cons.mp hm with rfl | hm
              · exact hne rfl
              · exact htl ⟨hm, hne⟩
            rw [if_pos rfl, if_neg this]
          · rw [if_neg ht0]
            by_cases ht : t = t0
            · subst ht
              simp [ht0]
            · rw [Function.update_noteq ht]
              have : ¬ (t ∈ t0 :: l ∧ t ≠ RESOURCE_SHADER_MODULE) := by
                rintro ⟨hm, hne⟩
                rcases List.mem_cons.mp hm with rfl | hm
                · exact ht rfl
                · exact htl ⟨hm, hne⟩
              rw [if_neg this]
      · intro t ht
        rw [h2 t ht, g2]
        split
        · rename_i ht0
          rw [Function.update_noteq (by rw [ht0]; exact ht)]
        · rfl
      · intro hnot
        have hne : t0 ≠ RESOURCE_APPLICATION_INFO := fun hh => hnot (by simp [hh])
        rw [h3 (fun hm => hnot (List.mem_cons_of_mem _ hm)), g2, if_neg hne]

/-- The counters after a completed scan pass. -/
theorem scan_counters {replayer : StateReplayer} {input_db : DatabaseInterface}
    {output_db : OutputDatabase} {sf : Bool} {f : Hash} {d : Driver}
    (h : scan replayer input_db output_db sf f = .ok d) :
    (∀ t, d.per_tag_read t
        = if t ≠ RESOURCE_SHADER_MODULE
          then (scanned_hashes input_db t).length % UINT_RANGE else 0) ∧
      (∀ t, t ≠ RESOURCE_APPLICATION_INFO → d.per_tag_written t = 0) ∧
      d.per_tag_written RESOURCE_APPLICATION_INFO
        = ((scanned_hashes input_db RESOURCE_APPLICATION_INFO).filter
            (passes_filter sf f)).length % UINT_RANGE := by
  unfold scan at h
  simp only [playback_order, scan_tags] at h
  cases hs : scan_tag replayer input_db sf f RESOURCE_APPLICATION_INFO
      (Driver.start output_db sf f) with
  | error e => simp [hs] at h
  | ok d2 =>
    have h' := @scan_tags_replayer replayer input_db sf f playback_order
      (Driver.start output_db sf f) d (by simpa [playback_order, scan_tags] using h)
    obtain ⟨g1, g2⟩ := scan_tag_counters hs (by simp [Driver.start, UINT_RANGE])
    have hrest : scan_tags replayer input_db sf f
        [RESOURCE_SHADER_MODULE, RESOURCE_SAMPLER, RESOURCE_DESCRIPTOR_SET_LAYOUT,
          RESOURCE_PIPELINE_LAYOUT, RESOURCE_RENDER_PASS, RESOURCE_GRAPHICS_PIPELINE,
          RESOURCE_COMPUTE_PIPELINE] d2 = .ok d := by
      simp only [hs] at h
      simpa [scan_tags] using h
    have hlt2 : ∀ t, d2.per_tag_written t < UINT_RANGE := by
      intro t
      rw [g2]
      simp only [if_true, Driver.start]
      by_cases ht : t = RESOURCE_APPLICATION_INFO
      · subst ht
        rw [Function.update_same]
        exact Nat.mod_lt _ (by decide)
      · rw [Function.update_noteq ht]
        decide
    obtain ⟨h1, h2, h3, -⟩ := scan_tags_read _ hrest hlt2
    refine ⟨?_, ?_, ?_⟩
    · intro t
      rw [h1 t, g1]
      cases t <;> simp [Driver.start]
    · intro t ht
      rw [h2 t ht, g2]
      simp only [if_true]
      rw [Function.update_noteq ht]
      rfl
    · rw [h3 (by decide), g2]
      simp [Driver.start]

theorem sweep_tags_written (input_db : DatabaseInterface) (tags : List ResourceTag) {d d1 : Driver}
    (h : sweep_tags input_db tags d = .ok d1) :
    ∀ t, d1.per_tag_written t
      = if t ∈ tags then (d.prune_replayer.accessed t).length % UINT_RANGE
        else d.per_tag_written t := by
  induction tags generalizing d with
  | nil =>
    simp only [sweep_tags, Except.ok.injEq] at h
    subst h
    simp
  | cons t0 l ih =>
    simp only [sweep_tags] at h
    cases hstep : sweep_step input_db (fun s => s.accessed t0) t0 d with
    | error e => simp [hstep] at h
    | ok d2 =>
      simp only [hstep] at h
      obtain ⟨g1, -, g3, -⟩ := sweep_step_ok hstep
      intro t
      rw [ih h t, g1, g3]
      by_cases htl : t ∈ l
      · simp [htl]
      · rw [if_neg htl]
        by_cases ht : t = t0
        · subst ht
          simp
        · rw [Function.update_noteq ht]
          simp [ht, htl]

/-- C9, amended (per-kind counts). At the end of every successful run on a freshly
opened destination: for every resource kind other than `ShaderModule`, the source
lists its hashes and the reported read count is the number of listed hashes; for
every kind other than `ApplicationInfo` the reported written count is the size of
that kind's reachable set (the number of its hashes, none of which is held twice);
for `ApplicationInfo` it is the number of listed hashes that pass the filter test;
each count being stored in an `unsigned`, that is modulo `2 ^ 32`. -/
theorem reported_counts (replayer : StateReplayer) (input_db : DatabaseInterface)
    (accepts_write : ResourceTag → Hash → List Nat → Bool)
    (should_filter_application_hash : Bool) (application_hash : Hash) (d : Driver)
    (hrun : prune replayer input_db ⟨[], accepts_write⟩ should_filter_application_hash
      application_hash = .ok d) :
    (∀ tag, tag ≠ RESOURCE_SHADER_MODULE →
      ∃ hashes, input_db.get_hash_list_for_resource_tag tag = some hashes ∧
        d.per_tag_read tag = hashes.length % UINT_RANGE) ∧
    (∀ tag, tag ≠ RESOURCE_APPLICATION_INFO →
      (d.prune_replayer.accessed tag).Nodup ∧
      d.per_tag_written tag = (d.prune_replayer.accessed tag).length % UINT_RANGE) ∧
    (∃ hashes, input_db.get_hash_list_for_resource_tag RESOURCE_APPLICATION_INFO = some hashes ∧
      d.per_tag_written RESOURCE_APPLICATION_INFO
        = (hashes.filter
            (passes_filter should_filter_application_hash application_hash)).length
          % UINT_RANGE) := by
  obtain ⟨ds, hscan, hsweep⟩ := prune_ok hrun
  obtain ⟨c1, c2, c3⟩ := scan_counters hscan
  obtain ⟨hrep, hread, -⟩ := sweep_tags_ok input_db sweep_order hsweep
  have hw := sweep_tags_written input_db sweep_order hsweep
  have hlisted := @scan_tags_listed replayer input_db should_filter_application_hash
    application_hash playback_order _ ds hscan
  refine ⟨?_, ?_, ?_⟩
  · intro tag ht
    obtain ⟨hashes, hl⟩ := hlisted tag (by cases tag <;> simp [playback_order]) ht
    refine ⟨hashes, hl, ?_⟩
    rw [hread, c1 tag, if_pos ht]
    simp [scanned_hashes, ht, hl]
  · intro tag ht
    refine ⟨?_, ?_⟩
    · rw [hrep]
      exact accessed_nodup (scan_duplicate_free hscan) tag
    rw [hw tag, hrep]
    have : tag ∈ sweep_order := by cases tag <;> simp_all [sweep_order]
    rw [if_pos this]
  · obtain ⟨hashes, hl⟩ := hlisted RESOURCE_APPLICATION_INFO (by simp [playback_order])
      (by decide)
    refine ⟨hashes, hl, ?_⟩
    rw [hw, if_neg (by decide), c3]
    simp [scanned_hashes, hl]

/-- The scenario of the specification, pruned without a filter, is a successful run. -/
theorem reported_counts_witness :
    ∃ d, prune toy_replayer scenario_store ⟨[], fun _ _ _ => true⟩ false 0 = .ok d ∧
      ∀ tag, tag ≠ RESOURCE_APPLICATION_INFO →
        (d.prune_replayer.accessed tag).Nodup ∧
        d.per_tag_written tag = (d.prune_replayer.accessed tag).length % UINT_RANGE := by
  have hok : (prune toy_replayer scenario_store ⟨[], fun _ _ _ => true⟩ false 0).isOk = true := by
    decide
  cases h : prune toy_replayer scenario_store ⟨[], fun _ _ _ => true⟩ false 0 with
  | error e =>
    rw [h] at hok
    cases hok
  | ok d =>
    exact ⟨d, rfl,
      (reported_counts toy_replayer scenario_store (fun _ _ _ => true) false 0 d h).2.1⟩

/-- C9 as stated fails for `ShaderModule`: the scenario of the specification lists one
shader module, the unfiltered run succeeds and copies it, and the reported read
count of `ShaderModule` is 0 (with 1 written). -/
theorem shader_module_read_count_zero :
    (prune toy_replayer scenario_store fresh_output false 0).isOk = true ∧
    scenario_store.get_hash_list_for_resource_tag RESOURCE_SHADER_MODULE = some [51] ∧
    (final_state (prune toy_replayer scenario_store fresh_output false 0)).per_tag_read
        RESOURCE_SHADER_MODULE = 0 ∧
    (final_state (prune toy_replayer scenario_store fresh_output false 0)).per_tag_written
        RESOURCE_SHADER_MODULE = 1 ∧
    ¬ ((final_state (prune toy_replayer scenario_store fresh_output false 0)).per_tag_read
        RESOURCE_SHADER_MODULE = [51].length) := by
  decide

end Fossilize

namespace Fossilize

open ResourceTag

/-! ## C8: a record whose decode fails -/

theorem remove_read_entry_of_ne (db : DatabaseInterface) (tag : ResourceTag) (hash : Hash)
    (t : ResourceTag) (h : Hash) (raw : Bool) (hne : ¬ (t = tag ∧ h = hash)) :
    (db.remove tag hash).read_entry t h raw = db.read_entry t h raw := by
  simp [DatabaseInterface.remove, hne]

theorem same_but_read_refl (d : Driver) : d.same_but_read d := ⟨rfl, rfl, rfl⟩

theorem copy_application_info_rel (input_db input_db1 : DatabaseInterface) (tag : ResourceTag)
    (hash : Hash) (d e : Driver)
    (hread : input_db1.read_entry tag hash true = input_db.read_entry tag hash true)
    (hde : d.same_but_read e) :
    same_outcome (copy_application_info input_db tag hash d)
      (copy_application_info input_db1 tag hash e) := by
  obtain ⟨h1, h2, h3⟩ := hde
  unfold copy_application_info
  rw [hread]
  cases input_db.read_entry tag hash true with
  | none => exact ⟨h1, h2, h3⟩
  | some data =>
    simp only [h2]
    cases e.output_db.write_entry tag hash data with
    | none => exact ⟨h1, h2, h3⟩
    | some out => exact ⟨h1, rfl, by simp [h3]⟩

theorem scan_entry_rel (replayer : StateReplayer) (input_db input_db1 : DatabaseInterface)
    (sf : Bool) (f : Hash) (tag : ResourceTag) (hash : Hash) (d e : Driver)
    (hread : ∀ raw, input_db1.read_entry tag hash raw = input_db.read_entry tag hash raw)
    (hde : d.same_but_read e) :
    same_outcome (scan_entry replayer input_db sf f tag hash d)
      (scan_entry replayer input_db1 sf f tag hash e) := by
  unfold scan_entry
  rw [hread false]
  cases input_db.read_entry tag hash false with
  | none => exact hde
  | some data =>
    simp only []
    have hde1 : Driver.same_but_read
        { d with prune_replayer := d.prune_replayer.replay (replayer.parse data).events }
        { e with prune_replayer := e.prune_replayer.replay (replayer.parse data).events } := by
      obtain ⟨h1, h2, h3⟩ := hde
      exact ⟨by simp [h1], h2, h3⟩
    split
    · split
      · exact copy_application_info_rel input_db input_db1 tag hash _ _ (hread true) hde1
      · exact hde1
    · exact hde1

/-- The record whose decode throws before any callback, and which is not an
`ApplicationInfo` record passing the filter test, leaves the state of `main` as
it is. -/
theorem scan_entry_of_failed_decode (replayer : StateReplayer) (input_db : DatabaseInterface)
    (sf : Bool) (f : Hash) (tag : ResourceTag) (hash : Hash) (data : List Nat) (d : Driver)
    (hread : input_db.read_entry tag hash false = some data)
    (hnone : (replayer.parse data).events = [])
    (hnot : ¬ (tag = RESOURCE_APPLICATION_INFO ∧ passes_filter sf f hash = true)) :
    scan_entry replayer input_db sf f tag hash d = .ok d := by
  unfold scan_entry
  simp only [hread, hnone]
  by_cases ht : tag = RESOURCE_APPLICATION_INFO
  · have hp : ¬ (!sf || hash == f) = true := fun hp => hnot ⟨ht, hp⟩
    simp only [ht, if_true, hp, if_false, Bool.false_eq_true]
    rfl
  · simp only [ht, if_false]
    rfl

theorem scan_entries_rel (replayer : StateReplayer) (input_db : DatabaseInterface)
    (sf : Bool) (f : Hash) (tag : ResourceTag) (hash : Hash) (data : List Nat)
    (hread : input_db.read_entry tag hash false = some data)
    (hnone : (replayer.parse data).events = [])
    (hnot : ¬ (tag = RESOURCE_APPLICATION_INFO ∧ passes_filter sf f hash = true))
    (t : ResourceTag) (l : List Hash) (d e : Driver) (hde : d.same_but_read e) :
    same_outcome (scan_entries replayer input_db sf f t l d)
      (scan_entries replayer (input_db.remove tag hash) sf f t
        (if t = tag then l.filter (fun h => decide (h ≠ hash)) else l) e) := by
  induction l generalizing d e with
  | nil =>
    have : (if t = tag then List.filter (fun h => decide (h ≠ hash)) [] else ([] : List Hash))
        = [] := by split <;> rfl
    rw [this]
    exact hde
  | cons a l ih =>
    by_cases hta : t = tag ∧ a = hash
    · obtain ⟨rfl, rfl⟩ := hta
      have hfilter : (if t = t then List.filter (fun h => decide (h ≠ a)) (a :: l) else a :: l)
          = (if t = t then List.filter (fun h => decide (h ≠ a)) l else l) := by
        simp
      rw [hfilter]
      have hstep : scan_entries replayer input_db sf f t (a :: l) d
          = scan_entries replayer input_db sf f t l d := by
        rw [scan_entries, scan_entry_of_failed_decode replayer input_db sf f t a data d hread
          hnone hnot]
      rw [hstep]
      exact ih d e hde
    · have hfilter : (if t = tag then List.filter (fun h => decide (h ≠ hash)) (a :: l) else a :: l)
          = a :: (if t = tag then List.filter (fun h => decide (h ≠ hash)) l else l) := by
        by_cases ht : t = tag
        · have ha : a ≠ hash := fun ha => hta ⟨ht, ha⟩
          simp [ht, List.filter_cons, ha]
        · simp [ht]
      rw [hfilter]
      simp only [scan_entries]
      have hrel := scan_entry_rel replayer input_db (input_db.remove tag hash) sf f t a d e
        (fun raw => remove_read_entry_of_ne input_db tag hash t a raw hta) hde
      cases h1 : scan_entry replayer input_db sf f t a d with
      | error x =>
        cases h2 : scan_entry replayer (input_db.remove tag hash) sf f t a e with
        | error y =>
          rw [h1, h2] at hrel
          exact hrel
        | ok y =>
          rw [h1, h2] at hrel
          exact hrel.elim
      | ok x =>
        cases h2 : scan_entry replayer (input_db.remove tag hash) sf f t a e with
        | error y =>
          rw [h1, h2] at hrel
          exact hrel.elim
        | ok y =>
          rw [h1, h2] at hrel
          exact ih x y hrel

theorem scan_tag_rel (replayer : StateReplayer) (input_db : DatabaseInterface)
    (sf : Bool) (f : Hash) (tag : ResourceTag) (hash : Hash) (data : List Nat)
    (hread : input_db.read_entry tag hash false = some data)
    (hnone : (replayer.parse data).events = [])
    (hnot : ¬ (tag = RESOURCE_APPLICATION_INFO ∧ passes_filter sf f hash = true))
    (t : ResourceTag) (d e : Driver) (hde : d.same_but_read e) :
    same_outcome (scan_tag replayer input_db sf f t d)
      (scan_tag replayer (input_db.remove tag hash) sf f t e) := by
  obtain ⟨h1, h2, h3⟩ := hde
  unfold scan_tag
  by_cases ht : t = RESOURCE_SHADER_MODULE
  · simp only [ht, if_true]
    exact ⟨h1, h2, h3⟩
  · simp only [ht, if_false]
    have hlist : (input_db.remove tag hash).get_hash_list_for_resource_tag t
        = (input_db.get_hash_list_for_resource_tag t).map
            (fun hashes => if t = tag then hashes.filter (fun h => decide (h ≠ hash)) else hashes) :=
      rfl
    rw [hlist]
    cases input_db.get_hash_list_for_resource_tag t with
    | none => exact ⟨by simp [h1], h2, h3⟩
    | some hashes =>
      simp only [Option.map_some']
      apply scan_entries_rel replayer input_db sf f tag hash data hread hnone hnot
      exact ⟨by simp [h1], h2, h3⟩

theorem scan_tags_rel (replayer : StateReplayer) (input_db : DatabaseInterface)
    (sf : Bool) (f : Hash) (tag : ResourceTag) (hash : Hash) (data : List Nat)
    (hread : input_db.read_entry tag hash false = some data)
    (hnone : (replayer.parse data).events = [])
    (hnot : ¬ (tag = RESOURCE_APPLICATION_INFO ∧ passes_filter sf f hash = true))
    (tags : List ResourceTag) (d e : Driver) (hde : d.same_but_read e) :
    same_outcome (scan_tags replayer input_db sf f tags d)
      (scan_tags replayer (input_db.remove tag hash) sf f tags e) := by
  induction tags generalizing d e with
  | nil => exact hde
  | cons t l ih =>
    simp only [scan_tags]
    have hrel := scan_tag_rel replayer input_db sf f tag hash data hread hnone hnot t d e hde
    cases h1 : scan_tag replayer input_db sf f t d with
    | error x =>
      cases h2 : scan_tag replayer (input_db.remove tag hash) sf f t e with
      | error y =>
        rw [h1, h2] at hrel
        exact hrel
      | ok y =>
        rw [h1, h2] at hrel
        exact hrel.elim
    | ok x =>
      cases h2 : scan_tag replayer (input_db.remove tag hash) sf f t e with
      | error y =>
        rw [h1, h2] at hrel
        exact hrel.elim
      | ok y =>
        rw [h1, h2] at hrel
        exact ih x y hrel

/-- The scan pass treats a record whose decode throws before any callback, and which
is not an `ApplicationInfo` record passing the filter test, as if it were absent. -/
theorem scan_failed_decode (replayer : StateReplayer) (input_db : DatabaseInterface)
    (output_db : OutputDatabase) (sf : Bool) (f : Hash) (tag : ResourceTag) (hash : Hash)
    (data : List Nat) (hread : input_db.read_entry tag hash false = some data)
    (hnone : (replayer.parse data).events = [])
    (hnot : ¬ (tag = RESOURCE_APPLICATION_INFO ∧ passes_filter sf f hash = true)) :
    same_outcome (scan replayer input_db output_db sf f)
      (scan replayer (input_db.remove tag hash) output_db sf f) :=
  scan_tags_rel replayer input_db sf f tag hash data hread hnone hnot playback_order _ _
    (same_but_read_refl _)

theorem copy_accessed_loop_congr (input_db input_db1 : DatabaseInterface) (tag : ResourceTag)
    (l : List Hash) (out : OutputDatabase)
    (h : ∀ hash ∈ l, input_db1.read_entry tag hash true = input_db.read_entry tag hash true) :
    copy_accessed_loop input_db1 tag l out = copy_accessed_loop input_db tag l out := by
  induction l generalizing out with
  | nil => rfl
  | cons a l ih =>
    simp only [copy_accessed_loop, h a (List.mem_cons_self _ _)]
    cases input_db.read_entry tag a true with
    | none => rfl
    | some data =>
      simp only []
      cases out.write_entry tag a data with
      | none => rfl
      | some out1 => exact ih out1 (fun hash hm => h hash (List.mem_cons_of_mem _ hm))

theorem sweep_step_rel (input_db input_db1 : DatabaseInterface) (tag : ResourceTag)
    (d e : Driver) (hde : d.same_but_read e)
    (h : ∀ hash ∈ d.prune_replayer.accessed tag,
      input_db1.read_entry tag hash true = input_db.read_entry tag hash true) :
    same_outcome (sweep_step input_db (fun s => s.accessed tag) tag d)
      (sweep_step input_db1 (fun s => s.accessed tag) tag e) := by
  obtain ⟨h1, h2, h3⟩ := hde
  unfold sweep_step copy_accessed_types
  simp only [← h1, ← h2, ← h3]
  rw [copy_accessed_loop_congr input_db input_db1 tag _ _ h]
  split
  · exact ⟨rfl, rfl, rfl⟩
  · exact ⟨rfl, rfl, rfl⟩

theorem sweep_tags_rel (input_db input_db1 : DatabaseInterface) (tags : List ResourceTag)
    (d e : Driver) (hde : d.same_but_read e)
    (h : ∀ tag ∈ tags, ∀ hash ∈ d.prune_replayer.accessed tag,
      input_db1.read_entry tag hash true = input_db.read_entry tag hash true) :
    same_outcome (sweep_tags input_db tags d) (sweep_tags input_db1 tags e) := by
  induction tags generalizing d e with
  | nil => exact hde
  | cons t l ih =>
    simp only [sweep_tags]
    have hrel := sweep_step_rel input_db input_db1 t d e hde (h t (List.mem_cons_self _ _))
    cases h1 : sweep_step input_db (fun s => s.accessed t) t d with
    | error x =>
      cases h2 : sweep_step input_db1 (fun s => s.accessed t) t e with
      | error y =>
        rw [h1, h2] at hrel
        exact hrel
      | ok y =>
        rw [h1, h2] at hrel
        exact hrel.elim
    | ok x =>
      cases h2 : sweep_step input_db1 (fun s => s.accessed t) t e with
      | error y =>
        rw [h1, h2] at hrel
        exact hrel.elim
      | ok y =>
        rw [h1, h2] at hrel
        apply ih x y hrel
        intro tag hm hash hh
        rw [(sweep_step_ok h1).1] at hh
        exact h tag (List.mem_cons_of_mem _ hm) hash hh

/-- C8, amended (a record whose decode fails). For every record of the source store
whose decode throws before it has made any callback and which is not itself
retained (it is not an `ApplicationInfo` record that passes the filter test, and
its hash is not in the reachable set of its kind after the scan): the run on the
store ends the same way as the run on the store with the record removed (both
succeed or both abort), with the same replayer (reachable sets, lookup tables,
session), the same destination entries and the same written counts. -/
theorem failed_decode_as_absent (replayer : StateReplayer) (input_db : DatabaseInterface)
    (output_db : OutputDatabase) (should_filter_application_hash : Bool)
    (application_hash : Hash) (tag : ResourceTag) (hash : Hash) (data : List Nat)
    (hread : input_db.read_entry tag hash false = some data)
    (hfail : replayer.parse data = ⟨[], true⟩)
    (hnot : ¬ (tag = RESOURCE_APPLICATION_INFO ∧
      passes_filter should_filter_application_hash application_hash hash = true))
    (hunmarked : ∀ d, scan replayer input_db output_db should_filter_application_hash
      application_hash = .ok d → hash ∉ d.prune_replayer.accessed tag) :
    same_outcome
      (prune replayer input_db output_db should_filter_application_hash application_hash)
      (prune replayer (input_db.remove tag hash) output_db should_filter_application_hash
        application_hash) := by
  have hscan := scan_failed_decode replayer input_db output_db should_filter_application_hash
    application_hash tag hash data hread (by rw [hfail]) hnot
  unfold prune
  cases h1 : scan replayer input_db output_db should_filter_application_hash application_hash with
  | error x =>
    cases h2 : scan replayer (input_db.remove tag hash) output_db should_filter_application_hash
        application_hash with
    | error y =>
      rw [h1, h2] at hscan
      exact hscan
    | ok y =>
      rw [h1, h2] at hscan
      exact hscan.elim
  | ok x =>
    cases h2 : scan replayer (input_db.remove tag hash) output_db should_filter_application_hash
        application_hash with
    | error y =>
      rw [h1, h2] at hscan
      exact hscan.elim
    | ok y =>
      rw [h1, h2] at hscan
      simp only [sweep_eq_sweep_tags]
      apply sweep_tags_rel input_db (input_db.remove tag hash) sweep_order x y hscan
      intro t _ h hh
      apply remove_read_entry_of_ne
      rintro ⟨rfl, rfl⟩
      exact hunmarked x h1 hh

/-- The sampler 13 of `undecodable_sampler_store` is such a record. -/
theorem failed_decode_as_absent_witness :
    undecodable_sampler_store.read_entry RESOURCE_SAMPLER 13 false = some [9, 9] ∧
    toy_replayer.parse [9, 9] = ⟨[], true⟩ ∧
    (prune toy_replayer undecodable_sampler_store fresh_output false 0).isOk = true ∧
    same_outcome (prune toy_replayer undecodable_sampler_store fresh_output false 0)
      (prune toy_replayer (undecodable_sampler_store.remove RESOURCE_SAMPLER 13)
        fresh_output false 0) := by
  refine ⟨by decide, rfl, by decide, ?_⟩
  apply failed_decode_as_absent toy_replayer undecodable_sampler_store fresh_output false 0
    RESOURCE_SAMPLER 13 [9, 9] (by decide) rfl (by decide)
  intro d hd
  have hcheck : (match scan toy_replayer undecodable_sampler_store fresh_output false 0 with
      | .ok d => decide (13 ∉ d.prune_replayer.accessed RESOURCE_SAMPLER)
      | .error _ => true) = true := by decide
  rw [hd] at hcheck
  simpa using hcheck

/-- C8 as stated fails. An `ApplicationInfo` record whose decode throws is still
copied and counted, while the run on the store without it writes nothing; and a
descriptor-set layout whose decode throws but which a retained pipeline layout
references is copied by a successful run, while the run on the store without it
aborts in the sweep. -/
theorem failed_decode_not_as_absent :
    (toy_replayer.parse [9, 9]).threw = true ∧
    undecodable_application_store.read_entry RESOURCE_APPLICATION_INFO 1 false = some [9, 9] ∧
    (prune toy_replayer undecodable_application_store fresh_output false 0).isOk = true ∧
    (final_state (prune toy_replayer undecodable_application_store fresh_output false
      0)).output_db.entries = [(RESOURCE_APPLICATION_INFO, 1, [255, 9, 9])] ∧
    (final_state (prune toy_replayer undecodable_application_store fresh_output false
      0)).per_tag_written RESOURCE_APPLICATION_INFO = 1 ∧
    (prune toy_replayer (undecodable_application_store.remove RESOURCE_APPLICATION_INFO 1)
      fresh_output false 0).isOk = true ∧
    (final_state (prune toy_replayer
      (undecodable_application_store.remove RESOURCE_APPLICATION_INFO 1) fresh_output false
      0)).output_db.entries = [] ∧
    (final_state (prune toy_replayer
      (undecodable_application_store.remove RESOURCE_APPLICATION_INFO 1) fresh_output false
      0)).per_tag_written RESOURCE_APPLICATION_INFO = 0 ∧
    undecodable_layout_store.read_entry RESOURCE_DESCRIPTOR_SET_LAYOUT 21 false = some [9, 9] ∧
    (prune toy_replayer undecodable_layout_store fresh_output false 0).isOk = true ∧
    (RESOURCE_DESCRIPTOR_SET_LAYOUT, 21, [255, 9, 9])
      ∈ (final_state (prune toy_replayer undecodable_layout_store fresh_output false
          0)).output_db.entries ∧
    (prune toy_replayer (undecodable_layout_store.remove RESOURCE_DESCRIPTOR_SET_LAYOUT 21)
      fresh_output false 0).isOk = false := by
  decide

end Fossilize

namespace Fossilize

open ResourceTag

/-! ## The destination of a successful run, and when a run succeeds -/

/-- The entries of the destination after a successful run on a freshly opened
destination: each is the raw copy of a marked hash of a swept kind or of a listed
`ApplicationInfo` hash passing the filter test, was read from the source and
accepted by the destination; and all of these were written. -/
theorem prune_entries {replayer : StateReplayer} {input_db : DatabaseInterface}
    {accepts_write : ResourceTag → Hash → List Nat → Bool} {sf : Bool} {f : Hash} {d : Driver}
    (h : prune replayer input_db ⟨[], accepts_write⟩ sf f = .ok d) :
    (∀ r ∈ d.output_db.entries,
      input_db.read_entry r.1 r.2.1 true = some r.2.2 ∧ accepts_write r.1 r.2.1 r.2.2 = true ∧
      ((r.1 ∈ sweep_order ∧ r.2.1 ∈ d.prune_replayer.accessed r.1) ∨
        (r.1 = RESOURCE_APPLICATION_INFO ∧ passes_filter sf f r.2.1 = true ∧
          r.2.1 ∈ scanned_hashes input_db RESOURCE_APPLICATION_INFO))) ∧
    (∀ tag ∈ sweep_order, ∀ hash ∈ d.prune_replayer.accessed tag,
      ∃ data, (tag, hash, data) ∈ d.output_db.entries) ∧
    (∀ hash ∈ scanned_hashes input_db RESOURCE_APPLICATION_INFO, passes_filter sf f hash = true →
      ∃ data, (RESOURCE_APPLICATION_INFO, hash, data) ∈ d.output_db.entries) := by
  obtain ⟨ds, hscan, hsweep⟩ := prune_ok h
  obtain ⟨g1, g2, g3⟩ := scan_output hscan
  obtain ⟨h1, -, -, h4, h5⟩ := sweep_tags_ok input_db sweep_order hsweep
  simp only [List.append_nil] at g1
  have hacc : ds.output_db.accepts_write = accepts_write := g2
  rw [← h1] at h4 h5
  refine ⟨?_, ?_, ?_⟩
  · intro r hr
    rw [h4, g1] at hr
    simp only [List.mem_append, List.mem_reverse, List.mem_flatten, List.mem_map] at hr
    rcases hr with ⟨l, ⟨tag, htag, rfl⟩, hr⟩ | hr
    · simp only [List.mem_map] at hr
      obtain ⟨hash, hmem, rfl⟩ := hr
      obtain ⟨data, hd1, hd2⟩ := h5 tag htag hash hmem
      rw [hacc] at hd2
      simp only [raw_copy, hd1, Option.getD_some]
      exact ⟨trivial, hd2, Or.inl ⟨htag, hmem⟩⟩
    · obtain ⟨hd1, hd2⟩ := g3 r hr
      obtain ⟨-, ht, hp, hm⟩ := mem_tag_copies hr
      exact ⟨hd1, hd2, Or.inr ⟨ht, hp, hm⟩⟩
  · intro tag htag hash hmem
    refine ⟨(input_db.read_entry tag hash true).getD [], ?_⟩
    rw [h4]
    apply List.mem_append.mpr
    left
    simp only [List.mem_reverse, List.mem_flatten, List.mem_map]
    exact ⟨_, ⟨tag, htag, rfl⟩, List.mem_map.mpr ⟨hash, hmem, rfl⟩⟩
  · intro hash hmem hp
    refine ⟨(input_db.read_entry RESOURCE_APPLICATION_INFO hash true).getD [], ?_⟩
    rw [h4, g1]
    apply List.mem_append.mpr
    right
    simp only [List.mem_reverse, tag_copies, if_true, List.mem_map, List.mem_filter]
    exact ⟨hash, ⟨hmem, hp⟩, rfl⟩

theorem mem_hashes_of (db : OutputDatabase) (tag : ResourceTag) (hash : Hash) :
    hash ∈ db.hashes_of tag ↔ ∃ data, (tag, hash, data) ∈ db.entries := by
  simp only [OutputDatabase.hashes_of, List.mem_map, List.mem_filter, decide_eq_true_eq]
  constructor
  · rintro ⟨⟨t, h, data⟩, ⟨hmem, rfl⟩, rfl⟩
    exact ⟨data, hmem⟩
  · rintro ⟨data, hmem⟩
    exact ⟨(tag, hash, data), ⟨hmem, rfl⟩, rfl⟩

theorem scanned_hashes_reopen (input_db : DatabaseInterface) (written : OutputDatabase)
    (tag : ResourceTag) (hash : Hash) :
    hash ∈ scanned_hashes (reopen input_db written) tag ↔
      tag ≠ RESOURCE_SHADER_MODULE ∧ ∃ data, (tag, hash, data) ∈ written.entries := by
  unfold scanned_hashes
  by_cases ht : tag = RESOURCE_SHADER_MODULE
  · simp [ht]
  · simp only [ht, if_false, reopen, List.mem_reverse, mem_hashes_of, ne_eq, not_false_eq_true,
      true_and]

/-- A record that was written reads in the reopened store as it reads in the source. -/
theorem read_entry_reopen (input_db : DatabaseInterface) (written : OutputDatabase)
    (hsrc : ∀ r ∈ written.entries, input_db.read_entry r.1 r.2.1 true = some r.2.2)
    (tag : ResourceTag) (hash : Hash) (data : List Nat)
    (hmem : (tag, hash, data) ∈ written.entries) (raw : Bool) :
    (reopen input_db written).read_entry tag hash raw = input_db.read_entry tag hash raw := by
  simp only [reopen]
  cases hfind : written.entries.find? (fun r => decide (r.1 = tag ∧ r.2.1 = hash)) with
  | none =>
    rw [List.find?_eq_none] at hfind
    have := hfind _ hmem
    simp at this
  | some r =>
    have hr := List.find?_some hfind
    simp only [decide_eq_true_eq] at hr
    have hrm := List.mem_of_find?_eq_some hfind
    have hs := hsrc r hrm
    rw [hr.1, hr.2] at hs
    cases raw with
    | true => simp [hs]
    | false => simp

theorem entry_events_reopen (replayer : StateReplayer) (input_db : DatabaseInterface)
    (written : OutputDatabase)
    (hsrc : ∀ r ∈ written.entries, input_db.read_entry r.1 r.2.1 true = some r.2.2)
    (tag : ResourceTag) (hash : Hash) (data : List Nat)
    (hmem : (tag, hash, data) ∈ written.entries) :
    entry_events replayer (reopen input_db written) tag hash
      = entry_events replayer input_db tag hash := by
  unfold entry_events
  rw [read_entry_reopen input_db written hsrc tag hash data hmem false]

/-- The scan of one record completes when its reads succeed and, for an
`ApplicationInfo` record passing the filter test, the destination accepts it. -/
theorem scan_entry_succeeds (replayer : StateReplayer) (input_db : DatabaseInterface)
    (sf : Bool) (f : Hash) (tag : ResourceTag) (hash : Hash) (d : Driver)
    (hread : (input_db.read_entry tag hash false).isSome = true)
    (hcopy : tag = RESOURCE_APPLICATION_INFO → passes_filter sf f hash = true →
      ∃ data, input_db.read_entry tag hash true = some data ∧
        d.output_db.accepts_write tag hash data = true) :
    ∃ d1, scan_entry replayer input_db sf f tag hash d = .ok d1 := by
  unfold scan_entry
  cases hr : input_db.read_entry tag hash false with
  | none => simp [hr] at hread
  | some data =>
    simp only []
    by_cases ht : tag = RESOURCE_APPLICATION_INFO
    · by_cases hp : passes_filter sf f hash = true
      · obtain ⟨raw, hraw, hacc⟩ := hcopy ht hp
        have hp2 : (!sf || hash == f) = true := hp
        simp only [ht, if_true, hp2]
        rw [ht] at hraw hacc
        simp only [copy_application_info, hraw, OutputDatabase.write_entry, hacc, if_true]
        exact ⟨_, rfl⟩
      · have hp2 : ¬ (!sf || hash == f) = true := hp
        simp only [ht, if_true, hp2, if_false, Bool.false_eq_true]
        exact ⟨_, rfl⟩
    · simp only [ht, if_false]
      exact ⟨_, rfl⟩

theorem scan_entries_succeeds (replayer : StateReplayer) (input_db : DatabaseInterface)
    (sf : Bool) (f : Hash) (tag : ResourceTag) (hashes : List Hash) (d : Driver)
    (hread : ∀ hash ∈ hashes, (input_db.read_entry tag hash false).isSome = true)
    (hcopy : tag = RESOURCE_APPLICATION_INFO → ∀ hash ∈ hashes, passes_filter sf f hash = true →
      ∃ data, input_db.read_entry tag hash true = some data ∧
        d.output_db.accepts_write tag hash data = true) :
    ∃ d1, scan_entries replayer input_db sf f tag hashes d = .ok d1 := by
  induction hashes generalizing d with
  | nil => exact ⟨d, rfl⟩
  | cons a l ih =>
    obtain ⟨d2, hd2⟩ := scan_entry_succeeds replayer input_db sf f tag a d
      (hread a (List.mem_cons_self _ _)) (fun ht hp => hcopy ht a (List.mem_cons_self _ _) hp)
    simp only [scan_entries, hd2]
    obtain ⟨-, hacc, -, -⟩ := scan_entry_output hd2
    apply ih d2 (fun hash hm => hread hash (List.mem_cons_of_mem _ hm))
    intro ht hash hm hp
    obtain ⟨data, h1, h2⟩ := hcopy ht hash (List.mem_cons_of_mem _ hm) hp
    exact ⟨data, h1, by rw [hacc]; exact h2⟩

theorem scan_tags_succeeds (replayer : StateReplayer) (input_db : DatabaseInterface)
    (sf : Bool) (f : Hash) (tags : List ResourceTag) (d : Driver)
    (hlist : ∀ tag ∈ tags, tag ≠ RESOURCE_SHADER_MODULE →
      ∃ hashes, input_db.get_hash_list_for_resource_tag tag = some hashes)
    (hread : ∀ tag ∈ tags, ∀ hash ∈ scanned_hashes input_db tag,
      (input_db.read_entry tag hash false).isSome = true)
    (hcopy : ∀ hash ∈ scanned_hashes input_db RESOURCE_APPLICATION_INFO,
      passes_filter sf f hash = true →
      ∃ data, input_db.read_entry RESOURCE_APPLICATION_INFO hash true = some data ∧
        d.output_db.accepts_write RESOURCE_APPLICATION_INFO hash data = true) :
    ∃ d1, scan_tags replayer input_db sf f tags d = .ok d1 := by
  induction tags generalizing d with
  | nil => exact ⟨d, rfl⟩
  | cons t l ih =>
    have hstep : ∃ d2, scan_tag replayer input_db sf f t d = .ok d2 := by
      unfold scan_tag
      by_cases ht : t = RESOURCE_SHADER_MODULE
      · simp only [ht, if_true]
        exact ⟨d, rfl⟩
      · obtain ⟨hashes, hl⟩ := hlist t (List.mem_cons_self _ _) ht
        simp only [ht, if_false, hl]
        have hsc : scanned_hashes input_db t = hashes := by simp [scanned_hashes, ht, hl]
        apply scan_entries_succeeds
        · intro hash hm
          exact hread t (List.mem_cons_self _ _) hash (by rw [hsc]; exact hm)
        · intro hta hash hm hp
          subst hta
          exact hcopy hash (by rw [hsc]; exact hm) hp
    obtain ⟨d2, hd2⟩ := hstep
    simp only [scan_tags, hd2]
    obtain ⟨-, hacc, -, -⟩ := scan_tag_output hd2
    apply ih d2 (fun tag hm => hlist tag (List.mem_cons_of_mem _ hm))
      (fun tag hm => hread tag (List.mem_cons_of_mem _ hm))
    intro hash hm hp
    obtain ⟨data, h1, h2⟩ := hcopy hash hm hp
    exact ⟨data, h1, by rw [hacc]; exact h2⟩

theorem copy_accessed_loop_succeeds (input_db : DatabaseInterface) (tag : ResourceTag)
    (l : List Hash) (out : OutputDatabase)
    (h : ∀ hash ∈ l, ∃ data, input_db.read_entry tag hash true = some data ∧
      out.accepts_write tag hash data = true) :
    (copy_accessed_loop input_db tag l out).1 = true := by
  induction l generalizing out with
  | nil => rfl
  | cons a l ih =>
    obtain ⟨data, h1, h2⟩ := h a (List.mem_cons_self _ _)
    simp only [copy_accessed_loop, h1, OutputDatabase.write_entry, h2, if_true]
    apply ih
    intro hash hm
    exact h hash (List.mem_cons_of_mem _ hm)

/-- The sweep completes when every marked hash of every swept kind can be read raw
and the destination accepts it. -/
theorem sweep_tags_succeeds (input_db : DatabaseInterface) (tags : List ResourceTag) (d : Driver)
    (h : ∀ tag ∈ tags, ∀ hash ∈ d.prune_replayer.accessed tag,
      ∃ data, input_db.read_entry tag hash true = some data ∧
        d.output_db.accepts_write tag hash data = true) :
    ∃ d1, sweep_tags input_db tags d = .ok d1 := by
  induction tags generalizing d with
  | nil => exact ⟨d, rfl⟩
  | cons t l ih =>
    have hloop := copy_accessed_loop_succeeds input_db t (d.prune_replayer.accessed t) d.output_db
      (h t (List.mem_cons_self _ _))
    have hstep : ∃ d2, sweep_step input_db (fun s => s.accessed t) t d = .ok d2 := by
      simp only [sweep_step, copy_accessed_types, hloop, if_true]
      exact ⟨_, rfl⟩
    obtain ⟨d2, hd2⟩ := hstep
    simp only [sweep_tags, hd2]
    obtain ⟨g1, -, -, -, g5, -⟩ := sweep_step_ok hd2
    apply ih d2
    intro tag hm hash hh
    rw [g1] at hh
    obtain ⟨data, h1, h2⟩ := h tag (List.mem_cons_of_mem _ hm) hash hh
    exact ⟨data, h1, by rw [g5]; exact h2⟩

end Fossilize

namespace Fossilize

open ResourceTag

/-! ## One creation callback per record: events, views and roots per record -/

theorem mem_scan_events (replayer : StateReplayer) (input_db : DatabaseInterface)
    (tags : List ResourceTag) (e : Event) :
    e ∈ scan_events replayer input_db tags ↔
      ∃ tag ∈ tags, ∃ hash ∈ scanned_hashes input_db tag,
        e ∈ entry_events replayer input_db tag hash := by
  constructor
  · intro he
    simp only [scan_events, List.mem_flatten, List.mem_map] at he
    obtain ⟨l, ⟨tag, htag, rfl⟩, he⟩ := he
    simp only [tag_events, List.mem_flatten, List.mem_map] at he
    obtain ⟨l2, ⟨hash, hh, rfl⟩, he⟩ := he
    exact ⟨tag, htag, hash, hh, he⟩
  · rintro ⟨tag, htag, hash, hh, he⟩
    simp only [scan_events, List.mem_flatten, List.mem_map]
    refine ⟨_, ⟨tag, htag, rfl⟩, ?_⟩
    simp only [tag_events, List.mem_flatten, List.mem_map]
    exact ⟨_, ⟨hash, hh, rfl⟩, he⟩

theorem creates_record_of {replayer : StateReplayer} {input_db : DatabaseInterface}
    (h : replayer.one_creation_per_record input_db = true) {tag : ResourceTag}
    (ht : tag ∈ playback_order) {hash : Hash} (hh : hash ∈ scanned_hashes input_db tag) :
    creates_record tag hash (entry_events replayer input_db tag hash) = true := by
  unfold StateReplayer.one_creation_per_record at h
  rw [List.all_eq_true] at h
  have := h tag ht
  rw [List.all_eq_true] at this
  exact this hash hh

theorem tagged_of {replayer : StateReplayer} {input_db : DatabaseInterface}
    (h : replayer.pipelines_tagged input_db = true) {tag : ResourceTag}
    (ht : tag ∈ playback_order) {hash : Hash} (hh : hash ∈ scanned_hashes input_db tag) :
    tagged_before_pipeline (entry_events replayer input_db tag hash) = true := by
  unfold StateReplayer.pipelines_tagged at h
  rw [List.all_eq_true] at h
  have := h tag ht
  rw [List.all_eq_true] at this
  exact this hash hh

/-- The shape of the records is the contract on the creation callbacks together
with the session tags of the pipelines. -/
theorem one_event_per_record_iff (replayer : StateReplayer) (input_db : DatabaseInterface) :
    replayer.one_event_per_record input_db = true ↔
      replayer.one_creation_per_record input_db = true ∧
        replayer.pipelines_tagged input_db = true := by
  simp only [StateReplayer.one_event_per_record, StateReplayer.one_creation_per_record,
    StateReplayer.pipelines_tagged, record_shape, creates_record, List.all_eq_true,
    Bool.and_eq_true]
  constructor
  · intro h
    exact ⟨fun tag ht hash hh => (h tag ht hash hh).1, fun tag ht hash hh => (h tag ht hash hh).2⟩
  · rintro ⟨h1, h2⟩ tag ht hash hh
    exact ⟨h1 tag ht hash hh, h2 tag ht hash hh⟩

theorem creates_record_creates {tag : ResourceTag} {hash : Hash} {events : List Event}
    (h : creates_record tag hash events = true) {e : Event} (he : e ∈ events)
    {c : ResourceTag × Hash} (hc : e.creates = some c) : c = (tag, hash) := by
  simp only [creates_record, Bool.and_eq_true, List.all_eq_true] at h
  have := h.1 e he
  rw [hc] at this
  simp only [decide_eq_true_eq] at this
  exact Prod.ext this.1 this.2

theorem eq_of_length_le_one {α : Type} {l : List α} (h : l.length ≤ 1) {a b : α}
    (ha : a ∈ l) (hb : b ∈ l) : a = b := by
  match l, h with
  | [], _ => simp at ha
  | [x], _ =>
    simp only [List.mem_singleton] at ha hb
    rw [ha, hb]
  | _ :: _ :: _, h => simp at h

theorem creates_record_unique {tag : ResourceTag} {hash : Hash} {events : List Event}
    (h : creates_record tag hash events = true) {e1 e2 : Event} (h1 : e1 ∈ events)
    (h2 : e2 ∈ events) (c1 : e1.creates.isSome = true) (c2 : e2.creates.isSome = true) :
    e1 = e2 := by
  simp only [creates_record, Bool.and_eq_true, decide_eq_true_eq] at h
  exact eq_of_length_le_one h.2 (List.mem_filter.mpr ⟨h1, c1⟩) (List.mem_filter.mpr ⟨h2, c2⟩)

theorem creates_record_allowed {tag : ResourceTag} {hash : Hash} {events : List Event}
    (h : creates_record tag hash events = true) {e : Event} (he : e ∈ events) :
    e.allowed_in tag = true := by
  cases e with
  | set_application_info => rfl
  | set_current_application_info _ => rfl
  | _ =>
    have := creates_record_creates h he rfl
    simp only [Prod.mk.injEq] at this
    simp [Event.allowed_in, this.1]

/-- Records with one creation callback of their own make the decoder keep to the
kind of the record. -/
theorem kinded_of_one_creation_per_record {replayer : StateReplayer}
    {input_db : DatabaseInterface} (h : replayer.one_creation_per_record input_db = true) :
    replayer.kinded input_db = true := by
  unfold StateReplayer.kinded
  rw [List.all_eq_true]
  intro tag ht
  rw [List.all_eq_true]
  intro e he
  simp only [tag_events, List.mem_flatten, List.mem_map] at he
  obtain ⟨l, ⟨hash, hh, rfl⟩, he⟩ := he
  exact creates_record_allowed (creates_record_of h ht hh) he

/-- Among the callbacks of a scan over records with one creation callback each, a creation
callback is determined by its kind and hash. -/
theorem scan_events_unique {replayer : StateReplayer} {input_db : DatabaseInterface}
    (h : replayer.one_creation_per_record input_db = true) {e1 e2 : Event}
    (h1 : e1 ∈ scan_events replayer input_db playback_order)
    (h2 : e2 ∈ scan_events replayer input_db playback_order)
    {c : ResourceTag × Hash} (c1 : e1.creates = some c) (c2 : e2.creates = some c) : e1 = e2 := by
  obtain ⟨t1, ht1, x1, hx1, m1⟩ := (mem_scan_events _ _ _ _).mp h1
  obtain ⟨t2, ht2, x2, hx2, m2⟩ := (mem_scan_events _ _ _ _).mp h2
  have s1 := creates_record_of h ht1 hx1
  have s2 := creates_record_of h ht2 hx2
  have e1c := creates_record_creates s1 m1 c1
  have e2c := creates_record_creates s2 m2 c2
  rw [e1c] at e2c
  simp only [Prod.mk.injEq] at e2c
  obtain ⟨rfl, rfl⟩ := e2c
  exact creates_record_unique s1 m1 m2 (by simp [c1]) (by simp [c2])

/-! ### Stored views are the registered views -/

theorem dispatch_pipeline_layouts_some (s : PruneReplayer) (e : Event) (p : Hash)
    (h : ∃ v, s.pipeline_layouts p = some v) : ∃ v, (s.dispatch e).pipeline_layouts p = some v := by
  cases hl : e.is_layout with
  | false =>
    rw [(dispatch_tables_of_not_layout s e hl).2]
    exact h
  | true =>
    cases e with
    | enqueue_create_descriptor_set_layout hash ci => exact h
    | enqueue_create_pipeline_layout hash ci =>
      simp only [PruneReplayer.dispatch, enqueue_create_pipeline_layout]
      by_cases hp : p = hash
      · subst hp
        exact ⟨ci, by simp⟩
      · rw [Function.update_noteq hp]
        exact h
    | _ => simp [Event.is_layout] at hl

theorem dispatch_descriptor_sets_some (s : PruneReplayer) (e : Event) (p : Hash)
    (h : ∃ v, s.descriptor_sets p = some v) : ∃ v, (s.dispatch e).descriptor_sets p = some v := by
  cases hl : e.is_layout with
  | false =>
    rw [(dispatch_tables_of_not_layout s e hl).1]
    exact h
  | true =>
    cases e with
    | enqueue_create_pipeline_layout hash ci => exact h
    | enqueue_create_descriptor_set_layout hash ci =>
      simp only [PruneReplayer.dispatch, enqueue_create_descriptor_set_layout]
      by_cases hp : p = hash
      · subst hp
        exact ⟨ci, by simp⟩
      · rw [Function.update_noteq hp]
        exact h
    | _ => simp [Event.is_layout] at hl

theorem replay_pipeline_layouts_some (l : List Event) (s : PruneReplayer) (p : Hash)
    (h : ∃ v, s.pipeline_layouts p = some v) : ∃ v, (s.replay l).pipeline_layouts p = some v := by
  induction l generalizing s with
  | nil => exact h
  | cons e l ih => exact ih _ (dispatch_pipeline_layouts_some s e p h)

theorem replay_descriptor_sets_some (l : List Event) (s : PruneReplayer) (p : Hash)
    (h : ∃ v, s.descriptor_sets p = some v) : ∃ v, (s.replay l).descriptor_sets p = some v := by
  induction l generalizing s with
  | nil => exact h
  | cons e l ih => exact ih _ (dispatch_descriptor_sets_some s e p h)

/-- A registered pipeline layout has a stored view. -/
theorem replay_registered_pipeline_layout (l : List Event) (s : PruneReplayer) (p : Hash)
    (v : VkPipelineLayoutCreateInfo) (h : Event.enqueue_create_pipeline_layout p v ∈ l) :
    ∃ w, (s.replay l).pipeline_layouts p = some w := by
  induction l generalizing s with
  | nil => simp at h
  | cons e l ih =>
    rw [replay_cons]
    rcases List.mem_cons.mp h with rfl | h
    · apply replay_pipeline_layouts_some
      exact ⟨v, by simp [PruneReplayer.dispatch, enqueue_create_pipeline_layout]⟩
    · exact ih _ h

theorem replay_registered_descriptor_set (l : List Event) (s : PruneReplayer) (p : Hash)
    (v : VkDescriptorSetLayoutCreateInfo)
    (h : Event.enqueue_create_descriptor_set_layout p v ∈ l) :
    ∃ w, (s.replay l).descriptor_sets p = some w := by
  induction l generalizing s with
  | nil => simp at h
  | cons e l ih =>
    rw [replay_cons]
    rcases List.mem_cons.mp h with rfl | h
    · apply replay_descriptor_sets_some
      exact ⟨v, by simp [PruneReplayer.dispatch, enqueue_create_descriptor_set_layout]⟩
    · exact ih _ h

/-- With one creation callback per record, the stored view of a pipeline layout after
the scan is the view of its creation callback. -/
theorem scan_pipeline_layouts_iff {replayer : StateReplayer} {input_db : DatabaseInterface}
    (h : replayer.one_creation_per_record input_db = true) (sf : Bool) (f : Hash) (p : Hash)
    (v : VkPipelineLayoutCreateInfo) :
    ((start_replayer sf f).replay (scan_events replayer input_db playback_order)).pipeline_layouts p
        = some v ↔
      Event.enqueue_create_pipeline_layout p v ∈ scan_events replayer input_db playback_order := by
  obtain ⟨htab, -⟩ := replay_scan_traced replayer input_db sf f
  constructor
  · exact htab.2 p v
  · intro hmem
    obtain ⟨w, hw⟩ := replay_registered_pipeline_layout _ (start_replayer sf f) p v hmem
    have := @scan_events_unique replayer input_db h _ _ (htab.2 p w hw) hmem
      (RESOURCE_PIPELINE_LAYOUT, p) rfl rfl
    simp only [Event.enqueue_create_pipeline_layout.injEq, true_and] at this
    rw [hw, this]

theorem scan_descriptor_sets_iff {replayer : StateReplayer} {input_db : DatabaseInterface}
    (h : replayer.one_creation_per_record input_db = true) (sf : Bool) (f : Hash) (p : Hash)
    (v : VkDescriptorSetLayoutCreateInfo) :
    ((start_replayer sf f).replay (scan_events replayer input_db playback_order)).descriptor_sets p
        = some v ↔
      Event.enqueue_create_descriptor_set_layout p v
        ∈ scan_events replayer input_db playback_order := by
  obtain ⟨htab, -⟩ := replay_scan_traced replayer input_db sf f
  constructor
  · exact htab.1 p v
  · intro hmem
    obtain ⟨w, hw⟩ := replay_registered_descriptor_set _ (start_replayer sf f) p v hmem
    have := @scan_events_unique replayer input_db h _ _ (htab.1 p w hw) hmem
      (RESOURCE_DESCRIPTOR_SET_LAYOUT, p) rfl rfl
    simp only [Event.enqueue_create_descriptor_set_layout.injEq, true_and] at this
    rw [hw, this]

end Fossilize

namespace Fossilize

open ResourceTag

/-! ### Accepted roots, record by record -/

/-- Which pipeline creations are accepted depends only on the filter fields and the
current session. -/
theorem accepted_events_congr (l : List Event) (s t : PruneReplayer)
    (h1 : s.should_filter_application_hash = t.should_filter_application_hash)
    (h2 : s.filter_application_hash = t.filter_application_hash)
    (h3 : s.current_application = t.current_application) :
    s.accepted_events l = t.accepted_events l := by
  induction l generalizing s t with
  | nil => rfl
  | cons e l ih =>
    have ha : s.accepts = t.accepts := by simp [PruneReplayer.accepts, h1, h2, h3]
    simp only [PruneReplayer.accepted_events, ha]
    congr 1
    obtain ⟨a1, a2, -⟩ := dispatch_filter s e
    obtain ⟨b1, b2, -⟩ := dispatch_filter t e
    apply ih
    · rw [a2, b2, h1]
    · rw [a1, b1, h2]
    · rw [dispatch_current s e, dispatch_current t e]
      cases e <;> simp [h3]

/-- A sequence that sets its session before its pipeline creations is accepted or
rejected regardless of the session before it. -/
theorem accepted_events_tagged (l : List Event) (s t : PruneReplayer)
    (ht : tagged_before_pipeline l = true)
    (h1 : s.should_filter_application_hash = t.should_filter_application_hash)
    (h2 : s.filter_application_hash = t.filter_application_hash) :
    s.accepted_events l = t.accepted_events l := by
  induction l generalizing s t with
  | nil => rfl
  | cons e l ih =>
    obtain ⟨a1, a2, -⟩ := dispatch_filter s e
    obtain ⟨b1, b2, -⟩ := dispatch_filter t e
    by_cases hc : ∃ hash, e = .set_current_application_info hash
    · obtain ⟨hash, rfl⟩ := hc
      simp only [PruneReplayer.accepted_events, Event.is_pipeline, Bool.false_and,
        Bool.false_eq_true, if_false, List.nil_append]
      apply accepted_events_congr
      · rw [a2, b2, h1]
      · rw [a1, b1, h2]
      · rfl
    · have hp : e.is_pipeline = false ∧ tagged_before_pipeline l = true := by
        cases e with
        | set_current_application_info hash => exact absurd ⟨hash, rfl⟩ hc
        | enqueue_create_compute_pipeline _ _ =>
          simp [tagged_before_pipeline, Event.is_pipeline] at ht
        | enqueue_create_graphics_pipeline _ _ =>
          simp [tagged_before_pipeline, Event.is_pipeline] at ht
        | _ => simpa [tagged_before_pipeline, Event.is_pipeline] using ht
      simp only [PruneReplayer.accepted_events, hp.1, Bool.false_and, Bool.false_eq_true,
        if_false, List.nil_append]
      apply ih _ _ hp.2
      · rw [a2, b2, h1]
      · rw [a1, b1, h2]

theorem tagged_append (l1 l2 : List Event) (h1 : tagged_before_pipeline l1 = true)
    (h2 : tagged_before_pipeline l2 = true) : tagged_before_pipeline (l1 ++ l2) = true := by
  induction l1 with
  | nil => exact h2
  | cons e l ih =>
    cases e with
    | set_current_application_info hash => rfl
    | _ =>
      simp only [tagged_before_pipeline, Bool.and_eq_true, List.cons_append] at h1 ⊢
      exact ⟨h1.1, ih h1.2⟩

theorem tagged_flatten (blocks : List (List Event))
    (h : ∀ b ∈ blocks, tagged_before_pipeline b = true) :
    tagged_before_pipeline blocks.flatten = true := by
  induction blocks with
  | nil => rfl
  | cons b bs ih =>
    rw [List.flatten_cons]
    exact tagged_append b _ (h b (List.mem_cons_self _ _))
      (ih (fun x hx => h x (List.mem_cons_of_mem _ hx)))

/-- The accepted pipeline creations of a concatenation of blocks, each of which sets
its session before its pipeline creations, are those accepted block by block. -/
theorem mem_accepted_events_flatten (blocks : List (List Event))
    (h : ∀ b ∈ blocks, tagged_before_pipeline b = true) (s s0 : PruneReplayer)
    (h1 : s.should_filter_application_hash = s0.should_filter_application_hash)
    (h2 : s.filter_application_hash = s0.filter_application_hash) (e : Event) :
    e ∈ s.accepted_events blocks.flatten ↔ ∃ b ∈ blocks, e ∈ s0.accepted_events b := by
  induction blocks generalizing s with
  | nil => simp [PruneReplayer.accepted_events]
  | cons b bs ih =>
    rw [List.flatten_cons, accepted_events_append, List.mem_append]
    obtain ⟨r1, r2, -⟩ := replay_filter_fields s b
    rw [ih (fun x hx => h x (List.mem_cons_of_mem _ hx)) (s.replay b) (r2.trans h1)
      (r1.trans h2),
      accepted_events_tagged b s s0 (h b (List.mem_cons_self _ _)) h1 h2]
    constructor
    · rintro (he | ⟨x, hx, he⟩)
      · exact ⟨b, List.mem_cons_self _ _, he⟩
      · exact ⟨x, List.mem_cons_of_mem _ hx, he⟩
    · rintro ⟨x, hx, he⟩
      rcases List.mem_cons.mp hx with rfl | hx
      · exact Or.inl he
      · exact Or.inr ⟨x, hx, he⟩

/-- When every pipeline record carries its session tag, the accepted pipeline
creations of the scan are those accepted within each decoded record. -/
theorem mem_accepted_roots {replayer : StateReplayer} {input_db : DatabaseInterface}
    (h : replayer.pipelines_tagged input_db = true) (sf : Bool) (f : Hash) (e : Event) :
    e ∈ accepted_roots replayer input_db sf f ↔
      ∃ tag ∈ playback_order, ∃ hash ∈ scanned_hashes input_db tag,
        e ∈ (start_replayer sf f).accepted_events (entry_events replayer input_db tag hash) := by
  unfold accepted_roots scan_events
  have htag : ∀ b ∈ playback_order.map (tag_events replayer input_db),
      tagged_before_pipeline b = true := by
    intro b hb
    obtain ⟨tag, ht, rfl⟩ := List.mem_map.mp hb
    apply tagged_flatten
    intro x hx
    obtain ⟨hash, hh, rfl⟩ := List.mem_map.mp hx
    exact tagged_of h ht hh
  rw [mem_accepted_events_flatten _ htag _ (start_replayer sf f) rfl rfl]
  constructor
  · rintro ⟨b, hb, he⟩
    obtain ⟨tag, ht, rfl⟩ := List.mem_map.mp hb
    have hblocks : ∀ x ∈ (scanned_hashes input_db tag).map (entry_events replayer input_db tag),
        tagged_before_pipeline x = true := by
      intro x hx
      obtain ⟨hash, hh, rfl⟩ := List.mem_map.mp hx
      exact tagged_of h ht hh
    unfold tag_events at he
    rw [mem_accepted_events_flatten _ hblocks _ (start_replayer sf f) rfl rfl] at he
    obtain ⟨x, hx, he⟩ := he
    obtain ⟨hash, hh, rfl⟩ := List.mem_map.mp hx
    exact ⟨tag, ht, hash, hh, he⟩
  · rintro ⟨tag, ht, hash, hh, he⟩
    refine ⟨tag_events replayer input_db tag, List.mem_map.mpr ⟨tag, ht, rfl⟩, ?_⟩
    have hblocks : ∀ x ∈ (scanned_hashes input_db tag).map (entry_events replayer input_db tag),
        tagged_before_pipeline x = true := by
      intro x hx
      obtain ⟨hash, hh, rfl⟩ := List.mem_map.mp hx
      exact tagged_of h ht hh
    unfold tag_events
    rw [mem_accepted_events_flatten _ hblocks _ (start_replayer sf f) rfl rfl]
    exact ⟨_, List.mem_map.mpr ⟨hash, hh, rfl⟩, he⟩

/-- The hash of an accepted pipeline creation is marked in the set of its kind. -/
theorem roots_marked_creates {s : PruneReplayer} {roots : List Event} (h : s.RootsMarked roots)
    {e : Event} (he : e ∈ roots) (hp : e.is_pipeline = true) {c : ResourceTag × Hash}
    (hc : e.creates = some c) : c.1 ∈ sweep_order ∧ c.2 ∈ s.accessed c.1 := by
  obtain ⟨h1, h2, -⟩ := h e he
  cases e with
  | enqueue_create_compute_pipeline hash ci =>
    simp only [Event.creates, Option.some.injEq] at hc
    subst hc
    exact ⟨by simp [sweep_order], h2 hash (by simp [Event.root_computes])⟩
  | enqueue_create_graphics_pipeline hash ci =>
    simp only [Event.creates, Option.some.injEq] at hc
    subst hc
    exact ⟨by simp [sweep_order], h1 hash (by simp [Event.root_graphics])⟩
  | _ => simp [Event.is_pipeline] at hp

/-- A marked pipeline hash is the hash of an accepted pipeline creation. -/
theorem from_roots_creates {s : PruneReplayer} {roots : List Event} (h : s.FromRoots roots)
    {tag : ResourceTag} {hash : Hash} (hh : hash ∈ s.accessed tag)
    (ht : tag = RESOURCE_GRAPHICS_PIPELINE ∨ tag = RESOURCE_COMPUTE_PIPELINE) :
    ∃ e ∈ roots, e.creates = some (tag, hash) := by
  obtain ⟨h1, h2, -⟩ := h
  rcases ht with rfl | rfl
  · obtain ⟨e, he, hx⟩ := h1 hash hh
    cases e <;> simp [Event.root_graphics] at hx
    subst hx
    exact ⟨_, he, rfl⟩
  · obtain ⟨e, he, hx⟩ := h2 hash hh
    cases e <;> simp [Event.root_computes] at hx
    subst hx
    exact ⟨_, he, rfl⟩

theorem is_pipeline_creates {e : Event} (hp : e.is_pipeline = true) :
    ∃ hash, e.creates = some (RESOURCE_GRAPHICS_PIPELINE, hash) ∨
      e.creates = some (RESOURCE_COMPUTE_PIPELINE, hash) := by
  cases e with
  | enqueue_create_compute_pipeline hash ci => exact ⟨hash, Or.inr rfl⟩
  | enqueue_create_graphics_pipeline hash ci => exact ⟨hash, Or.inl rfl⟩
  | _ => simp [Event.is_pipeline] at hp

end Fossilize

namespace Fossilize

open ResourceTag

/-! ## C4: idempotence of pruning -/

theorem same_reachable_accessed {s t : PruneReplayer} (h : s.same_reachable t)
    (tag : ResourceTag) (x : Hash) : x ∈ s.accessed tag ↔ x ∈ t.accessed tag := by
  obtain ⟨h1, h2, h3, h4, h5, h6, h7⟩ := h
  cases tag
  · exact Iff.rfl
  · exact h1 x
  · exact h2 x
  · exact h3 x
  · exact h4 x
  · exact h5 x
  · exact h6 x
  · exact h7 x

theorem set_layouts_of_sub {s t : PruneReplayer} {p : Hash}
    (h : ∀ v, s.pipeline_layouts p = some v → t.pipeline_layouts p = some v) :
    ∀ x ∈ s.set_layouts_of p, x ∈ t.set_layouts_of p := by
  intro x hx
  unfold PruneReplayer.set_layouts_of at hx ⊢
  cases hv : s.pipeline_layouts p with
  | none => simp [hv] at hx
  | some v =>
    rw [h v hv]
    simpa [hv] using hx

theorem samplers_of_sub {s t : PruneReplayer} {d : Hash}
    (h : ∀ v, s.descriptor_sets d = some v → t.descriptor_sets d = some v) :
    ∀ x ∈ s.samplers_of d, x ∈ t.samplers_of d := by
  intro x hx
  unfold PruneReplayer.samplers_of at hx ⊢
  cases hv : s.descriptor_sets d with
  | none => simp [hv] at hx
  | some v =>
    rw [h v hv]
    simpa [hv] using hx

theorem store_of_coherent (records : List (ResourceTag × Hash × List Nat)) :
    (store_of records).coherent := by
  intro tag hash hraw
  dsimp only [store_of] at hraw ⊢
  cases hfind : records.find? (fun r => decide (r.1 = tag ∧ r.2.1 = hash)) with
  | none =>
    rw [hfind] at hraw
    cases hraw
  | some r =>
    have hr := List.find?_some hfind
    simp only [decide_eq_true_eq] at hr
    have hrm := List.mem_of_find?_eq_some hfind
    refine ⟨rfl, _, rfl, ?_⟩
    simp only [List.mem_map, List.mem_filter, decide_eq_true_eq]
    exact ⟨r, ⟨hrm, hr.1⟩, hr.2⟩

theorem lists_its_records_of_coherent {db : DatabaseInterface} (h : db.coherent) :
    db.lists_its_records :=
  fun tag hash hraw => (h tag hash hraw).2

theorem scan_entry_decoded_read {replayer : StateReplayer} {input_db : DatabaseInterface}
    {sf : Bool} {f : Hash} {tag : ResourceTag} {hash : Hash} {d d1 : Driver}
    (h : scan_entry replayer input_db sf f tag hash d = .ok d1) :
    (input_db.read_entry tag hash false).isSome = true := by
  unfold scan_entry at h
  cases hr : input_db.read_entry tag hash false with
  | none => simp [hr] at h
  | some data => rfl

theorem scan_entries_decoded_reads {replayer : StateReplayer} {input_db : DatabaseInterface}
    {sf : Bool} {f : Hash} {tag : ResourceTag} (l : List Hash) {d d1 : Driver}
    (h : scan_entries replayer input_db sf f tag l d = .ok d1) :
    ∀ hash ∈ l, (input_db.read_entry tag hash false).isSome = true := by
  induction l generalizing d with
  | nil => intro hash hm; simp at hm
  | cons a l ih =>
    simp only [scan_entries] at h
    cases hs : scan_entry replayer input_db sf f tag a d with
    | error e => simp [hs] at h
    | ok d2 =>
      simp only [hs] at h
      intro hash hm
      rcases List.mem_cons.mp hm with rfl | hm
      · exact scan_entry_decoded_read hs
      · exact ih h hash hm

theorem scan_tag_decoded_reads {replayer : StateReplayer} {input_db : DatabaseInterface}
    {sf : Bool} {f : Hash} {tag : ResourceTag} {d d1 : Driver}
    (h : scan_tag replayer input_db sf f tag d = .ok d1) :
    ∀ hash ∈ scanned_hashes input_db tag,
      (input_db.read_entry tag hash false).isSome = true := by
  unfold scan_tag at h
  unfold scanned_hashes
  by_cases ht : tag = RESOURCE_SHADER_MODULE
  · simp [ht]
  · simp only [ht, if_false] at h ⊢
    cases hl : input_db.get_hash_list_for_resource_tag tag with
    | none => simp [hl] at h
    | some hashes =>
      simp only [hl] at h ⊢
      exact scan_entries_decoded_reads hashes h

/-- A completed scan pass has read, decoded, every record that it lists. -/
theorem scan_tags_decoded_reads {replayer : StateReplayer} {input_db : DatabaseInterface}
    {sf : Bool} {f : Hash} (tags : List ResourceTag) {d d1 : Driver}
    (h : scan_tags replayer input_db sf f tags d = .ok d1) :
    ∀ tag ∈ tags, ∀ hash ∈ scanned_hashes input_db tag,
      (input_db.read_entry tag hash false).isSome = true := by
  induction tags generalizing d with
  | nil => intro tag hm; simp at hm
  | cons t l ih =>
    simp only [scan_tags] at h
    cases hs : scan_tag replayer input_db sf f t d with
    | error e => simp [hs] at h
    | ok d2 =>
      simp only [hs] at h
      intro tag hm
      rcases List.mem_cons.mp hm with rfl | hm
      · exact scan_tag_decoded_reads hs
      · exact ih h tag hm

/-- C4, amended (idempotence of pruning). For a source store that lists its records
(a record that can be read raw is in the hash list of its kind) and a decoder that
makes, for each scanned record, at most one creation callback, of the kind and
hash of the record: when pruning succeeds on a freshly opened destination, pruning the
resulting store again into a fresh destination of the same kind succeeds as well
and ends with the same hashes in each of the seven reachable sets as the first
run, provided the second run has no filter, or has the filter of the first run
and every pipeline record carries its own session tag (no pipeline creation
callback comes before the session callback of its record). -/
theorem prune_idempotent (replayer : StateReplayer) (input_db : DatabaseInterface)
    (accepts_write : ResourceTag → Hash → List Nat → Bool)
    (should_filter_application_hash : Bool) (application_hash : Hash)
    (should_filter_again : Bool) (application_hash_again : Hash) (first : Driver)
    (hlists : input_db.lists_its_records)
    (hcontract : replayer.one_creation_per_record input_db = true)
    (hrun : prune replayer input_db ⟨[], accepts_write⟩ should_filter_application_hash
      application_hash = .ok first)
    (hfilter : should_filter_again = false ∨
      (should_filter_again = should_filter_application_hash ∧
        application_hash_again = application_hash ∧
        replayer.pipelines_tagged input_db = true)) :
    ∃ second,
      prune replayer (reopen input_db first.output_db) ⟨[], accepts_write⟩ should_filter_again
        application_hash_again = .ok second ∧
      first.prune_replayer.same_reachable second.prune_replayer := by
  obtain ⟨hent, hswept, -⟩ := prune_entries hrun
  have hsrc : ∀ r ∈ first.output_db.entries, input_db.read_entry r.1 r.2.1 true = some r.2.2 :=
    fun r hr => (hent r hr).1
  obtain ⟨ds1, hscan1, hsweep1⟩ := prune_ok hrun
  obtain ⟨b1, hb1⟩ := scan_replayer hscan1
  obtain ⟨hrep1, -⟩ := sweep_tags_ok input_db sweep_order hsweep1
  have hfirst : first.prune_replayer
      = ((start_replayer should_filter_application_hash application_hash).replay
          (scan_events replayer input_db playback_order)).with_allow b1 := hrep1.trans hb1
  -- the records of the reopened store are records of the source, with the same callbacks
  have hsub : ∀ tag hash, hash ∈ scanned_hashes (reopen input_db first.output_db) tag →
      hash ∈ scanned_hashes input_db tag ∧ ∃ data, (tag, hash, data) ∈ first.output_db.entries := by
    intro tag hash hh
    obtain ⟨htag, data, hmem⟩ := (scanned_hashes_reopen _ _ _ _).mp hh
    refine ⟨?_, data, hmem⟩
    obtain ⟨hashes, hl, hin⟩ := hlists tag hash (by rw [hsrc _ hmem]; rfl)
    simp only [scanned_hashes, htag, if_false, hl]
    exact hin
  have hevents : ∀ tag hash, hash ∈ scanned_hashes (reopen input_db first.output_db) tag →
      entry_events replayer (reopen input_db first.output_db) tag hash
        = entry_events replayer input_db tag hash := by
    intro tag hash hh
    obtain ⟨-, data, hmem⟩ := hsub tag hash hh
    exact entry_events_reopen replayer input_db _ hsrc tag hash data hmem
  have hcontract2 : replayer.one_creation_per_record (reopen input_db first.output_db)
      = true := by
    unfold StateReplayer.one_creation_per_record
    rw [List.all_eq_true]
    intro tag ht
    rw [List.all_eq_true]
    intro hash hh
    rw [hevents tag hash hh]
    exact creates_record_of hcontract ht (hsub tag hash hh).1
  have htagged2 : replayer.pipelines_tagged input_db = true →
      replayer.pipelines_tagged (reopen input_db first.output_db) = true := by
    intro htag
    unfold StateReplayer.pipelines_tagged
    rw [List.all_eq_true]
    intro tag ht
    rw [List.all_eq_true]
    intro hash hh
    rw [hevents tag hash hh]
    exact tagged_of htag ht (hsub tag hash hh).1
  have hE : ∀ e ∈ scan_events replayer (reopen input_db first.output_db) playback_order,
      e ∈ scan_events replayer input_db playback_order := by
    intro e he
    obtain ⟨tag, ht, hash, hh, hm⟩ := (mem_scan_events _ _ _ _).mp he
    rw [hevents tag hash hh] at hm
    exact (mem_scan_events _ _ _ _).mpr ⟨tag, ht, hash, (hsub tag hash hh).1, hm⟩
  have hmarked : ∀ tag ∈ sweep_order, ∀ hash ∈ first.prune_replayer.accessed tag,
      tag ≠ RESOURCE_SHADER_MODULE →
      hash ∈ scanned_hashes (reopen input_db first.output_db) tag := by
    intro tag ht hash hh hne
    exact (scanned_hashes_reopen _ _ _ _).mpr ⟨hne, hswept tag ht hash hh⟩
  -- invariants of the two scans
  obtain ⟨c1, s1⟩ := replay_scan_closed_sound replayer input_db should_filter_application_hash
    application_hash (kinded_of_one_creation_per_record hcontract)
  obtain ⟨c2, s2⟩ := replay_scan_closed_sound replayer (reopen input_db first.output_db)
    should_filter_again application_hash_again (kinded_of_one_creation_per_record hcontract2)
  obtain ⟨f1, m1⟩ := replay_scan_roots replayer input_db should_filter_application_hash
    application_hash
  obtain ⟨f2, m2⟩ := replay_scan_roots replayer (reopen input_db first.output_db)
    should_filter_again application_hash_again
  have hacc1 : ∀ tag, ((start_replayer should_filter_application_hash application_hash).replay
      (scan_events replayer input_db playback_order)).accessed tag
        = first.prune_replayer.accessed tag := by
    intro tag
    rw [hfirst]
    rfl
  -- the accepted roots agree
  have hrecord : ∀ e ∈ scan_events replayer input_db playback_order, e.is_pipeline = true →
      e ∈ accepted_roots replayer input_db should_filter_application_hash application_hash →
      ∃ tag ∈ playback_order, ∃ hash,
        hash ∈ scanned_hashes input_db tag ∧
        hash ∈ scanned_hashes (reopen input_db first.output_db) tag ∧
        e ∈ entry_events replayer input_db tag hash := by
    intro e heE hp he
    obtain ⟨tag, ht, hash, hh, hmem⟩ := (mem_scan_events _ _ _ _).mp heE
    obtain ⟨x, hx⟩ := is_pipeline_creates hp
    have hmk : ∀ c, e.creates = some c → c.1 ≠ RESOURCE_SHADER_MODULE →
        hash ∈ scanned_hashes (reopen input_db first.output_db) tag := by
      intro c hc hne
      have hceq := creates_record_creates (creates_record_of hcontract ht hh) hmem hc
      obtain ⟨hso, hin⟩ := roots_marked_creates m1 he hp hc
      rw [hacc1, hceq] at hin
      rw [hceq] at hso hne
      exact hmarked tag hso hash hin hne
    rcases hx with hx | hx
    · exact ⟨tag, ht, hash, hh, hmk _ hx (by simp), hmem⟩
    · exact ⟨tag, ht, hash, hh, hmk _ hx (by simp), hmem⟩
  have hA12 : ∀ e ∈ accepted_roots replayer input_db should_filter_application_hash
      application_hash,
      e ∈ accepted_roots replayer (reopen input_db first.output_db) should_filter_again
        application_hash_again := by
    intro e he
    obtain ⟨heE, hp⟩ := mem_accepted_events he
    obtain ⟨tag, ht, hash, hh, hh2, hmem⟩ := hrecord e heE hp he
    rcases hfilter with hno | ⟨hsame1, hsame2, htag⟩
    · -- the second run has no filter: every pipeline creation of its scan is accepted
      subst hno
      apply accepted_events_unfiltered _ _ rfl _ hp
      refine (mem_scan_events _ _ _ _).mpr ⟨tag, ht, hash, hh2, ?_⟩
      rw [hevents tag hash hh2]
      exact hmem
    · -- the same filter: the record decides, by its own session tag
      obtain ⟨tag1, ht1, hash1, hh1, hacc⟩ := (mem_accepted_roots htag _ _ e).mp he
      obtain ⟨hmem1, -⟩ := mem_accepted_events hacc
      obtain ⟨x, hx⟩ := is_pipeline_creates hp
      have hsame_record : (tag1, hash1) = (tag, hash) := by
        rcases hx with hx | hx
        · rw [← creates_record_creates (creates_record_of hcontract ht1 hh1) hmem1 hx,
            ← creates_record_creates (creates_record_of hcontract ht hh) hmem hx]
        · rw [← creates_record_creates (creates_record_of hcontract ht1 hh1) hmem1 hx,
            ← creates_record_creates (creates_record_of hcontract ht hh) hmem hx]
      simp only [Prod.mk.injEq] at hsame_record
      obtain ⟨rfl, rfl⟩ := hsame_record
      refine (mem_accepted_roots (htagged2 htag) _ _ e).mpr ⟨tag1, ht, hash1, hh2, ?_⟩
      rw [hevents tag1 hash1 hh2, hsame1, hsame2]
      exact hacc
  have hA21 : ∀ e ∈ accepted_roots replayer (reopen input_db first.output_db) should_filter_again
      application_hash_again,
      e ∈ accepted_roots replayer input_db should_filter_application_hash application_hash := by
    intro e he
    obtain ⟨heE2, hp⟩ := mem_accepted_events he
    obtain ⟨tag, ht, hash, hh, hmem⟩ := (mem_scan_events _ _ _ _).mp heE2
    rw [hevents tag hash hh] at hmem
    obtain ⟨hh1, data, hentry⟩ := hsub tag hash hh
    have hshape_rec := creates_record_of hcontract ht hh1
    have heE : e ∈ scan_events replayer input_db playback_order :=
      (mem_scan_events _ _ _ _).mpr ⟨tag, ht, hash, hh1, hmem⟩
    obtain ⟨x, hx⟩ := is_pipeline_creates hp
    have hmk : ∀ c, e.creates = some c →
        (c.1 = RESOURCE_GRAPHICS_PIPELINE ∨ c.1 = RESOURCE_COMPUTE_PIPELINE) →
        e ∈ accepted_roots replayer input_db should_filter_application_hash application_hash := by
      intro c hc hkind
      have hceq := creates_record_creates hshape_rec hmem hc
      rw [hceq] at hkind hc
      have hin : hash ∈ first.prune_replayer.accessed tag := by
        rcases (hent _ hentry).2.2 with h1 | h1
        · exact h1.2
        · rcases hkind with hk | hk <;> rw [hk] at h1 <;> exact absurd h1.1 (by decide)
      rw [← hacc1] at hin
      obtain ⟨e1, he1, hc1⟩ := from_roots_creates f1 hin hkind
      have he1E : e1 ∈ scan_events replayer input_db playback_order :=
        (mem_accepted_events he1).1
      have := scan_events_unique hcontract he1E heE hc1 hc
      rw [← this]
      exact he1
    rcases hx with hx | hx
    · exact hmk _ hx (Or.inl rfl)
    · exact hmk _ hx (Or.inr rfl)
  -- the stored views agree on what is marked
  have hT21pl : ∀ p v,
      ((start_replayer should_filter_again application_hash_again).replay
        (scan_events replayer (reopen input_db first.output_db) playback_order)).pipeline_layouts p
          = some v →
      ((start_replayer should_filter_application_hash application_hash).replay
        (scan_events replayer input_db playback_order)).pipeline_layouts p = some v := by
    intro p v hv
    exact (scan_pipeline_layouts_iff hcontract _ _ p v).mpr
      (hE _ ((scan_pipeline_layouts_iff hcontract2 _ _ p v).mp hv))
  have hT21ds : ∀ p v,
      ((start_replayer should_filter_again application_hash_again).replay
        (scan_events replayer (reopen input_db first.output_db) playback_order)).descriptor_sets p
          = some v →
      ((start_replayer should_filter_application_hash application_hash).replay
        (scan_events replayer input_db playback_order)).descriptor_sets p = some v := by
    intro p v hv
    exact (scan_descriptor_sets_iff hcontract _ _ p v).mpr
      (hE _ ((scan_descriptor_sets_iff hcontract2 _ _ p v).mp hv))
  have hback : ∀ (e : Event) (tag : ResourceTag) (p : Hash),
      e ∈ scan_events replayer input_db playback_order → e.creates = some (tag, p) →
      tag ∈ sweep_order → tag ≠ RESOURCE_SHADER_MODULE →
      p ∈ first.prune_replayer.accessed tag →
      e ∈ scan_events replayer (reopen input_db first.output_db) playback_order := by
    intro e tag p he hc hso hne hin
    obtain ⟨t, ht, hash, hh, hm⟩ := (mem_scan_events _ _ _ _).mp he
    have hceq := creates_record_creates (creates_record_of hcontract ht hh) hm hc
    simp only [Prod.mk.injEq] at hceq
    obtain ⟨rfl, rfl⟩ := hceq
    have hh2 := hmarked tag hso p hin hne
    refine (mem_scan_events _ _ _ _).mpr ⟨tag, ht, p, hh2, ?_⟩
    rw [hevents tag p hh2]
    exact hm
  have hT12pl : ∀ p ∈ ((start_replayer should_filter_application_hash application_hash).replay
        (scan_events replayer input_db playback_order)).accessed_pipeline_layouts, ∀ v,
      ((start_replayer should_filter_application_hash application_hash).replay
        (scan_events replayer input_db playback_order)).pipeline_layouts p = some v →
      ((start_replayer should_filter_again application_hash_again).replay
        (scan_events replayer (reopen input_db first.output_db) playback_order)).pipeline_layouts p
          = some v := by
    intro p hp v hv
    have he := (scan_pipeline_layouts_iff hcontract _ _ p v).mp hv
    have hin : p ∈ first.prune_replayer.accessed RESOURCE_PIPELINE_LAYOUT := by
      rw [← hacc1]
      exact hp
    exact (scan_pipeline_layouts_iff hcontract2 _ _ p v).mpr
      (hback _ RESOURCE_PIPELINE_LAYOUT p he rfl (by simp [sweep_order]) (by decide) hin)
  have hT12ds : ∀ p ∈ ((start_replayer should_filter_application_hash application_hash).replay
        (scan_events replayer input_db playback_order)).accessed_descriptor_sets, ∀ v,
      ((start_replayer should_filter_application_hash application_hash).replay
        (scan_events replayer input_db playback_order)).descriptor_sets p = some v →
      ((start_replayer should_filter_again application_hash_again).replay
        (scan_events replayer (reopen input_db first.output_db) playback_order)).descriptor_sets p
          = some v := by
    intro p hp v hv
    have he := (scan_descriptor_sets_iff hcontract _ _ p v).mp hv
    have hin : p ∈ first.prune_replayer.accessed RESOURCE_DESCRIPTOR_SET_LAYOUT := by
      rw [← hacc1]
      exact hp
    exact (scan_descriptor_sets_iff hcontract2 _ _ p v).mpr
      (hback _ RESOURCE_DESCRIPTOR_SET_LAYOUT p he rfl (by simp [sweep_order]) (by decide) hin)
  have hsame : PruneReplayer.same_reachable
      ((start_replayer should_filter_application_hash application_hash).replay
        (scan_events replayer input_db playback_order))
      ((start_replayer should_filter_again application_hash_again).replay
        (scan_events replayer (reopen input_db first.output_db) playback_order)) := by
    apply same_reachable_of_sub
    · exact sub_reachable_of_roots f1 m2 hA12 s1 c2
        (fun p hp => set_layouts_of_sub (hT12pl p hp))
        (fun d hd => samplers_of_sub (hT12ds d hd))
    · exact sub_reachable_of_roots f2 m1 hA21 s2 c1
        (fun p _ => set_layouts_of_sub (hT21pl p))
        (fun d _ => samplers_of_sub (hT21ds d))
  -- the second scan completes
  have hread2 : ∀ tag hash data, (tag, hash, data) ∈ first.output_db.entries → ∀ raw,
      (reopen input_db first.output_db).read_entry tag hash raw
        = input_db.read_entry tag hash raw :=
    fun tag hash data hmem raw => read_entry_reopen input_db _ hsrc tag hash data hmem raw
  obtain ⟨ds2, hscan2⟩ := scan_tags_succeeds replayer (reopen input_db first.output_db)
    should_filter_again application_hash_again playback_order
    (Driver.start ⟨[], accepts_write⟩ should_filter_again application_hash_again)
    (fun tag _ _ => ⟨_, rfl⟩)
    (by
      intro tag ht hash hh
      obtain ⟨hh1, data, hmem⟩ := hsub tag hash hh
      rw [hread2 tag hash data hmem false]
      exact scan_tags_decoded_reads playback_order hscan1 tag ht hash hh1)
    (by
      intro hash hh _
      obtain ⟨-, data, hmem⟩ := hsub _ hash hh
      refine ⟨data, ?_, (hent _ hmem).2.1⟩
      rw [hread2 _ hash data hmem true]
      exact hsrc _ hmem)
  have hscan2' : scan replayer (reopen input_db first.output_db) ⟨[], accepts_write⟩
      should_filter_again application_hash_again = .ok ds2 := hscan2
  obtain ⟨b2, hb2⟩ := scan_replayer hscan2'
  obtain ⟨-, hacc2, -⟩ := scan_output hscan2'
  -- the second sweep completes
  obtain ⟨second, hsweep2⟩ := sweep_tags_succeeds (reopen input_db first.output_db) sweep_order ds2
    (by
      intro tag ht hash hh
      have hin : hash ∈ first.prune_replayer.accessed tag := by
        rw [← hacc1]
        apply (same_reachable_accessed hsame tag hash).mpr
        rw [hb2] at hh
        exact hh
      obtain ⟨data, hmem⟩ := hswept tag ht hash hin
      refine ⟨data, ?_, ?_⟩
      · rw [hread2 tag hash data hmem true]
        exact hsrc _ hmem
      · rw [hacc2]
        exact (hent _ hmem).2.1)
  obtain ⟨hrep2, -⟩ := sweep_tags_ok _ sweep_order hsweep2
  refine ⟨second, ?_, ?_⟩
  · simp only [prune, hscan2', sweep_eq_sweep_tags]
    exact hsweep2
  · rw [hfirst, hrep2, hb2]
    exact hsame

/-- The scenario of the specification pruned with the filter set to session 1, then
pruned again with the same filter. -/
theorem prune_idempotent_witness :
    toy_replayer.one_creation_per_record scenario_store = true ∧
    toy_replayer.pipelines_tagged scenario_store = true ∧
    ∃ first second,
      prune toy_replayer scenario_store ⟨[], fun _ _ _ => true⟩ true 1 = .ok first ∧
      prune toy_replayer (reopen scenario_store first.output_db) ⟨[], fun _ _ _ => true⟩ true 1
        = .ok second ∧
      first.prune_replayer.same_reachable second.prune_replayer := by
  refine ⟨by decide, by decide, ?_⟩
  cases h : prune toy_replayer scenario_store ⟨[], fun _ _ _ => true⟩ true 1 with
  | error e =>
    have := scenario_prune_ok
    rw [h] at this
    cases this
  | ok first =>
    obtain ⟨second, h1, h2⟩ := prune_idempotent toy_replayer scenario_store (fun _ _ _ => true)
      true 1 true 1 first (lists_its_records_of_coherent (store_of_coherent _)) (by decide) h
      (Or.inr ⟨rfl, rfl, by decide⟩)
    exact ⟨first, second, rfl, h1, h2⟩

/-- C4 as stated fails. The graphics pipeline 62 of `untagged_store` carries no
session tag and is decoded right after render pass 42 of session 1: the run
filtered to session 1 succeeds and marks pipeline 62 with its layout 31, render
pass 41 and shader module 51. In the resulting store the record decoded before
pipeline 62 is render pass 41 of session 2: the run with the same filter on it
succeeds and marks nothing. -/
theorem prune_not_idempotent :
    untagged_store.lists_its_records ∧
    untagged_replayer.one_creation_per_record untagged_store = true ∧
    untagged_replayer.pipelines_tagged untagged_store = false ∧
    (prune untagged_replayer untagged_store fresh_output true 1).isOk = true ∧
    (final_state (prune untagged_replayer untagged_store fresh_output true 1)
      ).prune_replayer.sets = [[], [], [31], [51], [41], [62], []] ∧
    (prune untagged_replayer
      (reopen untagged_store
        (final_state (prune untagged_replayer untagged_store fresh_output true 1)).output_db)
      fresh_output true 1).isOk = true ∧
    (final_state (prune untagged_replayer
      (reopen untagged_store
        (final_state (prune untagged_replayer untagged_store fresh_output true 1)).output_db)
      fresh_output true 1)).prune_replayer.sets = [[], [], [], [], [], [], []] := by
  refine ⟨lists_its_records_of_coherent (store_of_coherent _), ?_⟩
  decide

end Fossilize

namespace Fossilize

open ResourceTag

/-! ## C11: the sweep stops at the first copy that fails -/

theorem takeWhile_append_of_all {α : Type} (p : α → Bool) (l1 l2 : List α)
    (h : ∀ x ∈ l1, p x = true) : (l1 ++ l2).takeWhile p = l1 ++ l2.takeWhile p := by
  induction l1 with
  | nil => rfl
  | cons a l ih =>
    have ha := h a (List.mem_cons_self _ _)
    simp only [List.cons_append, List.takeWhile_cons, ha, if_true]
    rw [ih (fun x hx => h x (List.mem_cons_of_mem _ hx))]

theorem takeWhile_append_of_not_all {α : Type} (p : α → Bool) (l1 l2 : List α)
    (h : l1.all p = false) : (l1 ++ l2).takeWhile p = l1.takeWhile p := by
  induction l1 with
  | nil => simp at h
  | cons a l ih =>
    simp only [List.cons_append, List.takeWhile_cons]
    cases ha : p a with
    | false => simp
    | true =>
      simp only [if_true]
      rw [ih (by simpa [ha] using h)]

theorem all_map_eq {α β : Type} (f : α → β) (p : β → Bool) (l : List α) :
    (l.map f).all p = l.all (fun x => p (f x)) := by
  induction l with
  | nil => rfl
  | cons a l ih => simp only [List.map_cons, List.all_cons, ih]

theorem copy_succeeds_congr (input_db : DatabaseInterface) {out1 out2 : OutputDatabase}
    (h : out1.accepts_write = out2.accepts_write) :
    copy_succeeds input_db out1 = copy_succeeds input_db out2 := by
  funext tag hash
  simp only [copy_succeeds, h]

theorem copy_succeeds_iff (input_db : DatabaseInterface) (output_db : OutputDatabase)
    (tag : ResourceTag) (hash : Hash) :
    copy_succeeds input_db output_db tag hash = true ↔
      ∃ data, input_db.read_entry tag hash true = some data ∧
        output_db.accepts_write tag hash data = true := by
  unfold copy_succeeds
  cases input_db.read_entry tag hash true with
  | none => simp
  | some data => simp

/-- The loop of `copy_accessed_types` returns whether every copy goes through, and
has written the copies before the first one that does not. -/
theorem copy_accessed_loop_takeWhile (input_db : DatabaseInterface) (tag : ResourceTag)
    (l : List Hash) (out : OutputDatabase) :
    (copy_accessed_loop input_db tag l out).1 = l.all (copy_succeeds input_db out tag) ∧
    (copy_accessed_loop input_db tag l out).2.entries
      = ((l.takeWhile (copy_succeeds input_db out tag)).map (raw_copy input_db tag)).reverse
        ++ out.entries ∧
    (copy_accessed_loop input_db tag l out).2.accepts_write = out.accepts_write := by
  induction l generalizing out with
  | nil => exact ⟨rfl, rfl, rfl⟩
  | cons a l ih =>
    simp only [copy_accessed_loop, List.all_cons, List.takeWhile_cons]
    cases hr : input_db.read_entry tag a true with
    | none => simp [copy_succeeds, hr]
    | some data =>
      simp only []
      cases hw : out.accepts_write tag a data with
      | false => simp [copy_succeeds, hr, hw, OutputDatabase.write_entry]
      | true =>
        have hs : copy_succeeds input_db out tag a = true := by simp [copy_succeeds, hr, hw]
        simp only [OutputDatabase.write_entry, hw, if_true, hs, Bool.true_and]
        obtain ⟨h1, h2, h3⟩ := ih { out with entries := (tag, a, data) :: out.entries }
        have hc : copy_succeeds input_db { out with entries := (tag, a, data) :: out.entries }
            = copy_succeeds input_db out := copy_succeeds_congr input_db rfl
        rw [hc] at h1 h2
        refine ⟨h1, ?_, h3⟩
        rw [h2]
        simp [raw_copy, hr]

theorem sweep_step_takeWhile (input_db : DatabaseInterface) (tag : ResourceTag) (d : Driver) :
    (sweep_step input_db (fun s => s.accessed tag) tag d).isOk
      = (d.prune_replayer.accessed tag).all (copy_succeeds input_db d.output_db tag) ∧
    (final_state (sweep_step input_db (fun s => s.accessed tag) tag d)).output_db.entries
      = (((d.prune_replayer.accessed tag).takeWhile (copy_succeeds input_db d.output_db tag)).map
          (raw_copy input_db tag)).reverse ++ d.output_db.entries ∧
    (final_state (sweep_step input_db (fun s => s.accessed tag) tag d)).output_db.accepts_write
      = d.output_db.accepts_write ∧
    (final_state (sweep_step input_db (fun s => s.accessed tag) tag d)).prune_replayer
      = d.prune_replayer := by
  obtain ⟨h1, h2, h3⟩ :=
    copy_accessed_loop_takeWhile input_db tag (d.prune_replayer.accessed tag) d.output_db
  unfold sweep_step copy_accessed_types
  simp only
  split
  · rename_i hb
    rw [← h1, hb]
    exact ⟨rfl, h2, h3, rfl⟩
  · rename_i hb
    rw [← h1]
    simp only [Bool.not_eq_true] at hb
    rw [hb]
    exact ⟨rfl, h2, h3, rfl⟩

theorem sweep_sequence_cons (s : PruneReplayer) (tag : ResourceTag) (tags : List ResourceTag) :
    sweep_sequence s (tag :: tags)
      = (s.accessed tag).map (fun hash => (tag, hash)) ++ sweep_sequence s tags := by
  simp [sweep_sequence]

/-- The sweep succeeds exactly when every copy of its sequence goes through, and,
whatever its result, it has written the copies before the first one that does not. -/
theorem sweep_tags_takeWhile (input_db : DatabaseInterface) (tags : List ResourceTag)
    (d : Driver) :
    (sweep_tags input_db tags d).isOk
      = (sweep_sequence d.prune_replayer tags).all
          (fun r => copy_succeeds input_db d.output_db r.1 r.2) ∧
    (final_state (sweep_tags input_db tags d)).output_db.entries
      = sweep_written input_db d.output_db d.prune_replayer tags ++ d.output_db.entries := by
  induction tags generalizing d with
  | nil => exact ⟨rfl, rfl⟩
  | cons t l ih =>
    obtain ⟨g1, g2, g3, g4⟩ := sweep_step_takeWhile input_db t d
    have hmap : ((d.prune_replayer.accessed t).map (fun hash => (t, hash))).takeWhile
        (fun r => copy_succeeds input_db d.output_db r.1 r.2)
        = ((d.prune_replayer.accessed t).takeWhile (copy_succeeds input_db d.output_db t)).map
          (fun hash => (t, hash)) := by
      rw [List.takeWhile_map]
      rfl
    simp only [sweep_tags, sweep_written, sweep_sequence_cons]
    cases hstep : sweep_step input_db (fun s => s.accessed t) t d with
    | error e =>
      rw [hstep] at g1 g2
      simp only [final_state] at g2
      have hall : ((d.prune_replayer.accessed t).map (fun hash => (t, hash))).all
          (fun r => copy_succeeds input_db d.output_db r.1 r.2) = false := by
        rw [all_map_eq]
        exact g1.symm
      rw [takeWhile_append_of_not_all _ _ _ hall, hmap, List.all_append, hall]
      refine ⟨rfl, ?_⟩
      simp only [final_state]
      rw [g2, List.map_map]
      rfl
    | ok d1 =>
      rw [hstep] at g1 g2 g3 g4
      simp only [final_state] at g2 g3 g4
      have hall : ((d.prune_replayer.accessed t).map (fun hash => (t, hash))).all
          (fun r => copy_succeeds input_db d.output_db r.1 r.2) = true := by
        rw [all_map_eq]
        exact g1.symm
      obtain ⟨h1, h2⟩ := ih d1
      rw [g4, copy_succeeds_congr input_db g3] at h1
      have hall2 : ∀ x ∈ (d.prune_replayer.accessed t).map (fun hash => (t, hash)),
          copy_succeeds input_db d.output_db x.1 x.2 = true := by
        simpa [List.all_eq_true] using hall
      rw [takeWhile_append_of_all _ _ _ hall2, List.all_append, hall, Bool.true_and]
      refine ⟨h1, ?_⟩
      rw [h2, g2, sweep_written, g4, copy_succeeds_congr input_db g3]
      have hfull : (d.prune_replayer.accessed t).takeWhile (copy_succeeds input_db d.output_db t)
          = d.prune_replayer.accessed t := by
        rw [List.takeWhile_eq_self_iff]
        intro x hx
        exact hall2 (t, x) (List.mem_map.mpr ⟨x, hx, rfl⟩)
      rw [hfull]
      simp [List.map_append, List.reverse_append, List.map_map, Function.comp_def]

theorem mem_sweep_sequence (s : PruneReplayer) (tags : List ResourceTag) (r : ResourceTag × Hash) :
    r ∈ sweep_sequence s tags ↔ r.1 ∈ tags ∧ r.2 ∈ s.accessed r.1 := by
  obtain ⟨tag, hash⟩ := r
  simp only [sweep_sequence, List.mem_flatten, List.mem_map]
  constructor
  · rintro ⟨l, ⟨t, ht, rfl⟩, hm⟩
    simp only [List.mem_map, Prod.mk.injEq] at hm
    obtain ⟨x, hx, rfl, rfl⟩ := hm
    exact ⟨ht, hx⟩
  · rintro ⟨ht, hx⟩
    exact ⟨_, ⟨tag, ht, rfl⟩, List.mem_map.mpr ⟨hash, hx, rfl⟩⟩

theorem copy_succeeds_of_read_none {input_db : DatabaseInterface} {tag : ResourceTag}
    {hash : Hash} (h : input_db.read_entry tag hash true = none) (output_db : OutputDatabase) :
    copy_succeeds input_db output_db tag hash = false := by
  simp [copy_succeeds, h]

/-- A sweep over kinds one of whose reachable sets holds a hash that the source
cannot read raw ends by `return EXIT_FAILURE`. -/
theorem sweep_tags_fails_of_dangling (input_db : DatabaseInterface) (tags : List ResourceTag)
    (d : Driver) (tag : ResourceTag) (hash : Hash) (ht : tag ∈ tags)
    (hm : hash ∈ d.prune_replayer.accessed tag)
    (hr : input_db.read_entry tag hash true = none) :
    ∃ e, sweep_tags input_db tags d = .error e ∧
      e.output_db.entries
        = sweep_written input_db d.output_db d.prune_replayer tags ++ d.output_db.entries := by
  obtain ⟨h1, h2⟩ := sweep_tags_takeWhile input_db tags d
  have hall : (sweep_sequence d.prune_replayer tags).all
      (fun r => copy_succeeds input_db d.output_db r.1 r.2) = false := by
    rw [List.all_eq_false]
    exact ⟨(tag, hash), (mem_sweep_sequence _ _ _).mpr ⟨ht, hm⟩,
      by simp [copy_succeeds_of_read_none hr]⟩
  rw [hall] at h1
  cases hs : sweep_tags input_db tags d with
  | ok x =>
    rw [hs] at h1
    cases h1
  | error e =>
    rw [hs] at h2
    exact ⟨e, rfl, h2⟩

/-- C11 (sweep failure on a dangling hash). `copy_accessed_types` returns `true` if
and only if, for every hash of the given reachable set, the raw read from the
source (the size query and the data read are the same call) and the raw write to
the destination succeed; whatever it returns, the destination then holds the
copies of the hashes iterated before the first failing one and of none after it;
a hash with no record of that kind in the source makes it return `false`; and a
run whose scan has completed with such a hash in the reachable set of a swept
kind exits with a failure status, the destination holding the copies that the
sweep iterated before the first failing one and none after it. -/
theorem sweep_failure_on_dangling_hash (input_db : DatabaseInterface) :
    (∀ (output_db : OutputDatabase) (accessed : List Hash) (tag : ResourceTag)
        (per_tag_written : ResourceTag → Nat),
      ((copy_accessed_types input_db output_db accessed tag per_tag_written).1 = true ↔
        ∀ hash ∈ accessed, ∃ data, input_db.read_entry tag hash true = some data ∧
          (output_db.write_entry tag hash data).isSome = true) ∧
      (copy_accessed_types input_db output_db accessed tag per_tag_written).2.1.entries
        = ((accessed.takeWhile (copy_succeeds input_db output_db tag)).map
            (raw_copy input_db tag)).reverse ++ output_db.entries ∧
      (∀ hash ∈ accessed, input_db.read_entry tag hash true = none →
        (copy_accessed_types input_db output_db accessed tag per_tag_written).1 = false ∧
        ∀ data, (tag, hash, data) ∉
          ((accessed.takeWhile (copy_succeeds input_db output_db tag)).map
            (raw_copy input_db tag)).reverse)) ∧
    (∀ (replayer : StateReplayer) (output_db : OutputDatabase)
        (should_filter_application_hash : Bool) (application_hash : Hash) (d : Driver)
        (tag : ResourceTag) (hash : Hash),
      scan replayer input_db output_db should_filter_application_hash application_hash = .ok d →
      tag ∈ sweep_order → hash ∈ d.prune_replayer.accessed tag →
      input_db.read_entry tag hash true = none →
      ∃ e, prune replayer input_db output_db should_filter_application_hash application_hash
          = .error e ∧
        e.output_db.entries
          = sweep_written input_db d.output_db d.prune_replayer sweep_order
            ++ d.output_db.entries) := by
  refine ⟨?_, ?_⟩
  · intro output_db accessed tag per_tag_written
    obtain ⟨h1, h2, -⟩ := copy_accessed_loop_takeWhile input_db tag accessed output_db
    have hiff : ∀ hash, copy_succeeds input_db output_db tag hash = true ↔
        ∃ data, input_db.read_entry tag hash true = some data ∧
          (output_db.write_entry tag hash data).isSome = true := by
      intro hash
      rw [copy_succeeds_iff]
      constructor
      · rintro ⟨data, hd, hw⟩
        exact ⟨data, hd, by simp [OutputDatabase.write_entry, hw]⟩
      · rintro ⟨data, hd, hw⟩
        refine ⟨data, hd, ?_⟩
        unfold OutputDatabase.write_entry at hw
        split at hw
        · assumption
        · cases hw
    refine ⟨?_, h2, ?_⟩
    · show (copy_accessed_loop input_db tag accessed output_db).1 = true ↔ _
      rw [h1, List.all_eq_true]
      exact ⟨fun h hash hm => (hiff hash).mp (h hash hm),
        fun h hash hm => (hiff hash).mpr (h hash hm)⟩
    · intro hash hm hr
      have hfalse := copy_succeeds_of_read_none hr output_db
      refine ⟨?_, ?_⟩
      · show (copy_accessed_loop input_db tag accessed output_db).1 = false
        rw [h1, List.all_eq_false]
        exact ⟨hash, hm, by simp [hfalse]⟩
      · intro data hmem
        simp only [List.mem_reverse, List.mem_map] at hmem
        obtain ⟨x, hx, heq⟩ := hmem
        have hxh : x = hash := by
          simp only [raw_copy, Prod.mk.injEq] at heq
          exact heq.2.1
        subst hxh
        have := List.mem_takeWhile_imp hx
        rw [hfalse] at this
        cases this
  · intro replayer output_db sf f d tag hash hscan ht hm hr
    obtain ⟨e, he, hent⟩ := sweep_tags_fails_of_dangling input_db sweep_order d tag hash ht hm hr
    refine ⟨e, ?_, hent⟩
    simp only [prune, hscan, sweep_eq_sweep_tags, he]

/-- The pipeline of `dangling_store` references render pass 41, which the store
does not hold: the scan completes, the run fails, and the destination holds the
session record and shader module 51 (swept before the render passes) but neither a
pipeline layout nor the pipeline. -/
theorem sweep_failure_on_dangling_hash_witness :
    (∃ e, prune toy_replayer dangling_store fresh_output false 0 = .error e) ∧
    (final_state (prune toy_replayer dangling_store fresh_output false 0)).output_db.entries
      = [(RESOURCE_SHADER_MODULE, 51, [255, 4, 1, 51]),
         (RESOURCE_APPLICATION_INFO, 1, [255, 0, 1])] := by
  have hok : (scan toy_replayer dangling_store fresh_output false 0).isOk = true := by decide
  have hmem : 41 ∈ (final_state (scan toy_replayer dangling_store fresh_output false 0)
      ).prune_replayer.accessed RESOURCE_RENDER_PASS := by decide
  refine ⟨?_, by decide⟩
  cases h : scan toy_replayer dangling_store fresh_output false 0 with
  | error e =>
    rw [h] at hok
    cases hok
  | ok d =>
    rw [h] at hmem
    obtain ⟨e, he, -⟩ := (sweep_failure_on_dangling_hash dangling_store).2 toy_replayer
      fresh_output false 0 d RESOURCE_RENDER_PASS 41 h (by decide) hmem (by decide)
    exact ⟨e, he⟩

end Fossilize

namespace Fossilize

open ResourceTag

/-! ## C12: the value of `--filter-application` -/

theorem hex_digit_bounds {c : Char} {v : Nat} (h : hex_digit c = some v) :
    (48 ≤ c.toNat ∧ c.toNat ≤ 57) ∨ (97 ≤ c.toNat ∧ c.toNat ≤ 102) ∨
      (65 ≤ c.toNat ∧ c.toNat ≤ 70) := by
  unfold hex_digit at h
  split at h
  · left; assumption
  · split at h
    · right; left; assumption
    · split at h
      · right; right; assumption
      · cases h

theorem hex_digit_of_isSome {c : Char} (h : (hex_digit c).isSome = true) :
    ∃ v, hex_digit c = some v := by
  cases hd : hex_digit c with
  | none => simp [hd] at h
  | some v => exact ⟨v, rfl⟩

theorem hex_digits_eq_foldl (l : List Char) (acc : Nat)
    (h : l.all (fun c => (hex_digit c).isSome) = true) :
    hex_digits l acc = l.foldl (fun acc c => 16 * acc + (hex_digit c).getD 0) acc := by
  induction l generalizing acc with
  | nil => rfl
  | cons c l ih =>
    simp only [List.all_cons, Bool.and_eq_true] at h
    obtain ⟨v, hv⟩ := hex_digit_of_isSome h.1
    simp only [hex_digits, hv, List.foldl_cons, Option.getD_some]
    exact ih _ h.2

theorem skip_spaces_of_digit {c : Char} {v : Nat} (h : hex_digit c = some v) (l : List Char) :
    skip_spaces (c :: l) = c :: l := by
  have hb := hex_digit_bounds h
  have : isspace c = false := by
    simp only [isspace, decide_eq_false_iff_not]
    omega
  simp [skip_spaces, this]

theorem take_sign_of_digit {c : Char} {v : Nat} (h : hex_digit c = some v) (l : List Char) :
    take_sign (c :: l) = (false, c :: l) := by
  have hb := hex_digit_bounds h
  have h1 : ¬ c.toNat = 45 := by omega
  have h2 : ¬ c.toNat = 43 := by omega
  simp [take_sign, h1, h2]

theorem skip_hex_mark_of_digits (l : List Char)
    (h : l.all (fun c => (hex_digit c).isSome) = true) : skip_hex_mark l = l := by
  match l, h with
  | [], _ => rfl
  | [_], _ => rfl
  | [_, _], _ => rfl
  | z :: x :: d :: rest, h =>
    simp only [List.all_cons, Bool.and_eq_true] at h
    obtain ⟨v, hv⟩ := hex_digit_of_isSome h.2.1
    have hb := hex_digit_bounds hv
    have h1 : ¬ (x.toNat = 120 ∨ x.toNat = 88) := by omega
    simp [skip_hex_mark, h1]

theorem strtoull_of_no_number {value : String} {c : Char} {rest : List Char}
    (hd : value.data = c :: rest) (hspace : isspace c = false) (hminus : c.toNat ≠ 45)
    (hplus : c.toNat ≠ 43) (hdigit : hex_digit c = none) : strtoull value = 0 := by
  have hzero : ¬ c.toNat = 48 := by
    intro h
    simp [hex_digit, h] at hdigit
  have hmark : skip_hex_mark (c :: rest) = c :: rest := by
    match rest with
    | [] => rfl
    | [_] => rfl
    | x :: d :: r => simp [skip_hex_mark, hzero]
  unfold strtoull
  simp only [hd, skip_spaces, hspace, Bool.false_eq_true, if_false, take_sign, hminus, hplus,
    hmark, hex_digits, hdigit]
  decide

theorem strtoull_lt (value : String) : strtoull value < ULLONG_RANGE := by
  unfold strtoull
  simp only
  split
  · decide
  · split
    · exact Nat.mod_lt _ (by decide)
    · omega

theorem strtoull_of_valid {value : String} (h : valid_hex64 value = true) :
    strtoull value = hex_value value := by
  simp only [valid_hex64, Bool.and_eq_true, decide_eq_true_eq] at h
  obtain ⟨⟨hne, hall⟩, hlt⟩ := h
  unfold strtoull hex_value
  cases hd : value.data with
  | nil => exact absurd hd hne
  | cons c l =>
    rw [hd] at hall hlt
    have hc : (hex_digit c).isSome = true := by
      simp only [List.all_cons, Bool.and_eq_true] at hall
      exact hall.1
    obtain ⟨v, hv⟩ := hex_digit_of_isSome hc
    simp only [skip_spaces_of_digit hv, take_sign_of_digit hv, skip_hex_mark_of_digits _ hall]
    rw [if_neg (by omega)]
    simp only [Bool.false_eq_true, if_false]
    exact hex_digits_eq_foldl _ _ hall

/-- C12 as stated fails: `zzz` is not a hexadecimal value, yet `main` reports no
usage error for it. It enables the filter with the value 0 that `strtoull`
returns, opens both stores and runs to a successful end. Likewise `1zz` is
converted to 1, and the run filtered to session 1 writes the records of the
scenario to the destination. -/
theorem malformed_filter_value_accepted :
    valid_hex64 "zzz" = false ∧
    parse_arguments (filtered_arguments "zzz") Options.init
      = some (⟨"in", "out", 0, true⟩, false) ∧
    main (fun _ => some scenario_store) (fun _ => some fresh_output) toy_replayer
        (filtered_arguments "zzz")
      = .ran (prune toy_replayer scenario_store fresh_output true 0) ∧
    (prune toy_replayer scenario_store fresh_output true 0).isOk = true ∧
    valid_hex64 "1zz" = false ∧
    main (fun _ => some scenario_store) (fun _ => some fresh_output) toy_replayer
        (filtered_arguments "1zz")
      = .ran (prune toy_replayer scenario_store fresh_output true 1) ∧
    (prune toy_replayer scenario_store fresh_output true 1).isOk = true ∧
    (final_state (prune toy_replayer scenario_store fresh_output true 1)).output_db.entries.length
      = 7 := by
  refine ⟨by decide, by decide, ?_, by decide, by decide, ?_, by decide, by decide⟩
  · rfl
  · rfl

/-- C12, amended (the value of `--filter-application`). For every argument string
given to `--filter-application`, a hexadecimal value or not, the callback does not
fail: it enables the filter with the value that `strtoull` returns for the string
in base 16. That value is below `2 ^ 64`; for a string that is a 64-bit
hexadecimal value (digits only) it is that value; for the empty string and for a
string whose first character is neither white space, nor a sign, nor a
hexadecimal digit it is 0. With both store paths given, `main` reports no usage
error but goes on to open the stores and, when both open, to the run with that
filter value. -/
theorem filter_value_conversion (value : String) :
    (∀ (rest : List String) (o : Options),
      parse_arguments ("--filter-application" :: value :: rest) o
        = parse_arguments rest
            { o with application_hash := strtoull value, should_filter_application_hash := true }) ∧
    (∀ (open_input : String → Option DatabaseInterface)
        (open_output : String → Option OutputDatabase) (replayer : StateReplayer)
        (input output : String), input ≠ "" → output ≠ "" →
      (∀ success, main open_input open_output replayer
          ["--input-db", input, "--output-db", output, "--filter-application", value]
        ≠ .usage_exit success) ∧
      ∀ input_db output_db, open_input input = some input_db →
        open_output output = some output_db →
        main open_input open_output replayer
            ["--input-db", input, "--output-db", output, "--filter-application", value]
          = .ran (prune replayer input_db output_db true (strtoull value))) ∧
    strtoull value < ULLONG_RANGE ∧
    (valid_hex64 value = true → strtoull value = hex_value value) ∧
    (value.data = [] → strtoull value = 0) ∧
    (∀ c rest, value.data = c :: rest → isspace c = false → c.toNat ≠ 45 → c.toNat ≠ 43 →
      hex_digit c = none → strtoull value = 0) := by
  refine ⟨?_, ?_, strtoull_lt value, strtoull_of_valid, ?_, ?_⟩
  · intro rest o
    rw [parse_arguments]
    simp
  · intro open_input open_output replayer input output hin hout
    have hparse : parse_arguments
        ["--input-db", input, "--output-db", output, "--filter-application", value] Options.init
        = some (⟨input, output, strtoull value, true⟩, false) := by
      simp [parse_arguments, Options.init]
    refine ⟨?_, ?_⟩
    · intro success
      simp only [main, hparse, hin, hout, or_self, if_false]
      cases open_input input with
      | none => simp
      | some input_db =>
        cases open_output output with
        | none => simp
        | some output_db => simp
    · intro input_db output_db h1 h2
      simp only [main, hparse, hin, hout, or_self, if_false, h1, h2]
  · intro hd
    unfold strtoull
    rw [hd]
    decide
  · intro c rest hd hspace hminus hplus hdigit
    exact strtoull_of_no_number hd hspace hminus hplus hdigit

/-- The amended statement at the malformed value `zzz`, with the stores of the
scenario behind the paths `in` and `out`. -/
theorem filter_value_conversion_witness :
    main (fun _ => some scenario_store) (fun _ => some fresh_output) toy_replayer
        ["--input-db", "in", "--output-db", "out", "--filter-application", "zzz"]
      = .ran (prune toy_replayer scenario_store fresh_output true (strtoull "zzz")) ∧
    valid_hex64 "1f" = true ∧ strtoull "1f" = hex_value "1f" ∧ hex_value "1f" = 31 ∧
    strtoull "zzz" = 0 :=
  ⟨((filter_value_conversion "zzz").2.1 (fun _ => some scenario_store)
      (fun _ => some fresh_output) toy_replayer "in" "out" (by decide) (by decide)).2
      scenario_store fresh_output rfl rfl,
    by decide, (filter_value_conversion "1f").2.2.2.1 (by decide), by decide,
    (filter_value_conversion "zzz").2.2.2.2.2 (Char.ofNat 122) [Char.ofNat 122, Char.ofNat 122]
      (by decide) (by decide) (by decide) (by decide) (by decide)⟩

end Fossilize

namespace Fossilize

open ResourceTag

/-! ## C13 to C16: single mark steps -/

/-- C13 (root mark step). For every state that accepts pipelines (the filter is
off, or the current session is the filter value): a graphics pipeline creation
event `(hash, create_info)` inserts `hash` into `accessed_graphics_pipelines`, the
render pass into `accessed_render_passes`, the module of every stage below
`stageCount` into `accessed_shader_modules`, leaves `accessed_compute_pipelines`
as it is, and leaves the pipeline-layout, descriptor-set and sampler sets as
`access_pipeline_layout` on the layout makes them from the state before; a compute
pipeline creation event inserts `hash` into `accessed_compute_pipelines` and its
one stage module into `accessed_shader_modules`, leaves the render passes and the
graphics pipelines as they are, and treats the layout in the same way. -/
theorem root_mark_step (s : PruneReplayer) (hash : Hash) (haccept : s.accepts = true) :
    (∀ create_info : VkGraphicsPipelineCreateInfo,
      (∀ x, x ∈ (enqueue_create_graphics_pipeline s hash create_info).self.accessed_graphics_pipelines
        ↔ x ∈ s.accessed_graphics_pipelines ∨ x = hash) ∧
      (∀ x, x ∈ (enqueue_create_graphics_pipeline s hash create_info).self.accessed_render_passes
        ↔ x ∈ s.accessed_render_passes ∨ x = to_hash create_info.renderPass) ∧
      (∀ x, x ∈ (enqueue_create_graphics_pipeline s hash create_info).self.accessed_shader_modules
        ↔ x ∈ s.accessed_shader_modules ∨
          ∃ stage, stage < create_info.stageCount ∧
            x = to_hash (create_info.pStages stage).module) ∧
      (enqueue_create_graphics_pipeline s hash create_info).self.accessed_compute_pipelines
        = s.accessed_compute_pipelines ∧
      (enqueue_create_graphics_pipeline s hash create_info).self.accessed_pipeline_layouts
        = (access_pipeline_layout s (to_hash create_info.layout)).accessed_pipeline_layouts ∧
      (enqueue_create_graphics_pipeline s hash create_info).self.accessed_descriptor_sets
        = (access_pipeline_layout s (to_hash create_info.layout)).accessed_descriptor_sets ∧
      (enqueue_create_graphics_pipeline s hash create_info).self.accessed_samplers
        = (access_pipeline_layout s (to_hash create_info.layout)).accessed_samplers) ∧
    (∀ create_info : VkComputePipelineCreateInfo,
      (∀ x, x ∈ (enqueue_create_compute_pipeline s hash create_info).self.accessed_compute_pipelines
        ↔ x ∈ s.accessed_compute_pipelines ∨ x = hash) ∧
      (∀ x, x ∈ (enqueue_create_compute_pipeline s hash create_info).self.accessed_shader_modules
        ↔ x ∈ s.accessed_shader_modules ∨ x = to_hash create_info.stage.module) ∧
      (enqueue_create_compute_pipeline s hash create_info).self.accessed_render_passes
        = s.accessed_render_passes ∧
      (enqueue_create_compute_pipeline s hash create_info).self.accessed_graphics_pipelines
        = s.accessed_graphics_pipelines ∧
      (enqueue_create_compute_pipeline s hash create_info).self.accessed_pipeline_layouts
        = (access_pipeline_layout s (to_hash create_info.layout)).accessed_pipeline_layouts ∧
      (enqueue_create_compute_pipeline s hash create_info).self.accessed_descriptor_sets
        = (access_pipeline_layout s (to_hash create_info.layout)).accessed_descriptor_sets ∧
      (enqueue_create_compute_pipeline s hash create_info).self.accessed_samplers
        = (access_pipeline_layout s (to_hash create_info.layout)).accessed_samplers) := by
  refine ⟨?_, ?_⟩
  · intro ci
    obtain ⟨pl, ds, sa, heq, -⟩ := access_pipeline_layout_spec s (to_hash ci.layout)
    simp only [enqueue_create_graphics_pipeline, haccept, if_true]
    rw [← List.foldl_map (fun stage => to_hash (ci.pStages stage).module) insert_shader_module,
      foldl_insert_shader_module, heq]
    refine ⟨?_, ?_, ?_, rfl, rfl, rfl, rfl⟩
    · intro x
      simp only [mem_set_insert]
      exact or_comm
    · intro x
      simp only [mem_set_insert]
      exact or_comm
    · intro x
      simp only [mem_insert_all, List.mem_map, List.mem_range]
      constructor
      · rintro (⟨stage, hlt, rfl⟩ | hx)
        · exact Or.inr ⟨stage, hlt, rfl⟩
        · exact Or.inl hx
      · rintro (hx | ⟨stage, hlt, rfl⟩)
        · exact Or.inr hx
        · exact Or.inl ⟨stage, hlt, rfl⟩
  · intro ci
    obtain ⟨pl, ds, sa, heq, -⟩ := access_pipeline_layout_spec s (to_hash ci.layout)
    have hself : (enqueue_create_compute_pipeline s hash ci).self
        = { s with
            accessed_pipeline_layouts := pl
            accessed_descriptor_sets := ds
            accessed_samplers := sa
            accessed_shader_modules := set_insert (to_hash ci.stage.module) s.accessed_shader_modules
            accessed_compute_pipelines := set_insert hash s.accessed_compute_pipelines } := by
      simp only [enqueue_create_compute_pipeline, haccept, if_true, insert_shader_module, heq]
    rw [hself, heq]
    refine ⟨?_, ?_, rfl, rfl, rfl, rfl, rfl⟩
    · intro x
      simp only [mem_set_insert]
      exact or_comm
    · intro x
      simp only [mem_set_insert]
      exact or_comm

/-- The graphics pipeline 61 of the scenario on the state `example_tables`. -/
theorem root_mark_step_witness :
    example_tables.accepts = true ∧
    (∀ x, x ∈ (enqueue_create_graphics_pipeline example_tables 61
        (gp_view 31 41 [51])).self.accessed_graphics_pipelines
      ↔ x ∈ example_tables.accessed_graphics_pipelines ∨ x = 61) ∧
    (enqueue_create_graphics_pipeline example_tables 61 (gp_view 31 41 [51])).self.sets
      = [[12], [21], [31], [51], [41], [61], []] :=
  ⟨by decide, ((root_mark_step example_tables 61 (by decide)).1 (gp_view 31 41 [51])).1,
    by decide⟩

/-- C14 (mark guard idempotence). For every state and every hash already in the
relevant reachable set, `access_sampler`, `access_descriptor_set` and
`access_pipeline_layout` leave all seven reachable sets as they are, whatever the
stored view of the hash references; and for every state and hash, each of the
three applied twice gives the same reachable sets as applied once. -/
theorem mark_guard_idempotence (s : PruneReplayer) (hash : Hash) :
    (hash ∈ s.accessed_samplers → (access_sampler s hash).sets = s.sets) ∧
    (hash ∈ s.accessed_descriptor_sets → (access_descriptor_set s hash).sets = s.sets) ∧
    (hash ∈ s.accessed_pipeline_layouts → (access_pipeline_layout s hash).sets = s.sets) ∧
    (access_sampler (access_sampler s hash) hash).sets = (access_sampler s hash).sets ∧
    (access_descriptor_set (access_descriptor_set s hash) hash).sets
      = (access_descriptor_set s hash).sets ∧
    (access_pipeline_layout (access_pipeline_layout s hash) hash).sets
      = (access_pipeline_layout s hash).sets := by
  have h1 : ∀ t : PruneReplayer, hash ∈ t.accessed_samplers →
      (access_sampler t hash).sets = t.sets := by
    intro t ht
    simp [access_sampler, PruneReplayer.sets, set_insert_of_mem ht]
  have h2 : ∀ t : PruneReplayer, hash ∈ t.accessed_descriptor_sets →
      (access_descriptor_set t hash).sets = t.sets := by
    intro t ht
    rw [access_descriptor_set_eq, if_pos ht]
  have h3 : ∀ t : PruneReplayer, hash ∈ t.accessed_pipeline_layouts →
      (access_pipeline_layout t hash).sets = t.sets := by
    intro t ht
    rw [access_pipeline_layout_eq, if_pos ht]
  refine ⟨h1 s, h2 s, h3 s, h1 _ ?_, h2 _ ?_, h3 _ ?_⟩
  · simp [access_sampler, mem_set_insert]
  · rw [access_descriptor_set_eq]
    split
    · assumption
    · simp
  · obtain ⟨pl, ds, sa, heq, hpl, -⟩ := access_pipeline_layout_spec s hash
    rw [heq]
    exact (hpl hash).mpr (Or.inr rfl)

/-- Pipeline layout 31 is marked in `example_marked_layout`, and its stored view
names descriptor-set layout 21, which is not: marking 31 again changes nothing. -/
theorem mark_guard_idempotence_witness :
    31 ∈ example_marked_layout.accessed_pipeline_layouts ∧
    21 ∈ example_marked_layout.set_layouts_of 31 ∧
    21 ∉ example_marked_layout.accessed_descriptor_sets ∧
    (access_pipeline_layout example_marked_layout 31).sets = example_marked_layout.sets :=
  ⟨by decide, by decide, by decide,
    (mark_guard_idempotence example_marked_layout 31).2.2.1 (by decide)⟩

/-- C15 (dangling edge at mark time). For every state and every hash that is not
marked and has no stored view, `access_pipeline_layout` inserts the hash into
`accessed_pipeline_layouts` and `access_descriptor_set` inserts it into
`accessed_descriptor_sets`; each returns normally and changes nothing else in the
state, in particular no other reachable set. -/
theorem dangling_edge_at_mark_time (s : PruneReplayer) (hash : Hash) :
    (hash ∉ s.accessed_pipeline_layouts → s.pipeline_layouts hash = none →
      access_pipeline_layout s hash
        = { s with accessed_pipeline_layouts := hash :: s.accessed_pipeline_layouts }) ∧
    (hash ∉ s.accessed_descriptor_sets → s.descriptor_sets hash = none →
      access_descriptor_set s hash
        = { s with accessed_descriptor_sets := hash :: s.accessed_descriptor_sets }) := by
  refine ⟨?_, ?_⟩
  · intro hm hv
    simp [access_pipeline_layout, hm, hv, set_insert]
  · intro hm hv
    simp [access_descriptor_set, hm, hv, set_insert]

/-- In a fresh replayer no view is stored: marking pipeline layout 31 inserts 31
and nothing else. -/
theorem dangling_edge_at_mark_time_witness :
    (access_pipeline_layout PruneReplayer.init 31).sets = [[], [], [31], [], [], [], []] ∧
    (access_descriptor_set PruneReplayer.init 21).sets = [[], [21], [], [], [], [], []] := by
  refine ⟨?_, ?_⟩
  · rw [(dangling_edge_at_mark_time PruneReplayer.init 31).1 (by decide) rfl]
    rfl
  · rw [(dangling_edge_at_mark_time PruneReplayer.init 21).2 (by decide) rfl]
    rfl

/-- C16 (non-pipeline creation events make no marks). For every state and hash,
the sampler, shader-module, render-pass, descriptor-set-layout and pipeline-layout
creation callbacks return `true`, hand back a handle that casts back to the hash,
and leave all seven reachable sets as they are; the first three leave both lookup
tables as they are; each layout callback stores the given view under the hash in
its table, changes no other entry of it, and leaves the other table as it is. -/
theorem non_pipeline_events_make_no_marks (s : PruneReplayer) (hash : Hash) :
    ((enqueue_create_sampler s hash).result = true ∧
      to_hash (enqueue_create_sampler s hash).handle = hash ∧
      (enqueue_create_sampler s hash).self.sets = s.sets ∧
      (enqueue_create_sampler s hash).self.descriptor_sets = s.descriptor_sets ∧
      (enqueue_create_sampler s hash).self.pipeline_layouts = s.pipeline_layouts) ∧
    ((enqueue_create_shader_module s hash).result = true ∧
      to_hash (enqueue_create_shader_module s hash).handle = hash ∧
      (enqueue_create_shader_module s hash).self.sets = s.sets ∧
      (enqueue_create_shader_module s hash).self.descriptor_sets = s.descriptor_sets ∧
      (enqueue_create_shader_module s hash).self.pipeline_layouts = s.pipeline_layouts) ∧
    ((enqueue_create_render_pass s hash).result = true ∧
      to_hash (enqueue_create_render_pass s hash).handle = hash ∧
      (enqueue_create_render_pass s hash).self.sets = s.sets ∧
      (enqueue_create_render_pass s hash).self.descriptor_sets = s.descriptor_sets ∧
      (enqueue_create_render_pass s hash).self.pipeline_layouts = s.pipeline_layouts) ∧
    (∀ create_info : VkDescriptorSetLayoutCreateInfo,
      (enqueue_create_descriptor_set_layout s hash create_info).result = true ∧
      to_hash (enqueue_create_descriptor_set_layout s hash create_info).handle = hash ∧
      (enqueue_create_descriptor_set_layout s hash create_info).self.sets = s.sets ∧
      (enqueue_create_descriptor_set_layout s hash create_info).self.descriptor_sets hash
        = some create_info ∧
      (∀ key, key ≠ hash →
        (enqueue_create_descriptor_set_layout s hash create_info).self.descriptor_sets key
          = s.descriptor_sets key) ∧
      (enqueue_create_descriptor_set_layout s hash create_info).self.pipeline_layouts
        = s.pipeline_layouts) ∧
    (∀ create_info : VkPipelineLayoutCreateInfo,
      (enqueue_create_pipeline_layout s hash create_info).result = true ∧
      to_hash (enqueue_create_pipeline_layout s hash create_info).handle = hash ∧
      (enqueue_create_pipeline_layout s hash create_info).self.sets = s.sets ∧
      (enqueue_create_pipeline_layout s hash create_info).self.pipeline_layouts hash
        = some create_info ∧
      (∀ key, key ≠ hash →
        (enqueue_create_pipeline_layout s hash create_info).self.pipeline_layouts key
          = s.pipeline_layouts key) ∧
      (enqueue_create_pipeline_layout s hash create_info).self.descriptor_sets
        = s.descriptor_sets) := by
  refine ⟨⟨rfl, rfl, rfl, rfl, rfl⟩, ⟨rfl, rfl, rfl, rfl, rfl⟩, ⟨rfl, rfl, rfl, rfl, rfl⟩, ?_, ?_⟩
  · intro ci
    refine ⟨rfl, rfl, rfl, ?_, ?_, rfl⟩
    · simp [enqueue_create_descriptor_set_layout]
    · intro key hk
      simp [enqueue_create_descriptor_set_layout, Function.update_noteq hk]
  · intro ci
    refine ⟨rfl, rfl, rfl, ?_, ?_, rfl⟩
    · simp [enqueue_create_pipeline_layout]
    · intro key hk
      simp [enqueue_create_pipeline_layout, Function.update_noteq hk]

/-- Registering a new view for pipeline layout 32 in `example_tables` keeps the
view stored for pipeline layout 31. -/
theorem non_pipeline_events_make_no_marks_witness :
    (enqueue_create_pipeline_layout example_tables 32 (pl_view [21])).self.pipeline_layouts 31
      = example_tables.pipeline_layouts 31 :=
  ((non_pipeline_events_make_no_marks example_tables 32).2.2.2.2 (pl_view [21])).2.2.2.2.1 31
    (by decide)

end Fossilize

namespace Fossilize

open ResourceTag

/-! ## C17: the order of the scan pass -/

/-- The logged scan of one record is the scan of the record, and it logs the
decoding of the record whenever the scan of the record goes through. -/
theorem scan_entry_logged_spec (replayer : StateReplayer) (input_db : DatabaseInterface)
    (sf : Bool) (f : Hash) (tag : ResourceTag) (hash : Hash) (d : Driver)
    (calls : List ScanCall) :
    (scan_entry_logged replayer input_db sf f tag hash d calls).1
      = scan_entry replayer input_db sf f tag hash d ∧
    ∃ added, (scan_entry_logged replayer input_db sf f tag hash d calls).2 = calls ++ added ∧
      (∀ c ∈ added, c = .decode tag hash) ∧
      ((scan_entry replayer input_db sf f tag hash d).isOk = true →
        added = [.decode tag hash]) := by
  unfold scan_entry_logged scan_entry
  cases hr : input_db.read_entry tag hash false with
  | none =>
    refine ⟨rfl, [], by simp, by simp, ?_⟩
    intro h
    simp [Except.isOk, Except.toBool] at h
  | some data =>
    simp only []
    by_cases ht : tag = RESOURCE_APPLICATION_INFO
    · by_cases hp : (!sf || hash == f) = true
      · simp only [ht, hp, if_true]
        exact ⟨trivial, [.decode RESOURCE_APPLICATION_INFO hash], rfl, by simp, fun _ => rfl⟩
      · simp only [ht, hp, if_true, if_false]
        exact ⟨rfl, [.decode RESOURCE_APPLICATION_INFO hash], rfl, by simp, fun _ => rfl⟩
    · simp only [ht, if_false]
      exact ⟨trivial, [.decode tag hash], rfl, by simp, fun _ => rfl⟩

theorem scan_entries_logged_spec (replayer : StateReplayer) (input_db : DatabaseInterface)
    (sf : Bool) (f : Hash) (tag : ResourceTag) (l : List Hash) (d : Driver)
    (calls : List ScanCall) :
    (scan_entries_logged replayer input_db sf f tag l d calls).1
      = scan_entries replayer input_db sf f tag l d ∧
    ∃ added, (scan_entries_logged replayer input_db sf f tag l d calls).2 = calls ++ added ∧
      (∀ c ∈ added, ∃ hash ∈ l, c = .decode tag hash) ∧
      ((scan_entries replayer input_db sf f tag l d).isOk = true →
        added = l.map (.decode tag)) := by
  induction l generalizing d calls with
  | nil => exact ⟨rfl, [], by simp [scan_entries_logged], by simp, fun _ => rfl⟩
  | cons a l ih =>
    obtain ⟨h1, added1, h2, h3, h4⟩ :=
      scan_entry_logged_spec replayer input_db sf f tag a d calls
    simp only [scan_entries_logged, scan_entries]
    cases hl : scan_entry_logged replayer input_db sf f tag a d calls with
    | mk r calls1 =>
      rw [hl] at h1 h2
      simp only at h1 h2
      rw [← h1]
      cases r with
      | error e =>
        refine ⟨rfl, added1, h2, ?_, ?_⟩
        · intro c hc
          exact ⟨a, List.mem_cons_self _ _, h3 c hc⟩
        · intro h
          simp [Except.isOk, Except.toBool] at h
      | ok d1 =>
        simp only []
        obtain ⟨g1, added2, g2, g3, g4⟩ := ih d1 calls1
        have hadd := h4 (by rw [← h1]; rfl)
        refine ⟨g1, added1 ++ added2, ?_, ?_, ?_⟩
        · rw [g2, h2, List.append_assoc]
        · intro c hc
          rcases List.mem_append.mp hc with hc | hc
          · exact ⟨a, List.mem_cons_self _ _, h3 c hc⟩
          · obtain ⟨hash, hm, rfl⟩ := g3 c hc
            exact ⟨hash, List.mem_cons_of_mem _ hm, rfl⟩
        · intro h
          rw [g4 h, hadd]
          rfl

theorem scan_tag_logged_spec (replayer : StateReplayer) (input_db : DatabaseInterface)
    (sf : Bool) (f : Hash) (tag : ResourceTag) (d : Driver) (calls : List ScanCall) :
    (scan_tag_logged replayer input_db sf f tag d calls).1
      = scan_tag replayer input_db sf f tag d ∧
    ∃ added, (scan_tag_logged replayer input_db sf f tag d calls).2 = calls ++ added ∧
      (∀ c ∈ added, c.tag = tag ∧ tag ≠ RESOURCE_SHADER_MODULE) ∧
      added.filterMap ScanCall.listed = (if tag = RESOURCE_SHADER_MODULE then [] else [tag]) ∧
      ((scan_tag replayer input_db sf f tag d).isOk = true →
        added = if tag = RESOURCE_SHADER_MODULE then []
          else .list tag :: (scanned_hashes input_db tag).map (.decode tag)) := by
  unfold scan_tag_logged scan_tag scanned_hashes
  by_cases ht : tag = RESOURCE_SHADER_MODULE
  · simp only [ht, if_true]
    exact ⟨trivial, [], by simp, by simp, rfl, fun _ => rfl⟩
  · simp only [ht, if_false]
    cases hl : input_db.get_hash_list_for_resource_tag tag with
    | none =>
      refine ⟨rfl, [.list tag], rfl, ?_, rfl, ?_⟩
      · intro c hc
        rw [List.mem_singleton] at hc
        subst hc
        exact ⟨rfl, ht⟩
      · intro h
        simp [Except.isOk, Except.toBool] at h
    | some hashes =>
      simp only []
      obtain ⟨g1, added, g2, g3, g4⟩ := scan_entries_logged_spec replayer input_db sf f tag
        hashes
        { d with
          prune_replayer := { d.prune_replayer with
            allow_application_info := decide (tag = RESOURCE_APPLICATION_INFO) }
          per_tag_read := Function.update d.per_tag_read tag (hashes.length % UINT_RANGE) }
        (calls ++ [.list tag])
      refine ⟨g1, .list tag :: added, ?_, ?_, ?_, ?_⟩
      · rw [g2]
        simp
      · intro c hc
        rcases List.mem_cons.mp hc with rfl | hc
        · exact ⟨rfl, ht⟩
        · obtain ⟨hash, -, rfl⟩ := g3 c hc
          exact ⟨rfl, ht⟩
      · simp only [List.filterMap_cons, ScanCall.listed]
        congr 1
        rw [List.filterMap_eq_nil_iff]
        intro c hc
        obtain ⟨hash, -, rfl⟩ := g3 c hc
        rfl
      · intro h
        rw [g4 h]

/-- The logged scan pass is the scan pass: it ends in the same way in the same
state. Its log holds only calls on the kinds it is given other than
`ShaderModule`, lists kinds along the given order, and after a completed pass
holds, for each kind other than `ShaderModule` in turn, the listing followed by
the decoding of every listed record. -/
theorem scan_tags_logged_spec (replayer : StateReplayer) (input_db : DatabaseInterface)
    (sf : Bool) (f : Hash) (tags : List ResourceTag) (d : Driver) (calls : List ScanCall) :
    (scan_tags_logged replayer input_db sf f tags d calls).1
      = scan_tags replayer input_db sf f tags d ∧
    ∃ added, (scan_tags_logged replayer input_db sf f tags d calls).2 = calls ++ added ∧
      (∀ c ∈ added, c.tag ∈ tags ∧ c.tag ≠ RESOURCE_SHADER_MODULE) ∧
      added.filterMap ScanCall.listed
        <+: tags.filter (fun tag => decide (tag ≠ RESOURCE_SHADER_MODULE)) ∧
      ((scan_tags replayer input_db sf f tags d).isOk = true →
        added = (tags.map (fun tag =>
          if tag = RESOURCE_SHADER_MODULE then []
          else ScanCall.list tag :: (scanned_hashes input_db tag).map (.decode tag))).flatten) := by
  induction tags generalizing d calls with
  | nil => exact ⟨rfl, [], by simp [scan_tags_logged], by simp, by simp, fun _ => rfl⟩
  | cons t l ih =>
    obtain ⟨h1, added1, h2, h3, h4, h5⟩ :=
      scan_tag_logged_spec replayer input_db sf f t d calls
    simp only [scan_tags_logged, scan_tags]
    cases hl : scan_tag_logged replayer input_db sf f t d calls with
    | mk r calls1 =>
      rw [hl] at h1 h2
      simp only at h1 h2
      rw [← h1]
      have hfilter : (t :: l).filter (fun tag => decide (tag ≠ RESOURCE_SHADER_MODULE))
          = (if t = RESOURCE_SHADER_MODULE then [] else [t])
            ++ l.filter (fun tag => decide (tag ≠ RESOURCE_SHADER_MODULE)) := by
        by_cases ht : t = RESOURCE_SHADER_MODULE
        · simp [ht]
        · simp [ht]
      cases r with
      | error e =>
        refine ⟨rfl, added1, h2, ?_, ?_, ?_⟩
        · intro c hc
          obtain ⟨c1, c2⟩ := h3 c hc
          rw [c1]
          exact ⟨List.mem_cons_self _ _, c2⟩
        · rw [h4, hfilter]
          exact List.prefix_append _ _
        · intro h
          simp [Except.isOk, Except.toBool] at h
      | ok d1 =>
        simp only []
        obtain ⟨g1, added2, g2, g3, g4, g5⟩ := ih d1 calls1
        have hadd := h5 (by rw [← h1]; rfl)
        refine ⟨g1, added1 ++ added2, ?_, ?_, ?_, ?_⟩
        · rw [g2, h2, List.append_assoc]
        · intro c hc
          rcases List.mem_append.mp hc with hc | hc
          · obtain ⟨c1, c2⟩ := h3 c hc
            rw [c1]
            exact ⟨List.mem_cons_self _ _, c2⟩
          · obtain ⟨c1, c2⟩ := g3 c hc
            exact ⟨List.mem_cons_of_mem _ c1, c2⟩
        · rw [List.filterMap_append, h4, hfilter]
          exact (List.prefix_append_right_inj _).mpr g4
        · intro h
          rw [g5 h, hadd]
          simp

theorem scan_events_decode_order (replayer : StateReplayer) (input_db : DatabaseInterface) :
    scan_events replayer input_db decode_order = scan_events replayer input_db playback_order := by
  simp [scan_events, decode_order, playback_order, tag_events, scanned_hashes]

/-- C17 (fixed scan order). The scan pass, logged call by call, is the scan pass of
`main`: it ends in the same way in the same state. In every completed scan pass
the kinds that the driver lists in the source store are exactly
`ApplicationInfo`, `Sampler`, `DescriptorSetLayout`, `PipelineLayout`,
`RenderPass`, `GraphicsPipeline`, `ComputePipeline`, in that order; its calls are,
for each of these kinds in turn, the listing of the kind followed by the decoding
of each listed record in list order; the read count of `ShaderModule` is still 0;
and the replayer is the start replayer after the callbacks of these records in
this order. Whatever the outcome of the scan, the kinds listed are an initial
part of that sequence, and no `ShaderModule` is ever listed or decoded. Yet in
every completed run each hash of the `ShaderModule` reachable set has been copied
raw to the destination by the sweep. -/
theorem fixed_scan_order (replayer : StateReplayer) (input_db : DatabaseInterface)
    (output_db : OutputDatabase) (should_filter_application_hash : Bool)
    (application_hash : Hash) :
    (scan_logged replayer input_db output_db should_filter_application_hash application_hash).1
      = scan replayer input_db output_db should_filter_application_hash application_hash ∧
    (∀ d, scan replayer input_db output_db should_filter_application_hash application_hash
        = .ok d →
      (scan_logged replayer input_db output_db should_filter_application_hash
        application_hash).2.filterMap ScanCall.listed = decode_order ∧
      (∀ tag ∈ decode_order, ∃ hashes,
        input_db.get_hash_list_for_resource_tag tag = some hashes ∧
        scanned_hashes input_db tag = hashes) ∧
      (scan_logged replayer input_db output_db should_filter_application_hash
        application_hash).2
        = (decode_order.map (fun tag =>
            ScanCall.list tag :: (scanned_hashes input_db tag).map (.decode tag))).flatten ∧
      d.per_tag_read RESOURCE_SHADER_MODULE = 0 ∧
      ∃ b, d.prune_replayer
        = ((start_replayer should_filter_application_hash application_hash).replay
            (scan_events replayer input_db decode_order)).with_allow b) ∧
    (scan_logged replayer input_db output_db should_filter_application_hash
      application_hash).2.filterMap ScanCall.listed <+: decode_order ∧
    (∀ c ∈ (scan_logged replayer input_db output_db should_filter_application_hash
        application_hash).2, c.tag ≠ RESOURCE_SHADER_MODULE) ∧
    (∀ d, prune replayer input_db output_db should_filter_application_hash application_hash
        = .ok d →
      ∀ hash ∈ d.prune_replayer.accessed_shader_modules,
        ∃ data, input_db.read_entry RESOURCE_SHADER_MODULE hash true = some data ∧
          (RESOURCE_SHADER_MODULE, hash, data) ∈ d.output_db.entries) := by
  obtain ⟨hfst, added, hsnd, hmem, hprefix, hok⟩ := scan_tags_logged_spec replayer input_db
    should_filter_application_hash application_hash playback_order
    (Driver.start output_db should_filter_application_hash application_hash) []
  have hcalls : (scan_logged replayer input_db output_db should_filter_application_hash
      application_hash).2 = added := by
    unfold scan_logged
    rw [hsnd]
    rfl
  refine ⟨hfst, ?_, ?_, ?_, ?_⟩
  · intro d hscan
    have hadded := hok (by
      have : scan_tags replayer input_db should_filter_application_hash application_hash
        playback_order (Driver.start output_db should_filter_application_hash application_hash)
        = .ok d := hscan
      rw [this]
      rfl)
    have heq : (scan_logged replayer input_db output_db should_filter_application_hash
        application_hash).2
        = (decode_order.map (fun tag =>
            ScanCall.list tag :: (scanned_hashes input_db tag).map (.decode tag))).flatten := by
      rw [hcalls, hadded]
      simp [playback_order, decode_order]
    have hlisted := @scan_tags_listed replayer input_db should_filter_application_hash
      application_hash playback_order _ d hscan
    obtain ⟨c1, -, -⟩ := scan_counters hscan
    refine ⟨?_, ?_, heq, ?_, ?_⟩
    · have hnone : ∀ l : List Hash, l.filterMap (fun _ => (none : Option ResourceTag)) = [] := by
        intro l
        induction l with
        | nil => rfl
        | cons a l ih => simp
      rw [heq]
      simp [decode_order, List.filterMap_append, ScanCall.listed, List.filterMap_map,
        Function.comp_def, hnone]
    · intro tag ht
      have hne : tag ≠ RESOURCE_SHADER_MODULE := by
        rintro rfl
        simp [decode_order] at ht
      obtain ⟨hashes, hl⟩ := hlisted tag (by cases tag <;> simp [playback_order]) hne
      exact ⟨hashes, hl, by simp [scanned_hashes, hne, hl]⟩
    · rw [c1 RESOURCE_SHADER_MODULE]
      simp
    · obtain ⟨b, hb⟩ := scan_replayer hscan
      exact ⟨b, by rw [hb, scan_events_decode_order]⟩
  · rw [hcalls]
    exact hprefix
  · intro c hc
    rw [hcalls] at hc
    exact (hmem c hc).2
  · intro d hrun hash hm
    obtain ⟨ds, hscan, hsweep⟩ := prune_ok hrun
    obtain ⟨hrep, -, -, hent, hreads⟩ := sweep_tags_ok input_db sweep_order hsweep
    rw [hrep] at hm
    obtain ⟨data, hd, -⟩ := hreads RESOURCE_SHADER_MODULE (by simp [sweep_order]) hash hm
    refine ⟨data, hd, ?_⟩
    rw [hent]
    apply List.mem_append_left
    rw [List.mem_reverse, List.mem_flatten]
    refine ⟨(ds.prune_replayer.accessed RESOURCE_SHADER_MODULE).map
      (raw_copy input_db RESOURCE_SHADER_MODULE), ?_, ?_⟩
    · exact List.mem_map.mpr ⟨RESOURCE_SHADER_MODULE, by simp [sweep_order], rfl⟩
    · exact List.mem_map.mpr ⟨hash, hm, by simp [raw_copy, hd]⟩

/-- The scenario of the specification: the calls of the scan pass, in order, and
the copy of shader module 51, which the source lists but the scan never reads. -/
theorem fixed_scan_order_witness :
    (scan_logged toy_replayer scenario_store fresh_output false 0).2
      = [.list RESOURCE_APPLICATION_INFO, .decode RESOURCE_APPLICATION_INFO 1,
         .decode RESOURCE_APPLICATION_INFO 2,
         .list RESOURCE_SAMPLER, .decode RESOURCE_SAMPLER 11, .decode RESOURCE_SAMPLER 12,
         .list RESOURCE_DESCRIPTOR_SET_LAYOUT, .decode RESOURCE_DESCRIPTOR_SET_LAYOUT 21,
         .list RESOURCE_PIPELINE_LAYOUT, .decode RESOURCE_PIPELINE_LAYOUT 31,
         .list RESOURCE_RENDER_PASS, .decode RESOURCE_RENDER_PASS 41,
         .list RESOURCE_GRAPHICS_PIPELINE, .decode RESOURCE_GRAPHICS_PIPELINE 61,
         .list RESOURCE_COMPUTE_PIPELINE] ∧
    scenario_store.get_hash_list_for_resource_tag RESOURCE_SHADER_MODULE = some [51] ∧
    (final_state (scan toy_replayer scenario_store fresh_output false 0)).per_tag_read
      RESOURCE_SHADER_MODULE = 0 ∧
    ∃ d, prune toy_replayer scenario_store fresh_output false 0 = .ok d ∧
      51 ∈ d.prune_replayer.accessed_shader_modules ∧
      ∃ data, scenario_store.read_entry RESOURCE_SHADER_MODULE 51 true = some data ∧
        (RESOURCE_SHADER_MODULE, 51, data) ∈ d.output_db.entries := by
  refine ⟨by decide, by decide, by decide, ?_⟩
  have hok : (prune toy_replayer scenario_store fresh_output false 0).isOk = true := by decide
  have hmem : 51 ∈ (final_state (prune toy_replayer scenario_store fresh_output false 0)
      ).prune_replayer.accessed_shader_modules := by decide
  cases h : prune toy_replayer scenario_store fresh_output false 0 with
  | error e =>
    rw [h] at hok
    cases hok
  | ok d =>
    rw [h] at hmem
    exact ⟨d, rfl, hmem,
      (fixed_scan_order toy_replayer scenario_store fresh_output false 0).2.2.2.2 d h 51 hmem⟩

end Fossilize

namespace Fossilize

open ResourceTag

/-! ## C18: null handles -/

theorem null_not_mem_samplers_of (s : PruneReplayer) (d : Hash) :
    VK_NULL_HANDLE ∉ s.samplers_of d := by
  unfold PruneReplayer.samplers_of
  cases s.descriptor_sets d with
  | none => simp
  | some ci =>
    simp only []
    rw [mem_immutable_samplers]
    rintro ⟨binding, -, samplers, -, -, i, -, hne, heq⟩
    exact hne heq

theorem dispatch_null_sampler (s : PruneReplayer) (e : Event)
    (h : VK_NULL_HANDLE ∉ s.accessed_samplers) :
    VK_NULL_HANDLE ∉ (s.dispatch e).accessed_samplers := by
  by_cases hp : e.is_pipeline = true
  · by_cases ha : s.accepts = true
    · obtain ⟨-, -, -, -, -, -, -, hsa⟩ := dispatch_accepted s e hp ha
      rw [hsa]
      rintro (hx | ⟨d, -, -, hx⟩)
      · exact h hx
      · exact null_not_mem_samplers_of s d hx
    · rw [dispatch_rejected s e hp (by simpa using ha)]
      exact h
  · have hsets := dispatch_sets_of_not_pipeline s e (by simpa using hp)
    rw [((sets_eq_iff _ _).mp hsets).1]
    exact h

theorem replay_null_sampler (l : List Event) (s : PruneReplayer)
    (h : VK_NULL_HANDLE ∉ s.accessed_samplers) :
    VK_NULL_HANDLE ∉ (s.replay l).accessed_samplers := by
  induction l generalizing s with
  | nil => exact h
  | cons e l ih =>
    rw [replay_cons]
    exact ih _ (dispatch_null_sampler s e h)

/-- C18 (null handles are filtered only for samplers). After any callback sequence
on the replayer that `main` starts with, hash 0 is not in `accessed_samplers`.
But every accepted graphics pipeline creation event whose render pass handle is
null inserts hash 0 into `accessed_render_passes`; a null layout handle inserts 0
into `accessed_pipeline_layouts` and a null module handle of a stage below
`stageCount` inserts 0 into `accessed_shader_modules`, and likewise for the layout
and the stage module of an accepted compute pipeline. When the scan has completed
with hash 0 in the reachable set of a swept kind and the source store has no
record with hash 0 of that kind, the run ends with a failure status. -/
theorem null_handles_filtered_only_for_samplers :
    (∀ (should_filter_application_hash : Bool) (application_hash : Hash) (events : List Event),
      0 ∉ ((start_replayer should_filter_application_hash application_hash).replay
        events).accessed_samplers) ∧
    (∀ (s : PruneReplayer) (hash : Hash) (create_info : VkGraphicsPipelineCreateInfo),
      s.accepts = true →
      (create_info.renderPass = VK_NULL_HANDLE →
        0 ∈ (enqueue_create_graphics_pipeline s hash create_info).self.accessed_render_passes) ∧
      (create_info.layout = VK_NULL_HANDLE →
        0 ∈ (enqueue_create_graphics_pipeline s hash create_info).self.accessed_pipeline_layouts) ∧
      (∀ stage, stage < create_info.stageCount →
        (create_info.pStages stage).module = VK_NULL_HANDLE →
        0 ∈ (enqueue_create_graphics_pipeline s hash create_info).self.accessed_shader_modules)) ∧
    (∀ (s : PruneReplayer) (hash : Hash) (create_info : VkComputePipelineCreateInfo),
      s.accepts = true →
      (create_info.layout = VK_NULL_HANDLE →
        0 ∈ (enqueue_create_compute_pipeline s hash create_info).self.accessed_pipeline_layouts) ∧
      (create_info.stage.module = VK_NULL_HANDLE →
        0 ∈ (enqueue_create_compute_pipeline s hash create_info).self.accessed_shader_modules)) ∧
    (∀ (replayer : StateReplayer) (input_db : DatabaseInterface) (output_db : OutputDatabase)
        (should_filter_application_hash : Bool) (application_hash : Hash) (d : Driver)
        (tag : ResourceTag),
      scan replayer input_db output_db should_filter_application_hash application_hash = .ok d →
      tag ∈ sweep_order → 0 ∈ d.prune_replayer.accessed tag →
      input_db.read_entry tag 0 true = none →
      ∃ e, prune replayer input_db output_db should_filter_application_hash application_hash
        = .error e) := by
  refine ⟨?_, ?_, ?_, ?_⟩
  · intro sf f events
    apply replay_null_sampler
    have := (unmarked_iff _).mp (start_replayer_unmarked sf f)
    rw [this.1]
    simp
  · intro s hash ci ha
    obtain ⟨-, -, -, hrp, hsm, hpl, -, -⟩ :=
      dispatch_accepted s (.enqueue_create_graphics_pipeline hash ci) rfl ha
    simp only [PruneReplayer.dispatch] at hrp hsm hpl
    refine ⟨?_, ?_, ?_⟩
    · intro h
      rw [hrp]
      right
      simp [Event.root_render_passes, h, to_hash, VK_NULL_HANDLE]
    · intro h
      rw [hpl]
      right
      simp [Event.root_layouts, h, to_hash, VK_NULL_HANDLE]
    · intro stage hlt h
      rw [hsm]
      right
      simp only [Event.root_modules, mem_stage_modules]
      exact ⟨stage, hlt, by simp [h, to_hash, VK_NULL_HANDLE]⟩
  · intro s hash ci ha
    obtain ⟨-, -, -, -, hsm, hpl, -, -⟩ :=
      dispatch_accepted s (.enqueue_create_compute_pipeline hash ci) rfl ha
    simp only [PruneReplayer.dispatch] at hsm hpl
    refine ⟨?_, ?_⟩
    · intro h
      rw [hpl]
      right
      simp [Event.root_layouts, h, to_hash, VK_NULL_HANDLE]
    · intro h
      rw [hsm]
      right
      simp [Event.root_modules, h, to_hash, VK_NULL_HANDLE]
  · intro replayer input_db output_db sf f d tag hscan ht hm hr
    obtain ⟨e, he, -⟩ := sweep_tags_fails_of_dangling input_db sweep_order d tag 0 ht hm hr
    exact ⟨e, by simp only [prune, hscan, sweep_eq_sweep_tags, he]⟩

/-- The graphics pipeline of `null_render_pass_store` has a null render pass
handle: the scan marks render pass 0, the store has no such record, and the run
fails. -/
theorem null_handles_filtered_only_for_samplers_witness :
    (final_state (scan toy_replayer null_render_pass_store fresh_output false 0)
      ).prune_replayer.accessed_render_passes = [0] ∧
    null_render_pass_store.read_entry RESOURCE_RENDER_PASS 0 true = none ∧
    ∃ e, prune toy_replayer null_render_pass_store fresh_output false 0 = .error e := by
  have hok : (scan toy_replayer null_render_pass_store fresh_output false 0).isOk = true := by
    decide
  have hmem : 0 ∈ (final_state (scan toy_replayer null_render_pass_store fresh_output false 0)
      ).prune_replayer.accessed RESOURCE_RENDER_PASS := by decide
  refine ⟨by decide, by decide, ?_⟩
  cases h : scan toy_replayer null_render_pass_store fresh_output false 0 with
  | error e =>
    rw [h] at hok
    cases hok
  | ok d =>
    rw [h] at hmem
    exact null_handles_filtered_only_for_samplers.2.2.2 toy_replayer null_render_pass_store
      fresh_output false 0 d RESOURCE_RENDER_PASS h (by decide) hmem (by decide)

end Fossilize

namespace Fossilize

open ResourceTag

/-! ## C19: a layout registered after the pipeline that references it -/

/-- An accepted pipeline on a pipeline layout that is already marked adds no
descriptor-set layout: the guard of `access_pipeline_layout` skips the expansion. -/
theorem dispatch_pipeline_on_marked_layout (t : PruneReplayer) (e : Event) (p : Hash)
    (hp : e.is_pipeline = true) (hroot : e.root_layouts = [p]) (ha : t.accepts = true)
    (hm : p ∈ t.accessed_pipeline_layouts) :
    (t.dispatch e).accepts = true ∧
    p ∈ (t.dispatch e).accessed_pipeline_layouts ∧
    (∀ x, x ∈ (t.dispatch e).accessed_descriptor_sets ↔ x ∈ t.accessed_descriptor_sets) ∧
    (t.dispatch e).pipeline_layouts = t.pipeline_layouts := by
  obtain ⟨hframe, -, -, -, -, hpl, hds, -⟩ := dispatch_accepted t e hp ha
  refine ⟨(accepts_congr hframe).trans ha, (hpl p).mpr (Or.inl hm), ?_, hframe.2.1⟩
  intro x
  rw [hds, hroot]
  constructor
  · rintro (hx | ⟨q, hq, hnot, -⟩)
    · exact hx
    · rw [List.mem_singleton] at hq
      subst hq
      exact absurd hm hnot
  · exact Or.inl

theorem replay_pipelines_on_marked_layout (later : List Event) (t : PruneReplayer) (p : Hash)
    (hlater : ∀ e ∈ later, e.is_pipeline = true ∧ e.root_layouts = [p])
    (ha : t.accepts = true) (hm : p ∈ t.accessed_pipeline_layouts) :
    t.accepted_events later = later ∧
    p ∈ (t.replay later).accessed_pipeline_layouts ∧
    (∀ x, x ∈ (t.replay later).accessed_descriptor_sets ↔ x ∈ t.accessed_descriptor_sets) ∧
    (t.replay later).pipeline_layouts = t.pipeline_layouts := by
  induction later generalizing t with
  | nil => exact ⟨rfl, hm, fun _ => Iff.rfl, rfl⟩
  | cons e l ih =>
    obtain ⟨hp, hroot⟩ := hlater e (List.mem_cons_self _ _)
    obtain ⟨g1, g2, g3, g4⟩ := dispatch_pipeline_on_marked_layout t e p hp hroot ha hm
    obtain ⟨h1, h2, h3, h4⟩ := ih (t.dispatch e)
      (fun x hx => hlater x (List.mem_cons_of_mem _ hx)) g1 g2
    rw [replay_cons]
    refine ⟨?_, h2, fun x => (h3 x).trans (g3 x), h4.trans g4⟩
    simp only [PruneReplayer.accepted_events, hp, ha, Bool.and_self, if_true, h1,
      List.singleton_append]

/-- C19 (late registration is never repaired). For every state that accepts
pipelines and has no view stored for the pipeline layout `p`, every descriptor-set
layout `d` that is not marked, every pipeline creation event `first` on the layout
`p`, every view `create_info` for `p` that names `d`, and every sequence `later` of
pipeline creation events on the layout `p`: after `first`, then the creation of
`p` with that view, then `later`, all of `first` and `later` having been accepted,
`p` is in `accessed_pipeline_layouts` with its view stored, `d` is not in
`accessed_descriptor_sets`, and the reachable sets are not closed under the
stored views. -/
theorem late_registration_not_repaired (s : PruneReplayer) (p d : Hash) (first : Event)
    (create_info : VkPipelineLayoutCreateInfo) (later : List Event)
    (haccept : s.accepts = true) (hview : s.pipeline_layouts p = none)
    (hd : d ∉ s.accessed_descriptor_sets)
    (hfirst : first.is_pipeline = true ∧ first.root_layouts = [p])
    (hnames : d ∈ set_layouts create_info)
    (hlater : ∀ e ∈ later, e.is_pipeline = true ∧ e.root_layouts = [p]) :
    s.accepted_events (first :: .enqueue_create_pipeline_layout p create_info :: later)
      = first :: later ∧
    p ∈ (s.replay (first :: .enqueue_create_pipeline_layout p create_info :: later)
      ).accessed_pipeline_layouts ∧
    (s.replay (first :: .enqueue_create_pipeline_layout p create_info :: later)
      ).pipeline_layouts p = some create_info ∧
    d ∉ (s.replay (first :: .enqueue_create_pipeline_layout p create_info :: later)
      ).accessed_descriptor_sets ∧
    ¬ (s.replay (first :: .enqueue_create_pipeline_layout p create_info :: later)).Closed := by
  obtain ⟨hp, hroot⟩ := hfirst
  -- the first pipeline marks `p` without expanding it: no view is stored yet
  obtain ⟨hframe, -, -, -, -, hpl, hds, -⟩ := dispatch_accepted s first hp haccept
  have h1acc : (s.dispatch first).accepts = true := (accepts_congr hframe).trans haccept
  have h1pl : p ∈ (s.dispatch first).accessed_pipeline_layouts :=
    (hpl p).mpr (Or.inr (by rw [hroot]; exact List.mem_singleton_self p))
  have h1ds : d ∉ (s.dispatch first).accessed_descriptor_sets := by
    rw [hds, hroot]
    rintro (hx | ⟨q, hq, -, hx⟩)
    · exact hd hx
    · rw [List.mem_singleton] at hq
      subst hq
      simp [PruneReplayer.set_layouts_of, hview] at hx
  -- the layout is registered: the sets stay, the view is stored
  have h2acc : ((s.dispatch first).dispatch
      (.enqueue_create_pipeline_layout p create_info)).accepts = true := h1acc
  have h2pl : p ∈ ((s.dispatch first).dispatch
      (.enqueue_create_pipeline_layout p create_info)).accessed_pipeline_layouts := h1pl
  have h2ds : d ∉ ((s.dispatch first).dispatch
      (.enqueue_create_pipeline_layout p create_info)).accessed_descriptor_sets := h1ds
  have h2view : ((s.dispatch first).dispatch
      (.enqueue_create_pipeline_layout p create_info)).pipeline_layouts p = some create_info := by
    simp [PruneReplayer.dispatch, enqueue_create_pipeline_layout]
  -- the later pipelines find `p` marked
  obtain ⟨g1, g2, g3, g4⟩ := replay_pipelines_on_marked_layout later _ p hlater h2acc h2pl
  have hfinal_ds : d ∉ (s.replay (first :: .enqueue_create_pipeline_layout p create_info
      :: later)).accessed_descriptor_sets := by
    rw [replay_cons, replay_cons, g3]
    exact h2ds
  have hfinal_view : (s.replay (first :: .enqueue_create_pipeline_layout p create_info
      :: later)).pipeline_layouts p = some create_info := by
    rw [replay_cons, replay_cons, g4]
    exact h2view
  have hfinal_pl : p ∈ (s.replay (first :: .enqueue_create_pipeline_layout p create_info
      :: later)).accessed_pipeline_layouts := by
    rw [replay_cons, replay_cons]
    exact g2
  refine ⟨?_, hfinal_pl, hfinal_view, hfinal_ds, ?_⟩
  · have e1 : ∀ (t : PruneReplayer) (e : Event) (l : List Event),
        t.accepted_events (e :: l)
          = (if e.is_pipeline && t.accepts then [e] else []) ++ (t.dispatch e).accepted_events l :=
      fun _ _ _ => rfl
    rw [e1, e1, hp, haccept, g1]
    rfl
  · intro hclosed
    apply hfinal_ds
    apply hclosed.1 p hfinal_pl
    simp only [PruneReplayer.set_layouts_of, hfinal_view]
    exact hnames

/-- The sequence `late_registration` on a fresh replayer: pipeline layout 31 is
marked, its set layout 21 is not, although compute pipeline 71 comes after the
layout has been registered. -/
theorem late_registration_not_repaired_witness :
    (PruneReplayer.init.replay late_registration).sets
      = [[], [], [31], [52, 51], [41], [61], [71]] ∧
    31 ∈ (PruneReplayer.init.replay late_registration).accessed_pipeline_layouts ∧
    21 ∉ (PruneReplayer.init.replay late_registration).accessed_descriptor_sets ∧
    ¬ (PruneReplayer.init.replay late_registration).Closed := by
  have h := late_registration_not_repaired PruneReplayer.init 31 21
    (.enqueue_create_graphics_pipeline 61 (gp_view 31 41 [51])) (pl_view [21])
    [.enqueue_create_compute_pipeline 71 (cp_view 31 52)] (by decide) rfl (by decide)
    ⟨rfl, rfl⟩ (by decide)
    (by
      intro e he
      rw [List.mem_singleton] at he
      subst he
      exact ⟨rfl, rfl⟩)
  exact ⟨by decide, h.2.1, h.2.2.2.1, h.2.2.2.2⟩

end Fossilize

namespace Fossilize

open ResourceTag

/-! ## C1: closure correctness -/

theorem dispatch_pipeline_layouts_step (s : PruneReplayer) (e : Event) (p : Hash) :
    (s.dispatch e).pipeline_layouts p = pipeline_layout_step p (s.pipeline_layouts p) e := by
  cases e with
  | enqueue_create_pipeline_layout hash ci =>
    simp only [PruneReplayer.dispatch, enqueue_create_pipeline_layout, pipeline_layout_step]
    by_cases hp : hash = p
    · subst hp
      simp
    · rw [Function.update_noteq (fun h => hp h.symm), if_neg hp]
  | enqueue_create_compute_pipeline hash ci =>
    rw [(dispatch_tables_of_not_layout s (.enqueue_create_compute_pipeline hash ci) rfl).2]
    rfl
  | enqueue_create_graphics_pipeline hash ci =>
    rw [(dispatch_tables_of_not_layout s (.enqueue_create_graphics_pipeline hash ci) rfl).2]
    rfl
  | _ => rfl

theorem dispatch_descriptor_sets_step (s : PruneReplayer) (e : Event) (h : Hash) :
    (s.dispatch e).descriptor_sets h = descriptor_set_layout_step h (s.descriptor_sets h) e := by
  cases e with
  | enqueue_create_descriptor_set_layout hash ci =>
    simp only [PruneReplayer.dispatch, enqueue_create_descriptor_set_layout,
      descriptor_set_layout_step]
    by_cases hp : hash = h
    · subst hp
      simp
    · rw [Function.update_noteq (fun x => hp x.symm), if_neg hp]
  | enqueue_create_compute_pipeline hash ci =>
    rw [(dispatch_tables_of_not_layout s (.enqueue_create_compute_pipeline hash ci) rfl).1]
    rfl
  | enqueue_create_graphics_pipeline hash ci =>
    rw [(dispatch_tables_of_not_layout s (.enqueue_create_graphics_pipeline hash ci) rfl).1]
    rfl
  | _ => rfl

/-- The stored view of a pipeline layout after a callback sequence is the view of
the latest creation callback for it, or the view stored before. -/
theorem replay_pipeline_layouts_latest (l : List Event) (s : PruneReplayer) (p : Hash) :
    (s.replay l).pipeline_layouts p = l.foldl (pipeline_layout_step p) (s.pipeline_layouts p) := by
  induction l generalizing s with
  | nil => rfl
  | cons e l ih => rw [replay_cons, ih, List.foldl_cons, dispatch_pipeline_layouts_step]

theorem replay_descriptor_sets_latest (l : List Event) (s : PruneReplayer) (h : Hash) :
    (s.replay l).descriptor_sets h
      = l.foldl (descriptor_set_layout_step h) (s.descriptor_sets h) := by
  induction l generalizing s with
  | nil => rfl
  | cons e l ih => rw [replay_cons, ih, List.foldl_cons, dispatch_descriptor_sets_step]

/-- C1 (closure correctness). After a completed scan pass with a decoder that keeps
to the kind of the record it decodes, the reachable sets are closed under the
references of the decoded records. The stored view of every pipeline layout and of
every descriptor-set layout is its decoded view, the one that the latest creation
callback for it in the scan carries, so that a layout has a stored view exactly
when the decoder made a creation callback for it. Every set-layout handle of the
view of a marked pipeline layout is in `accessed_descriptor_sets`, and every
non-null immutable-sampler handle of the view of a marked descriptor-set layout
(binding with a sampler array and a non-zero count) is in `accessed_samplers`:
this holds for the stored view, and for the view of a creation callback of the
scan whenever no creation callback of the scan carries another view for the same
hash. Every marked graphics or compute pipeline is the hash of an accepted
creation callback, and the layout, render pass and every stage module of every
accepted creation callback are in `accessed_pipeline_layouts`,
`accessed_render_passes` and `accessed_shader_modules`. -/
theorem closure_correctness (replayer : StateReplayer) (input_db : DatabaseInterface)
    (output_db : OutputDatabase) (should_filter_application_hash : Bool) (application_hash : Hash)
    (d : Driver) (hk : replayer.kinded input_db = true)
    (hscan : scan replayer input_db output_db should_filter_application_hash application_hash
      = .ok d) :
    (∀ p ∈ d.prune_replayer.accessed_pipeline_layouts, ∀ ci,
        d.prune_replayer.pipeline_layouts p = some ci →
        (Event.enqueue_create_pipeline_layout p ci
            ∈ scan_events replayer input_db playback_order) ∧
        ∀ layout, layout < ci.setLayoutCount →
          to_hash (ci.pSetLayouts layout) ∈ d.prune_replayer.accessed_descriptor_sets) ∧
    (∀ h ∈ d.prune_replayer.accessed_descriptor_sets, ∀ ci,
        d.prune_replayer.descriptor_sets h = some ci →
        (Event.enqueue_create_descriptor_set_layout h ci
            ∈ scan_events replayer input_db playback_order) ∧
        ∀ binding, binding < ci.bindingCount → ∀ samplers,
          (ci.pBindings binding).pImmutableSamplers = some samplers →
          ∀ i, i < (ci.pBindings binding).descriptorCount → samplers i ≠ VK_NULL_HANDLE →
            to_hash (samplers i) ∈ d.prune_replayer.accessed_samplers) ∧
    (∀ hash ∈ d.prune_replayer.accessed_graphics_pipelines, ∃ ci,
        Event.enqueue_create_graphics_pipeline hash ci
          ∈ accepted_roots replayer input_db should_filter_application_hash application_hash) ∧
    (∀ hash ci, Event.enqueue_create_graphics_pipeline hash ci
          ∈ accepted_roots replayer input_db should_filter_application_hash application_hash →
        hash ∈ d.prune_replayer.accessed_graphics_pipelines ∧
        to_hash ci.layout ∈ d.prune_replayer.accessed_pipeline_layouts ∧
        to_hash ci.renderPass ∈ d.prune_replayer.accessed_render_passes ∧
        ∀ stage, stage < ci.stageCount →
          to_hash (ci.pStages stage).module ∈ d.prune_replayer.accessed_shader_modules) ∧
    (∀ hash ∈ d.prune_replayer.accessed_compute_pipelines, ∃ ci,
        Event.enqueue_create_compute_pipeline hash ci
          ∈ accepted_roots replayer input_db should_filter_application_hash application_hash) ∧
    (∀ hash ci, Event.enqueue_create_compute_pipeline hash ci
          ∈ accepted_roots replayer input_db should_filter_application_hash application_hash →
        hash ∈ d.prune_replayer.accessed_compute_pipelines ∧
        to_hash ci.layout ∈ d.prune_replayer.accessed_pipeline_layouts ∧
        to_hash ci.stage.module ∈ d.prune_replayer.accessed_shader_modules) ∧
    (∀ p, d.prune_replayer.pipeline_layouts p
      = latest_pipeline_layout (scan_events replayer input_db playback_order) p) ∧
    (∀ h, d.prune_replayer.descriptor_sets h
      = latest_descriptor_set_layout (scan_events replayer input_db playback_order) h) ∧
    (∀ p ∈ d.prune_replayer.accessed_pipeline_layouts, ∀ ci,
        Event.enqueue_create_pipeline_layout p ci
          ∈ scan_events replayer input_db playback_order →
        (∀ ci1, Event.enqueue_create_pipeline_layout p ci1
          ∈ scan_events replayer input_db playback_order → ci1 = ci) →
        d.prune_replayer.pipeline_layouts p = some ci ∧
        ∀ layout, layout < ci.setLayoutCount →
          to_hash (ci.pSetLayouts layout) ∈ d.prune_replayer.accessed_descriptor_sets) ∧
    (∀ h ∈ d.prune_replayer.accessed_descriptor_sets, ∀ ci,
        Event.enqueue_create_descriptor_set_layout h ci
          ∈ scan_events replayer input_db playback_order →
        (∀ ci1, Event.enqueue_create_descriptor_set_layout h ci1
          ∈ scan_events replayer input_db playback_order → ci1 = ci) →
        d.prune_replayer.descriptor_sets h = some ci ∧
        ∀ binding, binding < ci.bindingCount → ∀ samplers,
          (ci.pBindings binding).pImmutableSamplers = some samplers →
          ∀ i, i < (ci.pBindings binding).descriptorCount → samplers i ≠ VK_NULL_HANDLE →
            to_hash (samplers i) ∈ d.prune_replayer.accessed_samplers) := by
  obtain ⟨b, hb⟩ := scan_replayer hscan
  obtain ⟨hclosed, -⟩ := replay_scan_closed_sound replayer input_db
    should_filter_application_hash application_hash hk
  obtain ⟨hfrom, hmarked⟩ := replay_scan_roots replayer input_db
    should_filter_application_hash application_hash
  obtain ⟨htab, -⟩ := replay_scan_traced replayer input_db
    should_filter_application_hash application_hash
  rw [hb]
  simp only [PruneReplayer.with_allow]
  refine ⟨?_, ?_, ?_, ?_, ?_, ?_, ?_, ?_, ?_, ?_⟩
  · intro p hp ci hci
    refine ⟨htab.2 p ci hci, ?_⟩
    intro layout hlt
    apply hclosed.1 p hp
    simp only [PruneReplayer.set_layouts_of, hci]
    exact (mem_set_layouts ci _).mpr ⟨layout, hlt, rfl⟩
  · intro h hh ci hci
    refine ⟨htab.1 h ci hci, ?_⟩
    intro binding hlt samplers hsome i hi hne
    apply hclosed.2 h hh
    simp only [PruneReplayer.samplers_of, hci]
    exact (mem_immutable_samplers ci _).mpr
      ⟨binding, hlt, samplers, hsome, Nat.not_eq_zero_of_lt hi, i, hi, hne, rfl⟩
  · intro hash hh
    obtain ⟨e, he, hx⟩ := hfrom.1 hash hh
    cases e <;> simp [Event.root_graphics] at hx
    subst hx
    exact ⟨_, he⟩
  · intro hash ci he
    obtain ⟨h1, -, h3, h4, h5⟩ := hmarked _ he
    refine ⟨h1 hash (by simp [Event.root_graphics]), h5 _ (by simp [Event.root_layouts]),
      h3 _ (by simp [Event.root_render_passes]), ?_⟩
    intro stage hlt
    exact h4 _ ((mem_stage_modules ci _).mpr ⟨stage, hlt, rfl⟩)
  · intro hash hh
    obtain ⟨e, he, hx⟩ := hfrom.2.1 hash hh
    cases e <;> simp [Event.root_computes] at hx
    subst hx
    exact ⟨_, he⟩
  · intro hash ci he
    obtain ⟨-, h2, -, h4, h5⟩ := hmarked _ he
    exact ⟨h2 hash (by simp [Event.root_computes]), h5 _ (by simp [Event.root_layouts]),
      h4 _ (by simp [Event.root_modules])⟩
  · intro p
    rw [replay_pipeline_layouts_latest]
    cases should_filter_application_hash <;> rfl
  · intro h
    rw [replay_descriptor_sets_latest]
    cases should_filter_application_hash <;> rfl
  · intro p hp ci hmem huniq
    obtain ⟨w, hw⟩ := replay_registered_pipeline_layout _
      (start_replayer should_filter_application_hash application_hash) p ci hmem
    have hwci : w = ci := huniq w (htab.2 p w hw)
    subst hwci
    refine ⟨hw, ?_⟩
    intro layout hlt
    apply hclosed.1 p hp
    simp only [PruneReplayer.set_layouts_of, hw]
    exact (mem_set_layouts w _).mpr ⟨layout, hlt, rfl⟩
  · intro h hh ci hmem huniq
    obtain ⟨w, hw⟩ := replay_registered_descriptor_set _
      (start_replayer should_filter_application_hash application_hash) h ci hmem
    have hwci : w = ci := huniq w (htab.1 h w hw)
    subst hwci
    refine ⟨hw, ?_⟩
    intro binding hlt samplers hsome i hi hne
    apply hclosed.2 h hh
    simp only [PruneReplayer.samplers_of, hw]
    exact (mem_immutable_samplers w _).mpr
      ⟨binding, hlt, samplers, hsome, Nat.not_eq_zero_of_lt hi, i, hi, hne, rfl⟩

/-- The scenario of the specification satisfies the hypotheses of
`closure_correctness`: pipeline layout 31 is marked, the scan decodes one view for
it, which names descriptor-set layout 21, and 21 is marked. -/
theorem closure_correctness_witness :
    toy_replayer.kinded scenario_store = true ∧
    ∃ d, scan toy_replayer scenario_store fresh_output false 0 = .ok d ∧
      31 ∈ d.prune_replayer.accessed_pipeline_layouts ∧
      Event.enqueue_create_pipeline_layout 31 (pl_view [21])
        ∈ scan_events toy_replayer scenario_store playback_order ∧
      d.prune_replayer.pipeline_layouts 31 = some (pl_view [21]) ∧
      21 ∈ d.prune_replayer.accessed_descriptor_sets := by
  refine ⟨by decide, ?_⟩
  have hevents : scan_events toy_replayer scenario_store playback_order
      = [.set_application_info, .set_application_info,
         .set_current_application_info 1, .enqueue_create_sampler 11,
         .set_current_application_info 1, .enqueue_create_sampler 12,
         .set_current_application_info 1,
         .enqueue_create_descriptor_set_layout 21 (dsl_view [12]),
         .set_current_application_info 1, .enqueue_create_pipeline_layout 31 (pl_view [21]),
         .set_current_application_info 1, .enqueue_create_render_pass 41,
         .set_current_application_info 1,
         .enqueue_create_graphics_pipeline 61 (gp_view 31 41 [51])] := rfl
  have hmem : Event.enqueue_create_pipeline_layout 31 (pl_view [21])
      ∈ scan_events toy_replayer scenario_store playback_order := by
    rw [hevents]
    simp
  have huniq : ∀ ci1, Event.enqueue_create_pipeline_layout 31 ci1
      ∈ scan_events toy_replayer scenario_store playback_order → ci1 = pl_view [21] := by
    intro ci1 h1
    rw [hevents] at h1
    simpa using h1
  have hmarked : 31 ∈ (final_state (scan toy_replayer scenario_store fresh_output false 0)
      ).prune_replayer.accessed_pipeline_layouts := by decide
  cases h : scan toy_replayer scenario_store fresh_output false 0 with
  | error e =>
    have := scenario_scan_ok
    rw [h] at this
    cases this
  | ok d =>
    rw [h] at hmarked
    obtain ⟨hview, hlayouts⟩ :=
      (closure_correctness toy_replayer scenario_store fresh_output false 0 d
        (by decide) h).2.2.2.2.2.2.2.2.1 31 hmarked (pl_view [21]) hmem huniq
    exact ⟨d, rfl, hmarked, hmem, hview, hlayouts 0 (by decide)⟩

end Fossilize

